import Mathlib

/-!
Verification development for the MCP Server Builder generation core.

The definitions in this file are a shallow embedding of the TypeScript
sources (src/generation/ResponseParser.ts, src/generation/CodeGenerator.ts,
src/generation/Templates.ts, and the CreateServerCommand helpers).
Strings are modelled as `List Char`; JavaScript regular expressions are
modelled by executable scanning functions that reproduce the backtracking
behaviour of the concrete regexes appearing in the source; the filesystem
is modelled as an explicit state threaded through the materialisation
functions, with failure-injection predicates standing for I/O errors.
-/

namespace MCPB

/-! ## Basic character classes and string utilities (JavaScript semantics) -/

/-- Characters matched by the JavaScript regex class `\s`. -/
def jsWS (c : Char) : Bool :=
  c.toNat = 32 || (9 ≤ c.toNat && c.toNat ≤ 13) || c.toNat = 160 || c.toNat = 5760 ||
  (8192 ≤ c.toNat && c.toNat ≤ 8202) || c.toNat = 8232 || c.toNat = 8233 ||
  c.toNat = 8239 || c.toNat = 8287 || c.toNat = 12288 || c.toNat = 65279

/-- JavaScript line terminators (excluded by `.`, recognised by multiline anchors). -/
def isLineTerm (c : Char) : Bool :=
  c.toNat = 10 || c.toNat = 13 || c.toNat = 8232 || c.toNat = 8233

/-- Characters matched by the JavaScript regex class `\w`. -/
def isWordChar (c : Char) : Bool :=
  ('a' ≤ c && c ≤ 'z') || ('A' ≤ c && c ≤ 'Z') || ('0' ≤ c && c ≤ '9') || c = '_'

/-- Model of `String.prototype.trim`. -/
def jsTrim (l : List Char) : List Char :=
  ((l.dropWhile jsWS).reverse.dropWhile jsWS).reverse

/-- The fence character (code point 96). -/
def isBacktick (c : Char) : Bool := c.toNat = 96

/-- Does `l` start with the pattern `p` (`String.prototype.startsWith`)? -/
def startsWithL : List Char → List Char → Bool
  | [], _ => true
  | _ :: _, [] => false
  | p :: ps, c :: cs => p = c && startsWithL ps cs

/-- Does `l` contain `pat` as a contiguous substring (`String.prototype.includes`)? -/
def containsSub (pat : List Char) : List Char → Bool
  | [] => startsWithL pat []
  | l@(_ :: t) => startsWithL pat l || containsSub pat t

/-- Does `l` end with the suffix `suf` (`String.prototype.endsWith`)? -/
def endsWithL (suf l : List Char) : Bool :=
  startsWithL suf.reverse l.reverse

/-! ## Project-name helpers (CreateServerCommand.sanitizeName / ensureServerSuffix / slugify) -/

/-- Model of `value.toLowerCase()` (ASCII range, as used on ASCII project names). -/
def lowerStr (l : List Char) : List Char := l.map Char.toLower

/-- The character class `[a-z0-9-]` of `sanitizeName`. -/
def allowedChar (c : Char) : Bool :=
  ('a' ≤ c && c ≤ 'z') || ('0' ≤ c && c ≤ '9') || c = '-'

/-- Worker for `replaceBadRuns`; the flag records whether the previous character
was part of a run of characters outside the class (already replaced). -/
def replaceBadRunsGo : Bool → List Char → List Char
  | _, [] => []
  | inRun, c :: cs =>
    if allowedChar c then c :: replaceBadRunsGo false cs
    else if inRun then replaceBadRunsGo true cs
    else '-' :: replaceBadRunsGo true cs

/-- Model of `.replace(/[^a-z0-9-]+/g, '-')`: every maximal run of characters
outside the class becomes a single hyphen. -/
def replaceBadRuns (l : List Char) : List Char := replaceBadRunsGo false l

/-- Model of `.replace(/^-+|-+$/g, '')`: strip leading and trailing hyphen runs. -/
def stripHyphens (l : List Char) : List Char :=
  ((l.dropWhile (· = '-')).reverse.dropWhile (· = '-')).reverse

/-- Worker for `collapseHyphens`; the flag records whether the previous
character was a hyphen of the current run. -/
def collapseHyphensGo : Bool → List Char → List Char
  | _, [] => []
  | inRun, c :: cs =>
    if c = '-' then
      (if inRun then collapseHyphensGo true cs else '-' :: collapseHyphensGo true cs)
    else c :: collapseHyphensGo false cs

/-- Model of the third replace of `sanitizeName` (a run of two or more hyphens
becomes a single hyphen): collapse every hyphen run to one hyphen. -/
def collapseHyphens (l : List Char) : List Char := collapseHyphensGo false l

/-- Model of `CreateServerCommand.sanitizeName`. -/
def sanitizeName (l : List Char) : List Char :=
  collapseHyphens (stripHyphens (replaceBadRuns (lowerStr l)))

/-- Model of `CreateServerCommand.ensureServerSuffix`. -/
def ensureServerSuffix (l : List Char) : List Char :=
  if l = [] then l
  else if endsWithL ("-server".data) l then l
  else l ++ ("-server".data)

/-- Model of `CreateServerCommand.slugify`. -/
def slugify (l : List Char) : List Char :=
  let s := sanitizeName l
  if s = [] then ("mcp-server".data) else ensureServerSuffix s

/-! ## Strategy selector (ResponseParserFactory.autoDetectParser) -/

/-- Tail condition after the closing brace of the multiline object pattern:
optional whitespace up to a line end (the multiline dollar anchor matches at
the end of the string or before a line terminator). -/
def mlineTailOK : List Char → Bool
  | [] => true
  | c :: t => isLineTerm c || (jsWS c && mlineTailOK t)

/-- Scan for a closing brace whose tail satisfies the multiline dollar anchor. -/
def closeBraceSearch : List Char → Bool
  | [] => false
  | c :: t => (c = '}' && mlineTailOK t) || closeBraceSearch t

/-- Attempt of the multiline object pattern at one position: optional
whitespace, an opening brace, then any text up to an anchored closing brace. -/
def mloAt (l : List Char) : Bool :=
  match l.dropWhile jsWS with
  | [] => false
  | c :: t => c = '{' && closeBraceSearch t

/-- Scan of the multiline object regex over all positions; the flag records
whether the current position is a line start (start of input or just after a
line terminator), where the multiline caret anchor matches. -/
def mloGo : Bool → List Char → Bool
  | atLS, [] => atLS && mloAt []
  | atLS, c :: t => (atLS && mloAt (c :: t)) || mloGo (isLineTerm c) t

/-- Model of `response.match` of the multiline-anchored object regex used by
`ResponseParserFactory.autoDetectParser` (an object pattern anchored at line
starts and line ends, multiline flag set). -/
def multilineObjTest (l : List Char) : Bool := mloGo true l

/-- The three extraction strategies the factory can select. -/
inductive ParserKind
  | json
  | mixed
  | text
deriving DecidableEq

/-- Model of `ResponseParserFactory.autoDetectParser`. -/
def autoDetectParser (l : List Char) : ParserKind :=
  if containsSub ("```json".data) l || multilineObjTest l then ParserKind.json
  else if containsSub ("##".data) l || containsSub ("```".data) l then ParserKind.mixed
  else ParserKind.text

/-- Modelled from the spec: the structured-object pattern "anchored at the
whole text's start and end" as the claim and spec sentence word it (optional
whitespace, an opening brace, any text, a closing brace, optional whitespace,
spanning the entire input). This is the claim-side reading, kept for
comparison with the code's line-anchored `multilineObjTest`. -/
def wholeAnchoredObjTest (l : List Char) : Bool :=
  match l.dropWhile jsWS with
  | '{' :: t =>
    match t.reverse.dropWhile jsWS with
    | '}' :: _ => true
    | _ => false
  | _ => false

/-- Declarative reading of the multiline object pattern: some line start,
optional whitespace, an opening brace, any text, a closing brace, optional
whitespace up to a line end. -/
def MLODecl (l : List Char) : Prop :=
  ∃ p q r t1 t2 : List Char,
    l = p ++ q ++ '{' :: (r ++ '}' :: (t1 ++ t2)) ∧
    (p = [] ∨ ∃ c, p.getLast? = some c ∧ isLineTerm c = true) ∧
    (∀ c ∈ q, jsWS c = true) ∧
    (∀ c ∈ t1, jsWS c = true) ∧
    (t2 = [] ∨ ∃ c, t2.head? = some c ∧ isLineTerm c = true)

/-! ## Markdown section extraction (BaseResponseParser.extractSections) -/

/-- Worker for the replace of whitespace runs by underscores in section names. -/
def wsRunsToUnderscoreGo : Bool → List Char → List Char
  | _, [] => []
  | inRun, c :: cs =>
    if jsWS c then
      (if inRun then wsRunsToUnderscoreGo true cs else '_' :: wsRunsToUnderscoreGo true cs)
    else c :: wsRunsToUnderscoreGo false cs

/-- Model of `.replace` of whitespace runs by a single underscore. -/
def wsRunsToUnderscore (l : List Char) : List Char := wsRunsToUnderscoreGo false l

/-- Normalization of a section header name as in `extractSections`:
lowercased, whitespace runs replaced by underscores. -/
def normalizeSectionName (s : List Char) : List Char :=
  wsRunsToUnderscore (s.map Char.toLower)

/-- The lookahead of the section regex: a position where two hash marks are
followed by at least one whitespace character. -/
def sectionLookaheadAt (l : List Char) : Bool :=
  startsWithL ("##".data) l &&
    (match l.drop 2 with
     | [] => false
     | c :: _ => jsWS c)

/-- Split the section content at the first position satisfying the lookahead
(or take everything when the lookahead never fires, matching the end-of-input
alternative of the lookahead). -/
def contentSplit : List Char → (List Char × List Char)
  | [] => ([], [])
  | c :: t =>
    if sectionLookaheadAt (c :: t) then ([], c :: t)
    else (c :: (contentSplit t).1, (contentSplit t).2)

/-- Attempt to complete a section match just after two hash marks, following
the backtracking behaviour of the section regex: a greedy whitespace run (at
least one character), a single lazily captured header character (which cannot
be a line terminator), a greedy whitespace run, then the content up to the
lookahead. Returns the header character, the raw content and the remainder of
the input after the match. -/
def completeSection (m : List Char) : Option (Char × List Char × List Char) :=
  if m.takeWhile jsWS = [] then none
  else
    match m.dropWhile jsWS with
    | r0 :: rtail =>
      some (r0, (contentSplit (rtail.dropWhile jsWS)).1,
        (contentSplit (rtail.dropWhile jsWS)).2)
    | [] =>
      match ((m.takeWhile jsWS).drop 1).reverse.dropWhile isLineTerm with
      | c :: _ => some (c, [], [])
      | [] => none

/-- Find the first section match in the input: at each position try two hash
marks followed by a completed match, advancing one character on failure. -/
def findSection : List Char → Option (Char × List Char × List Char)
  | [] => none
  | l@(_ :: t) =>
    if startsWithL ("##".data) l then
      match completeSection (l.drop 2) with
      | some r => some r
      | none => findSection t
    else findSection t

/-- Fuelled iteration of the section regex over the input. -/
def extractSectionsGo : Nat → List Char → List (List Char × List Char)
  | 0, _ => []
  | Nat.succ f, l =>
    match findSection l with
    | none => []
    | some (nm, content, rem) =>
      (normalizeSectionName [nm], jsTrim content) :: extractSectionsGo f rem

/-- Model of `BaseResponseParser.extractSections`: all matches of the section
regex, each contributing a normalized name and the trimmed content. -/
def extractSections (l : List Char) : List (List Char × List Char) :=
  extractSectionsGo (l.length + 1) l

/-- Lookup of a section by key; later matches overwrite earlier ones, as
assignment to the same object key does. -/
def sectionsGet (secs : List (List Char × List Char)) (key : List Char) :
    Option (List Char) :=
  (secs.reverse.find? (fun kv => kv.1 == key)).map (fun kv => kv.2)

/-! ## JSON values and a model of JSON.parse -/

/-- JSON values as produced by `JSON.parse`. Numbers keep their raw token
(no claim in scope compares numeric values, and this avoids floating point). -/
inductive JsonValue
  | jnull
  | jbool (b : Bool)
  | jnum (raw : List Char)
  | jstr (s : List Char)
  | jarr (xs : List JsonValue)
  | jobj (fields : List (List Char × JsonValue))

/-- JSON grammar whitespace (space, tab, newline, carriage return). -/
def jsonWS (c : Char) : Bool :=
  c.toNat = 32 || c.toNat = 9 || c.toNat = 10 || c.toNat = 13

/-- Decimal digit. -/
def isDigitChar (c : Char) : Bool := '0' ≤ c && c ≤ '9'

/-- Hexadecimal digit value. -/
def hexVal (c : Char) : Option Nat :=
  if isDigitChar c then some (c.toNat - 48)
  else if 'a' ≤ c && c ≤ 'f' then some (c.toNat - 87)
  else if 'A' ≤ c && c ≤ 'F' then some (c.toNat - 55)
  else none

/-- JSON string body scanner (after the opening quote): handles escapes and
returns the decoded content together with the input after the closing quote. -/
def parseStringGo : Nat → List Char → List Char → Option (List Char × List Char)
  | 0, _, _ => none
  | Nat.succ f, acc, l =>
    match l with
    | [] => none
    | c :: t =>
      if c = '"' then some (acc.reverse, t)
      else if c = '\\' then
        match t with
        | [] => none
        | e :: t2 =>
          if e = '"' then parseStringGo f ('"' :: acc) t2
          else if e = '\\' then parseStringGo f ('\\' :: acc) t2
          else if e = '/' then parseStringGo f ('/' :: acc) t2
          else if e = 'b' then parseStringGo f (Char.ofNat 8 :: acc) t2
          else if e = 'f' then parseStringGo f (Char.ofNat 12 :: acc) t2
          else if e = 'n' then parseStringGo f ('\n' :: acc) t2
          else if e = 'r' then parseStringGo f (Char.ofNat 13 :: acc) t2
          else if e = 't' then parseStringGo f ('\t' :: acc) t2
          else if e = 'u' then
            match t2 with
            | h1 :: h2 :: h3 :: h4 :: t3 =>
              match hexVal h1, hexVal h2, hexVal h3, hexVal h4 with
              | some a, some b, some c2, some d =>
                parseStringGo f (Char.ofNat (a * 4096 + b * 256 + c2 * 16 + d) :: acc) t3
              | _, _, _, _ => none
            | _ => none
          else none
      else if c.toNat < 32 then none
      else parseStringGo f (c :: acc) t

/-- Optional exponent part of a JSON number. -/
def parseExpOpt (l : List Char) : Option (List Char × List Char) :=
  match l with
  | [] => some ([], [])
  | c :: t =>
    if c = 'e' || c = 'E' then
      match t with
      | [] => none
      | s :: t2 =>
        if s = '+' || s = '-' then
          match t2.takeWhile isDigitChar with
          | [] => none
          | _ => some (c :: s :: t2.takeWhile isDigitChar, t2.dropWhile isDigitChar)
        else
          match t.takeWhile isDigitChar with
          | [] => none
          | _ => some (c :: t.takeWhile isDigitChar, t.dropWhile isDigitChar)
    else some ([], c :: t)

/-- Optional fraction then optional exponent of a JSON number. -/
def parseFracExp (l : List Char) : Option (List Char × List Char) :=
  match l with
  | [] => parseExpOpt []
  | c :: t =>
    if c = '.' then
      match t.takeWhile isDigitChar with
      | [] => none
      | _ =>
        (parseExpOpt (t.dropWhile isDigitChar)).map
          (fun p => ('.' :: t.takeWhile isDigitChar ++ p.1, p.2))
    else parseExpOpt (c :: t)

/-- Integer part of a JSON number followed by fraction and exponent. -/
def parseNumCore (l : List Char) : Option (List Char × List Char) :=
  match l with
  | [] => none
  | c :: t =>
    if c = '0' then (parseFracExp t).map (fun p => ('0' :: p.1, p.2))
    else if isDigitChar c then
      (parseFracExp (t.dropWhile isDigitChar)).map
        (fun p => (c :: t.takeWhile isDigitChar ++ p.1, p.2))
    else none

/-- JSON number token (with optional leading minus). -/
def parseNumber (l : List Char) : Option (List Char × List Char) :=
  match l with
  | [] => none
  | c :: t =>
    if c = '-' then (parseNumCore t).map (fun p => ('-' :: p.1, p.2))
    else parseNumCore (c :: t)

mutual

/-- Fuelled model of the JSON value grammar of `JSON.parse`. -/
def parseValue : Nat → List Char → Option (JsonValue × List Char)
  | 0, _ => none
  | Nat.succ f, l =>
    match l.dropWhile jsonWS with
    | [] => none
    | c :: t =>
      if c = '"' then
        match parseStringGo (t.length + 1) [] t with
        | some (s, r) => some (JsonValue.jstr s, r)
        | none => none
      else if c = '{' then
        match t.dropWhile jsonWS with
        | [] => none
        | x :: t2 => if x = '}' then some (JsonValue.jobj [], t2) else parseMembers f t []
      else if c = '[' then
        match t.dropWhile jsonWS with
        | [] => none
        | x :: t2 => if x = ']' then some (JsonValue.jarr [], t2) else parseItems f t []
      else if c = 'n' then
        (if startsWithL ("ull".data) t then some (JsonValue.jnull, t.drop 3) else none)
      else if c = 't' then
        (if startsWithL ("rue".data) t then some (JsonValue.jbool true, t.drop 3) else none)
      else if c = 'f' then
        (if startsWithL ("alse".data) t then some (JsonValue.jbool false, t.drop 4) else none)
      else
        match parseNumber (c :: t) with
        | some (raw, r) => some (JsonValue.jnum raw, r)
        | none => none

/-- Fuelled object member list of `JSON.parse` (after the opening brace). -/
def parseMembers : Nat → List Char →
    List (List Char × JsonValue) → Option (JsonValue × List Char)
  | 0, _, _ => none
  | Nat.succ f, l, acc =>
    match l.dropWhile jsonWS with
    | [] => none
    | q :: t =>
      if q = '"' then
        match parseStringGo (t.length + 1) [] t with
        | none => none
        | some (k, r) =>
          match r.dropWhile jsonWS with
          | [] => none
          | colon :: r2 =>
            if colon = ':' then
              match parseValue f r2 with
              | none => none
              | some (v, r3) =>
                match r3.dropWhile jsonWS with
                | [] => none
                | d :: r4 =>
                  if d = ',' then parseMembers f r4 ((k, v) :: acc)
                  else if d = '}' then some (JsonValue.jobj ((k, v) :: acc).reverse, r4)
                  else none
            else none
      else none

/-- Fuelled array item list of `JSON.parse` (after the opening bracket). -/
def parseItems : Nat → List Char → List JsonValue → Option (JsonValue × List Char)
  | 0, _, _ => none
  | Nat.succ f, l, acc =>
    match parseValue f l with
    | none => none
    | some (v, r) =>
      match r.dropWhile jsonWS with
      | [] => none
      | d :: r2 =>
        if d = ',' then parseItems f r2 (v :: acc)
        else if d = ']' then some (JsonValue.jarr (v :: acc).reverse, r2)
        else none

end

/-- Model of `JSON.parse`: parse one value and require only trailing
whitespace. `none` models a thrown SyntaxError. -/
def jsonParse (l : List Char) : Option JsonValue :=
  match parseValue (l.length + 1) l with
  | some (v, rest) => if rest.dropWhile jsonWS = [] then some v else none
  | none => none

/-! ## JavaScript semantics on parsed values -/

/-- Property access `v[key]` for parsed values; a later duplicate key wins,
as in object construction. -/
def jsGet (v : JsonValue) (key : List Char) : Option JsonValue :=
  match v with
  | JsonValue.jobj fields => (fields.reverse.find? (fun kv => kv.1 == key)).map (fun kv => kv.2)
  | _ => none

/-- Is the raw JSON number token the number zero? -/
def numIsZero (raw : List Char) : Bool :=
  (raw.takeWhile (fun c => !(c = 'e' || c = 'E'))).all
    (fun c => !(isDigitChar c) || c = '0')

/-- JavaScript truthiness of a parsed value. -/
def jsTruthy (v : JsonValue) : Bool :=
  match v with
  | JsonValue.jnull => false
  | JsonValue.jbool b => b
  | JsonValue.jnum raw => !(numIsZero raw)
  | JsonValue.jstr s => !(s.isEmpty)
  | JsonValue.jarr _ => true
  | JsonValue.jobj _ => true

/-- Does `typeof v` evaluate to the string "object"? (null included). -/
def typeofObject (v : JsonValue) : Bool :=
  match v with
  | JsonValue.jnull => true
  | JsonValue.jarr _ => true
  | JsonValue.jobj _ => true
  | _ => false

/-- Truthiness of a possibly absent property. -/
def truthyOpt (o : Option JsonValue) : Bool :=
  match o with
  | some v => jsTruthy v
  | none => false

/-- A declared string field must be a string when present. -/
def strFieldOk (o : Option JsonValue) : Bool :=
  match o with
  | none => true
  | some (JsonValue.jstr _) => true
  | some _ => false

/-- A declared mapping field must have object typeof when present. -/
def objFieldOk (o : Option JsonValue) : Bool :=
  match o with
  | none => true
  | some w => typeofObject w

/-- Model of `BaseResponseParser.validateJsonStructure`. -/
def validateJsonStructure (v : JsonValue) : Bool :=
  if !(jsTruthy v) || !(typeofObject v) then false
  else
    (if !(match jsGet v ("serverCode".data) with
          | some (JsonValue.jstr s) => !(s.isEmpty) && !((jsTrim s).isEmpty)
          | some _ => false
          | none => false) &&
        !(truthyOpt (jsGet v ("packageJson".data)) ||
          truthyOpt (jsGet v ("readme".data)) ||
          truthyOpt (jsGet v ("installInstructions".data)) ||
          truthyOpt (jsGet v ("usageExample".data))) then false
     else
       strFieldOk (jsGet v ("serverCode".data)) &&
       strFieldOk (jsGet v ("packageJson".data)) &&
       strFieldOk (jsGet v ("readme".data)) &&
       strFieldOk (jsGet v ("installInstructions".data)) &&
       strFieldOk (jsGet v ("usageExample".data)) &&
       objFieldOk (jsGet v ("dependencies".data)) &&
       objFieldOk (jsGet v ("devDependencies".data)) &&
       objFieldOk (jsGet v ("scripts".data)))

/-! ## Brace-balanced scanning (BaseResponseParser.findJsonObjects) -/

/-- State of the brace scan: the depth counter, the current candidate buffer
(reversed; `some` corresponds to an active start marker), and the candidates
found so far in discovery order. -/
structure ScanSt where
  braceCount : Int
  cur : Option (List Char)
  found : List (List Char)
deriving DecidableEq

/-- One character step of `findJsonObjects`. -/
def scanStep (st : ScanSt) (c : Char) : ScanSt :=
  if c = '{' then
    { braceCount := st.braceCount + 1,
      cur :=
        match st.cur with
        | some b => some (c :: b)
        | none => if st.braceCount = 0 then some [c] else none,
      found := st.found }
  else if c = '}' then
    (if st.braceCount - 1 = 0 then
       match st.cur with
       | some b =>
         { braceCount := st.braceCount - 1, cur := none,
           found := st.found ++ [(c :: b).reverse] }
       | none => { braceCount := st.braceCount - 1, cur := none, found := st.found }
     else if st.braceCount - 1 < 0 then
       { braceCount := 0, cur := none, found := st.found }
     else
       { braceCount := st.braceCount - 1, cur := st.cur.map (fun b => c :: b),
         found := st.found })
  else { st with cur := st.cur.map (fun b => c :: b) }

/-- Run the brace scan over the input. -/
def scanJson (st : ScanSt) (l : List Char) : ScanSt := l.foldl scanStep st

/-- Initial scan state. -/
def initScan : ScanSt := { braceCount := 0, cur := none, found := [] }

/-- Model of `BaseResponseParser.findJsonObjects`. -/
def findJsonObjects (l : List Char) : List (List Char) := (scanJson initScan l).found

/-! ## Fenced block extraction -/

/-- Does the remainder consist of optional whitespace followed by a closing
fence at this position (the lazy capture stops here)? -/
def fenceCloseHere (l : List Char) : Bool :=
  startsWithL ("```".data) (l.dropWhile jsWS)

/-- Lazy capture of a fence body: the shortest prefix whose remainder is
whitespace and a closing fence; returns the capture and the input after the
closing fence. -/
def fenceBodyGo : List Char → List Char → Option (List Char × List Char)
  | acc, [] =>
    if fenceCloseHere [] then some (acc.reverse, (([] : List Char).dropWhile jsWS).drop 3)
    else none
  | acc, c :: t =>
    if fenceCloseHere (c :: t) then some (acc.reverse, ((c :: t).dropWhile jsWS).drop 3)
    else fenceBodyGo (c :: acc) t

/-- Fence body after the language tag: greedy leading whitespace, then the
lazy capture. -/
def fenceBody (l : List Char) : Option (List Char × List Char) :=
  fenceBodyGo [] (l.dropWhile jsWS)

/-- Model of the search for the first `json`-tagged fenced block: at each
position try the literal tag and a completed fence, advancing one character
on failure. Returns the capture. -/
def findFencedJson : List Char → Option (List Char)
  | [] => none
  | l@(_ :: t) =>
    if startsWithL ("```json".data) l then
      match fenceBody (l.drop 7) with
      | some p => some p.1
      | none => findFencedJson t
    else findFencedJson t

/-! ## extractJson (BaseResponseParser.extractJson) -/

/-- First index of a character (`String.prototype.indexOf`). -/
def idxOfChar (l : List Char) (c : Char) : Option Nat := l.findIdx? (fun x => x = c)

/-- Last index of a character (`String.prototype.lastIndexOf`). -/
def lastIdxOfChar (l : List Char) (c : Char) : Option Nat :=
  (l.reverse.findIdx? (fun x => x = c)).map (fun k => l.length - 1 - k)

/-- The clean-up step of the fenced branch: keep the substring from the first
opening brace to the last closing brace when both exist in that order. -/
def clipBraces (s : List Char) : List Char :=
  match idxOfChar s '{', lastIdxOfChar s '}' with
  | some i, some j => if i < j then (s.drop i).take (j + 1 - i) else s
  | _, _ => s

/-- The fenced branch of `extractJson`: trim the capture, clip to the braces,
parse, and accept only schema-valid objects. -/
def tryFencedParse (cap : List Char) : Option JsonValue :=
  match jsonParse (clipBraces (jsTrim cap)) with
  | some v => if validateJsonStructure v then some v else none
  | none => none

/-- The candidate loop of `extractJson`: first candidate that parses and
passes the schema-validity check. -/
def firstValidCandidate : List (List Char) → Option JsonValue
  | [] => none
  | cand :: rest =>
    match jsonParse cand with
    | some v => if validateJsonStructure v then some v else firstValidCandidate rest
    | none => firstValidCandidate rest

/-- Model of `BaseResponseParser.extractJson`. -/
def extractJson (l : List Char) : Option JsonValue :=
  if (jsTrim l).isEmpty then none
  else
    match (match findFencedJson l with
           | some cap => tryFencedParse cap
           | none => none) with
    | some v => some v
    | none =>
      match firstValidCandidate (findJsonObjects l) with
      | some v => some v
      | none =>
        match jsonParse (jsTrim l) with
        | some v => if validateJsonStructure v then some v else none
        | none => none

/-! ## Parsed records and the four strategy parsers -/

/-- The structured record produced by the parsers (`ParsedResponse` in the
source). String-typed fields that the JSON strategy copies verbatim are kept
as parsed values, `none` standing for an absent (undefined) field. -/
structure ParsedResponse where
  serverCode : List Char
  packageJson : Option JsonValue := none
  readme : Option JsonValue := none
  installInstructions : Option JsonValue := none
  usageExample : Option JsonValue := none
  dependencies : Option JsonValue := none
  devDependencies : Option JsonValue := none
  scripts : Option JsonValue := none
  additionalFiles : Option JsonValue := none

/-- The read `jsonData.serverCode || ''` on a schema-validated object. -/
def getStrD (v : JsonValue) (key : List Char) : List Char :=
  match jsGet v key with
  | some (JsonValue.jstr s) => s
  | _ => []

/-- The record the JSON strategy builds from a validated object. -/
def mkJsonRecord (v : JsonValue) : ParsedResponse :=
  { serverCode := getStrD v ("serverCode".data)
    packageJson := jsGet v ("packageJson".data)
    readme := jsGet v ("readme".data)
    installInstructions := jsGet v ("installInstructions".data)
    usageExample := jsGet v ("usageExample".data)
    dependencies := jsGet v ("dependencies".data)
    devDependencies := jsGet v ("devDependencies".data)
    scripts := jsGet v ("scripts".data)
    additionalFiles := jsGet v ("additionalFiles".data) }

/-- The parse failure thrown by `JsonResponseParser.parse`. -/
inductive ParseErr
  | noValidJson
deriving DecidableEq

/-- Model of `JsonResponseParser.parse`. -/
def jsonParserParse (l : List Char) : Except ParseErr ParsedResponse :=
  match extractJson l with
  | none => Except.error ParseErr.noValidJson
  | some v => Except.ok (mkJsonRecord v)

/-- The boilerplate readme of `generateBasicReadme` for the text strategy's
fixed arguments. -/
def basicReadme : List Char :=
  ("# MCP Server\n\nA Model Context Protocol server\n\n## Installation\n\n```bash\nnpm install\n```\n\n## Usage\n\n```bash\nnpm start\n```\n\n## Configuration\n\nAdd this server to your MCP client configuration.\n\n## License\n\nMIT").data

/-- The boilerplate install instructions of
`generateBasicInstallInstructions('typescript')`. -/
def basicInstallInstructions : List Char :=
  ("1. Install dependencies: `npm install`\n2. Build the project: `npm run build`\n3. Configure the server in your MCP client\n4. Start the server: `npm start`").data

/-- The boilerplate usage example of `generateBasicUsageExample`. -/
def basicUsageExample : List Char :=
  ("// Example usage\nconst server = new MCPServer();\nserver.start();").data

/-- Model of `TextResponseParser.parse`: the whole trimmed input becomes the
server code and the auxiliary fields are boilerplate; the function has no
failure path. -/
def textParserParse (l : List Char) : ParsedResponse :=
  { serverCode := jsTrim l
    readme := some (JsonValue.jstr basicReadme)
    installInstructions := some (JsonValue.jstr basicInstallInstructions)
    usageExample := some (JsonValue.jstr basicUsageExample) }

/-! ## Code block and keyword scanning for the markdown and mixed parsers -/

/-- The object-key normalization of a code block language tag: an untagged
block is keyed "unknown". -/
def langKey (lang : List Char) : List Char :=
  if lang.isEmpty then ("unknown".data) else lang

/-- Fuelled iteration of the code-block regex: at a fence, the greedy word
run is the language tag and the fence body is captured; later blocks of the
same language overwrite earlier ones at lookup time. -/
def codeBlocksGo : Nat → List Char → List (List Char × List Char)
  | 0, _ => []
  | Nat.succ f, l =>
    match l with
    | [] => []
    | _ :: t =>
      if startsWithL ("```".data) l then
        match fenceBody ((l.drop 3).dropWhile isWordChar) with
        | some p => (langKey ((l.drop 3).takeWhile isWordChar), p.1) :: codeBlocksGo f p.2
        | none => codeBlocksGo f t
      else codeBlocksGo f t

/-- Model of `BaseResponseParser.extractCodeBlocks`. -/
def extractCodeBlocks (l : List Char) : List (List Char × List Char) :=
  codeBlocksGo (l.length + 1) l

/-- Lookup of a code block by language key; later blocks overwrite earlier. -/
def codeBlocksGet (blocks : List (List Char × List Char)) (key : List Char) :
    Option (List Char) :=
  (blocks.reverse.find? (fun kv => kv.1 == key)).map (fun kv => kv.2)

/-- Require at least one whitespace character and skip the whole run. -/
def skipWs1 (x : List Char) : Option (List Char) :=
  match x with
  | [] => none
  | c :: t => if jsWS c then some ((c :: t).dropWhile jsWS) else none

/-- Split at the first position where a header marker starts (the lookahead
of the Server Code section regex), or take everything. -/
def splitAtHashOrEnd : List Char → (List Char × List Char)
  | [] => ([], [])
  | c :: t =>
    if startsWithL ("##".data) (c :: t) then ([], c :: t)
    else (c :: (splitAtHashOrEnd t).1, (splitAtHashOrEnd t).2)

/-- Search for the `## Server Code` section match of
`MarkdownResponseParser.parse` and return its captured content. -/
def mdServerCodeGo : List Char → Option (List Char)
  | [] => none
  | l@(_ :: t) =>
    match
      (if startsWithL ("##".data) l then
        match skipWs1 (l.drop 2) with
        | some r1 =>
          if startsWithL ("Server".data) r1 then
            match skipWs1 (r1.drop 6) with
            | some r2 =>
              if startsWithL ("Code".data) r2 then
                some ((splitAtHashOrEnd ((r2.drop 4).dropWhile jsWS)).1)
              else none
            | none => none
          else none
        | none => none
      else none) with
    | some cap => some cap
    | none => mdServerCodeGo t

/-- The optional language alternation of the inner code block regex of the
Server Code section. -/
def dropLangAlt (x : List Char) : List Char :=
  if startsWithL ("typescript".data) x then x.drop 10
  else if startsWithL ("javascript".data) x then x.drop 10
  else if startsWithL ("python".data) x then x.drop 6
  else x

/-- First code block (optionally tagged typescript, javascript or python)
inside a captured section. -/
def innerCodeBlockGo : List Char → Option (List Char)
  | [] => none
  | l@(_ :: t) =>
    match
      (if startsWithL ("```".data) l then
        match fenceBody (dropLangAlt (l.drop 3)) with
        | some p => some p.1
        | none => none
      else none) with
    | some cap => some cap
    | none => innerCodeBlockGo t

/-- The keyword alternation of the loose code-like pattern of the mixed
parser. -/
def codeKeywords : List (List Char) :=
  [("import".data), ("const".data), ("function".data), ("class".data),
   ("def".data), ("export".data)]

/-- Attempt of the loose code-like pattern at one position: a keyword, at
least one whitespace character, then at least fifty further characters; the
greedy tail makes the match the whole remaining input. -/
def codeLikeAt (l : List Char) : Option (List Char) :=
  match codeKeywords.find?
      (fun kw => startsWithL kw l &&
        (match l.drop kw.length with
         | [] => false
         | c :: t => jsWS c && decide (50 ≤ t.length))) with
  | some _ => some l
  | none => none

/-- Search of the loose code-like pattern over all positions. -/
def codeLikeGo : List Char → Option (List Char)
  | [] => none
  | l@(_ :: t) =>
    match codeLikeAt l with
    | some m => some m
    | none => codeLikeGo t

/-! ## Markdown and mixed parsers -/

/-- JavaScript `a || b` on an optional string against a default. -/
def jsOr (a : Option (List Char)) (b : List Char) : List Char :=
  match a with
  | some s => if s.isEmpty then b else s
  | none => b

/-- Truthiness of an optional string. -/
def optTruthyStr (o : Option (List Char)) : Bool :=
  match o with
  | some s => !(s.isEmpty)
  | none => false

/-- JavaScript `a || b || c` keeping the last value when none is truthy. -/
def jsOrOpt3 (a b c : Option (List Char)) : Option (List Char) :=
  if optTruthyStr a then a else if optTruthyStr b then b else c

/-- The Server Code extraction chain of `MarkdownResponseParser.parse`. -/
def mdServerCode (l : List Char) : List Char :=
  match
    (match mdServerCodeGo l with
     | some cap =>
       (match innerCodeBlockGo cap with
        | some code => some code
        | none => none)
     | none => none) with
  | some code => code
  | none =>
    (if optTruthyStr (sectionsGet (extractSections l) ("server_code".data)) then
      jsOr (sectionsGet (extractSections l) ("server_code".data)) []
    else if optTruthyStr (sectionsGet (extractSections l) ("server".data)) then
      jsOr (sectionsGet (extractSections l) ("server".data)) []
    else if optTruthyStr (codeBlocksGet (extractCodeBlocks l) ("typescript".data)) ||
        optTruthyStr (codeBlocksGet (extractCodeBlocks l) ("javascript".data)) ||
        optTruthyStr (codeBlocksGet (extractCodeBlocks l) ("python".data)) then
      jsOr (codeBlocksGet (extractCodeBlocks l) ("typescript".data))
        (jsOr (codeBlocksGet (extractCodeBlocks l) ("javascript".data))
          (jsOr (codeBlocksGet (extractCodeBlocks l) ("python".data)) []))
    else if optTruthyStr (codeBlocksGet (extractCodeBlocks l) ("unknown".data)) then
      jsOr (codeBlocksGet (extractCodeBlocks l) ("unknown".data)) []
    else [])

/-- The readme resolution of `MarkdownResponseParser.parse`. -/
def mdReadme (l : List Char) : List Char :=
  if (jsOr (sectionsGet (extractSections l) ("readme".data))
      (jsOr (sectionsGet (extractSections l) ("read_me".data)) [])).isEmpty then
    (if optTruthyStr (sectionsGet (extractSections l) ("overview".data)) then
      jsOr (sectionsGet (extractSections l) ("overview".data)) []
    else
      jsOr (sectionsGet (extractSections l) ("readme".data))
        (jsOr (sectionsGet (extractSections l) ("read_me".data)) []))
  else
    jsOr (sectionsGet (extractSections l) ("readme".data))
      (jsOr (sectionsGet (extractSections l) ("read_me".data)) [])

/-- Model of `MarkdownResponseParser.parse`; the function has no failure
path. -/
def markdownParserParse (l : List Char) : ParsedResponse :=
  { serverCode := mdServerCode l
    readme := some (JsonValue.jstr (mdReadme l))
    installInstructions :=
      (jsOrOpt3 (sectionsGet (extractSections l) ("installation".data))
        (sectionsGet (extractSections l) ("setup".data))
        (sectionsGet (extractSections l) ("install".data))).map JsonValue.jstr
    usageExample :=
      (jsOrOpt3 (sectionsGet (extractSections l) ("usage".data))
        (sectionsGet (extractSections l) ("example".data))
        (sectionsGet (extractSections l) ("how_to_use".data))).map JsonValue.jstr
    additionalFiles :=
      if optTruthyStr (sectionsGet (extractSections l) ("files".data)) then
        jsonParse (jsOr (sectionsGet (extractSections l) ("files".data)) [])
      else none }

/-- Truthiness of an optional parsed value holding a field of the record. -/
def truthyField (o : Option JsonValue) : Bool := truthyOpt o

/-- The record the mixed parser starts from: empty strings, then the JSON
fields when extraction succeeded. -/
def mixedBase (l : List Char) : ParsedResponse :=
  match extractJson l with
  | some v => mkJsonRecord v
  | none =>
    { serverCode := []
      readme := some (JsonValue.jstr [])
      installInstructions := some (JsonValue.jstr [])
      usageExample := some (JsonValue.jstr []) }

/-- The code-block fallback for the mixed parser's server code. -/
def mixedServerCode1 (l : List Char) : List Char :=
  if (mixedBase l).serverCode.isEmpty &&
      (optTruthyStr (codeBlocksGet (extractCodeBlocks l) ("typescript".data)) ||
       optTruthyStr (codeBlocksGet (extractCodeBlocks l) ("javascript".data)) ||
       optTruthyStr (codeBlocksGet (extractCodeBlocks l) ("python".data))) then
    jsOr (codeBlocksGet (extractCodeBlocks l) ("typescript".data))
      (jsOr (codeBlocksGet (extractCodeBlocks l) ("javascript".data))
        (jsOr (codeBlocksGet (extractCodeBlocks l) ("python".data)) []))
  else (mixedBase l).serverCode

/-- The last-resort server code of the mixed parser: a loose code-like match
or the entire raw input. -/
def mixedServerCode2 (l : List Char) : List Char :=
  if (mixedServerCode1 l).isEmpty then
    match codeLikeGo l with
    | some m => m
    | none => l
  else mixedServerCode1 l

/-- A readme-like field resolution of the mixed parser from sections. -/
def mixedField (l : List Char) (base : Option JsonValue)
    (k1 k2 k3 : List Char) (fallback : List Char) : Option JsonValue :=
  if truthyField base then base
  else
    (if (jsOr (sectionsGet (extractSections l) k1)
          (jsOr (sectionsGet (extractSections l) k2)
            (jsOr (sectionsGet (extractSections l) k3) []))).isEmpty then
      some (JsonValue.jstr fallback)
    else
      some (JsonValue.jstr (jsOr (sectionsGet (extractSections l) k1)
        (jsOr (sectionsGet (extractSections l) k2)
          (jsOr (sectionsGet (extractSections l) k3) [])))))

/-- Model of `MixedResponseParser.parse`; the function has no failure path. -/
def mixedParserParse (l : List Char) : ParsedResponse :=
  { serverCode := mixedServerCode2 l
    packageJson := (mixedBase l).packageJson
    readme :=
      mixedField l ((mixedBase l).readme) ("readme".data) ("read_me".data)
        ("overview".data) basicReadme
    installInstructions :=
      mixedField l ((mixedBase l).installInstructions) ("installation".data)
        ("setup".data) ("install".data) basicInstallInstructions
    usageExample :=
      mixedField l ((mixedBase l).usageExample) ("usage".data) ("example".data)
        ("how_to_use".data) basicUsageExample
    dependencies := (mixedBase l).dependencies
    devDependencies := (mixedBase l).devDependencies
    scripts := (mixedBase l).scripts
    additionalFiles := (mixedBase l).additionalFiles }

/-! ### Materializer model (`CodeGenerator`, src/src/generation/CodeGenerator.ts)

The tail of `generateProject` (lines 58-64): `validateProjectStructure`,
then `createDirectories`, then `createFiles`. The filesystem is modeled by a
fault environment saying which `mkdirSync` and which `writeFileSync` calls
throw, plus an explicit mutation log of the directories made and files
written. JavaScript values of `typeof content !== 'string'` are the
`FileVal.nonString` constructor. -/

/-- A file's content as JavaScript sees it: a string, or some non-string
value (the `Record<string, string>` type is not enforced at runtime). -/
inductive FileVal where
  | str : List Char → FileVal
  | nonString : FileVal
deriving DecidableEq, Repr

/-- A `ProjectStructure`: directory paths and the ordered file map
(`Object.entries` preserves insertion order). -/
structure ProjStructure where
  directories : List (List Char)
  files : List (List Char × FileVal)

/-- Injected filesystem faults: whether `mkdirSync` at a full path throws
(`false` also covers the path already existing, where the code skips the
call), and whether `writeFileSync` at a full path throws. -/
structure FsEnv where
  mkdirFails : List Char → Bool
  writeFails : List Char → Bool

/-- `path.join(base, p)` for a relative `p` without separator edge cases. -/
def joinPath (base p : List Char) : List Char := base ++ ('/' :: p)

/-- `path.dirname` for the paths produced by `joinPath` (no trailing slash,
not a filesystem root): everything before the last separator. -/
def dirnameOf (p : List Char) : List Char :=
  match lastIdxOfChar p '/' with
  | some i => p.take i
  | none => ".".data

/-- The reason a single file fails in `createFiles`: the explicit
`typeof content !== 'string'` throw, or a filesystem error. -/
inductive FailReason where
  | nonStringContent : FailReason
  | fsError : FailReason
deriving DecidableEq, Repr

/-- The errors thrown by the modeled steps of `generateProject`:
`validateProjectStructure` throws with a message; `createDirectories`
throws naming the full path that failed; `createFiles` throws one
aggregate error listing every failed file with its reason. -/
inductive GenError where
  | structureValidation : List Char → GenError
  | directoryCreation : List Char → GenError
  | materializationFailure : List (List Char × FailReason) → GenError
deriving DecidableEq, Repr

/-- Loop of `createDirectories` (lines 96-107): `forEach` over the
directories; a `mkdirSync` failure is rethrown from inside the callback, so
the iteration aborts at the first failure. Returns the directories made (in
order) and the failing full path, if any. -/
def createDirsGo (env : FsEnv) (base : List Char) (made : List (List Char)) :
    List (List Char) → List (List Char) × Option (List Char)
  | [] => (made.reverse, none)
  | d :: rest =>
    if env.mkdirFails (joinPath base d) then (made.reverse, some (joinPath base d))
    else createDirsGo env base (joinPath base d :: made) rest

/-- `CodeGenerator.createDirectories`. -/
def createDirectories (env : FsEnv) (base : List Char)
    (directories : List (List Char)) : List (List Char) × Option (List Char) :=
  createDirsGo env base [] directories

/-- One iteration of the `createFiles` loop body (lines 117-139): ensure the
parent directory exists (`mkdirSync` may throw), then the
`typeof content !== 'string'` check, then `writeFileSync` (may throw); any
throw is caught and becomes this file's failure reason. -/
def createFileOne (env : FsEnv) (base fp : List Char) (content : FileVal) :
    Option FailReason :=
  if env.mkdirFails (dirnameOf (joinPath base fp)) then some FailReason.fsError
  else
    match content with
    | FileVal.nonString => some FailReason.nonStringContent
    | FileVal.str _ =>
      if env.writeFails (joinPath base fp) then some FailReason.fsError else none

/-- Loop of `createFiles` (lines 112-151): per-file try/catch collecting
`createdFiles` and `failedFiles`, both in iteration order. -/
def createFilesGo (env : FsEnv) (base : List Char) (created : List (List Char))
    (failed : List (List Char × FailReason)) :
    List (List Char × FileVal) →
      List (List Char) × List (List Char × FailReason)
  | [] => (created.reverse, failed.reverse)
  | (fp, content) :: rest =>
    match createFileOne env base fp content with
    | none => createFilesGo env base (fp :: created) failed rest
    | some r => createFilesGo env base created ((fp, r) :: failed) rest

/-- `CodeGenerator.createFiles` up to its final report: the created files
and the failed files; the code throws the aggregate
`Failed to create N file(s)` error iff the failure list is nonempty. -/
def createFiles (env : FsEnv) (base : List Char)
    (files : List (List Char × FileVal)) :
    List (List Char) × List (List Char × FailReason) :=
  createFilesGo env base [] [] files

/-- The entry-file test of `validateProjectStructure` (lines 276-278):
`file.includes('server.') || file.includes('index.')`. -/
def entryFileTest (fp : List Char) : Bool :=
  containsSub ("server.".data) fp || containsSub ("index.".data) fp

/-- `CodeGenerator.validateProjectStructure` (lines 260-283): the two
runtime-type guards always pass in this typed model; then the structure
must have at least one file, and some file path must pass `entryFileTest`.
Returns the thrown message, or `none` when validation passes. -/
def validateProjectStructure (ps : ProjStructure) : Option (List Char) :=
  if ps.files.length == 0 then
    some ("Project structure must contain at least one file.".data)
  else if ps.files.any (fun f => entryFileTest f.1) then none
  else some ("Project structure must contain a main server file.".data)

/-- The filesystem mutations performed: directories made by
`createDirectories` and files written by `createFiles`. -/
structure MutLog where
  dirsMade : List (List Char)
  filesWritten : List (List Char)
deriving DecidableEq, Repr

/-- The tail of `generateProject` (lines 58-64): validate the structure
(throwing before any filesystem call), then create directories (aborting at
the first failure, before any file write), then create files (collecting
failures, then throwing the aggregate error if any). Returns the outcome
together with the mutation log. -/
def generateProjectTail (env : FsEnv) (base : List Char) (ps : ProjStructure) :
    Except GenError Unit × MutLog :=
  match validateProjectStructure ps with
  | some msg =>
    (Except.error (GenError.structureValidation msg),
     { dirsMade := [], filesWritten := [] })
  | none =>
    match createDirectories env base ps.directories with
    | (made, some failedPath) =>
      (Except.error (GenError.directoryCreation failedPath),
       { dirsMade := made, filesWritten := [] })
    | (made, none) =>
      match createFiles env base ps.files with
      | (created, []) =>
        (Except.ok (), { dirsMade := made, filesWritten := created })
      | (created, f :: fs) =>
        (Except.error (GenError.materializationFailure (f :: fs)),
         { dirsMade := made, filesWritten := created })

/-- A fault-free environment and one with a single failing `mkdirSync`,
used by the concrete instances below. -/
def cleanEnv : FsEnv :=
  { mkdirFails := fun _ => false, writeFails := fun _ => false }

def oneDirFailEnv : FsEnv :=
  { mkdirFails := fun p => p == joinPath ("out".data) ("a".data)
    writeFails := fun _ => false }

/-! ### Template rendering (`TemplateRegistry.renderTemplate`,
src/src/generation/Templates.ts)

Pass 1 (lines 72-75) replaces each provided variable's markers; pass 2
(lines 78-93) re-scans for leftover markers, silently removing the
known-optional ones and replacing the rest with a TODO placeholder. The
replacement strings inserted here contain no dollar patterns, and the
theorems assume provided values free of braces and dollars, so plain
insertion models `String.prototype.replace`. `String(value || '\x27')` maps a
missing/undefined/empty value to the empty string; provided values are
modeled as the plain strings inserted. -/

/-- Uppercase letters and underscore: the shape of every TemplateVariables
key and of every marker name in the registered templates. -/
def upperOrUnd (c : Char) : Bool :=
  (65 <= c.toNat && c.toNat <= 90) || c.toNat = 95

/-- Match of the per-key regex (line 73) at the head of the text: two
opening braces, whitespace, the key, whitespace, two closing braces. The
greedy whitespace runs are exact because the key starts with a non-space
character and the closing brace is not a space. Returns the remainder. -/
def matchVarAt (key l : List Char) : Option (List Char) :=
  if startsWithL ("\x7b\x7b".data) l then
    if startsWithL key ((l.drop 2).dropWhile jsWS) then
      if startsWithL ("\x7d\x7d".data)
          ((((l.drop 2).dropWhile jsWS).drop key.length).dropWhile jsWS) then
        some (((((l.drop 2).dropWhile jsWS).drop key.length).dropWhile
          jsWS).drop 2)
      else none
    else none
  else none

/-- Global replace for one key (line 74): scan left to right, replace every
match and continue after the inserted value (replacements are never
rescanned), fueled by the text length. -/
def replaceAllVarGo (key value : List Char) : Nat → List Char → List Char
  | 0, l => l
  | _ + 1, [] => []
  | fuel + 1, c :: t =>
    match matchVarAt key (c :: t) with
    | some rest => value ++ replaceAllVarGo key value fuel rest
    | none => c :: replaceAllVarGo key value fuel t

def replaceAllVar (key value l : List Char) : List Char :=
  replaceAllVarGo key value l.length l

/-- Pass 1: fold over the provided variables in `Object.entries` order. -/
def substPass (vars : List (List Char × List Char)) (l : List Char) :
    List Char :=
  vars.foldl (fun acc kv => replaceAllVar kv.1 kv.2 acc) l

/-- Match of the leftover-marker pattern (two opening braces, a nonempty
greedy run of non-closing-brace characters, two closing braces) at the head
of the text; the backtracking regex can only succeed this way. Returns the
matched substring and the remainder. -/
def reScanAt (l : List Char) : Option (List Char × List Char) :=
  if startsWithL ("\x7b\x7b".data) l then
    if ((l.drop 2).takeWhile (fun c => !(c = '}'))).isEmpty then none
    else if startsWithL ("\x7d\x7d".data)
        ((l.drop 2).drop ((l.drop 2).takeWhile (fun c => !(c = '}'))).length)
    then
      some (("\x7b\x7b".data) ++ (l.drop 2).takeWhile (fun c => !(c = '}')) ++
          ("\x7d\x7d".data),
        ((l.drop 2).drop
          ((l.drop 2).takeWhile (fun c => !(c = '}'))).length).drop 2)
    else none
  else none

/-- All leftover-marker matches in order (line 78), scanning one character
forward on failure and past each match on success. -/
def scanMarkersGo : Nat → List Char → List (List Char)
  | 0, _ => []
  | _ + 1, [] => []
  | fuel + 1, c :: t =>
    match reScanAt (c :: t) with
    | some p => p.1 :: scanMarkersGo fuel p.2
    | none => scanMarkersGo fuel t

def scanMarkers (l : List Char) : List (List Char) := scanMarkersGo l.length l

/-- Match of the strip pattern (line 83) at the head: either two opening
braces and trailing whitespace, or whitespace followed by two closing
braces. Returns the remainder after the deleted match. -/
def stripAt (l : List Char) : Option (List Char) :=
  if startsWithL ("\x7b\x7b".data) l then some ((l.drop 2).dropWhile jsWS)
  else if startsWithL ("\x7d\x7d".data) (l.dropWhile jsWS) then
    some ((l.dropWhile jsWS).drop 2)
  else none

/-- The global strip replace (line 83). -/
def stripGo : Nat → List Char → List Char
  | 0, l => l
  | _ + 1, [] => []
  | fuel + 1, c :: t =>
    match stripAt (c :: t) with
    | some rest => stripGo fuel rest
    | none => c :: stripGo fuel t

def stripMarker (m : List Char) : List Char := stripGo m.length m

/-- First-occurrence literal replacement: `String.prototype.replace` with a
string pattern (lines 86 and 90; the replacements used contain no dollar
patterns). -/
def replaceFirst (pat rep : List Char) : List Char → List Char
  | [] => []
  | c :: t =>
    if startsWithL pat (c :: t) then rep ++ (c :: t).drop pat.length
    else c :: replaceFirst pat rep t

/-- The known-optional variable names (line 85). -/
def optionalVars : List (List Char) :=
  [("TOOLS".data), ("RESOURCES".data), ("PROMPTS".data),
   ("CUSTOM_CODE".data), ("USAGE_EXAMPLE".data)]

/-- The placeholder comment for an unknown or missing variable (line 90). -/
def placeholderFor (n : List Char) : List Char :=
  ("/* TODO: Replace ".data) ++ n ++ (" */".data)

/-- One step of pass 2 (lines 82-92) for one leftover match. -/
def resolveStep (acc m : List Char) : List Char :=
  if optionalVars.contains (stripMarker m) then replaceFirst m [] acc
  else replaceFirst m (placeholderFor (stripMarker m)) acc

/-- Pass 2: resolve every leftover match in discovery order. -/
def resolveLeftovers (l : List Char) : List Char :=
  (scanMarkers l).foldl resolveStep l

/-- `TemplateRegistry.renderTemplate` (lines 63-96) applied to a template
body found in the registry. -/
def renderTemplate (tpl : List Char)
    (vars : List (List Char × List Char)) : List Char :=
  resolveLeftovers (substPass vars tpl)

/-- The keys of the `TemplateVariables` interface. -/
def interfaceKeys : List (List Char) :=
  [("SERVER_NAME".data), ("DESCRIPTION".data), ("TRANSPORT".data),
   ("SERVER_CODE".data), ("TOOLS".data), ("RESOURCES".data),
   ("PROMPTS".data), ("CUSTOM_CODE".data)]

/-- The marker names a template body contains, as the renderer itself
would discover and strip them. -/
def markerNamesOf (tpl : List Char) : List (List Char) :=
  (scanMarkers tpl).map stripMarker

/-- The 15 template bodies registered by the template registry
(src/src/generation/Templates.ts), verbatim. -/
def tplTypeScriptBasic : List Char :=
  "import \x7b Server \x7d from \x27@modelcontextprotocol/sdk/server/index.js\x27;\nimport \x7b StdioServerTransport \x7d from \x27@modelcontextprotocol/sdk/server/stdio.js\x27;\nimport \x7b\n  CallToolRequestSchema,\n  ErrorCode,\n  ListToolsRequestSchema,\n  McpError,\n\x7d from \x27@modelcontextprotocol/sdk/types.js\x27;\n\n/**\n * \x7b\x7bDESCRIPTION\x7d\x7d\n */\n\n\x7b\x7bSERVER_CODE\x7d\x7d\n\nconst server = new Server(\n  \x7b\n    name: \x27\x7b\x7bSERVER_NAME\x7d\x7d\x27,\n    version: \x271.0.0\x27,\n  \x7d,\n  \x7b\n    capabilities: \x7b\n      tools: \x7b\x7d,\n    \x7d,\n  \x7d\n);\n\n// List available tools\nserver.setRequestHandler(ListToolsRequestSchema, async () => \x7b\n  return \x7b\n    tools: [\n      \x7b\n        name: \x27example_tool\x27,\n        description: \x27An example tool that demonstrates the basic structure\x27,\n        inputSchema: \x7b\n          type: \x27object\x27,\n          properties: \x7b\n            message: \x7b\n              type: \x27string\x27,\n              description: \x27A message to process\x27,\n            \x7d,\n          \x7d,\n          required: [\x27message\x27],\n        \x7d,\n      \x7d,\n    ],\n  \x7d;\n\x7d);\n\n// Handle tool calls\nserver.setRequestHandler(CallToolRequestSchema, async (request) => \x7b\n  const \x7b name, arguments: args \x7d = request.params;\n  \n  try \x7b\n    switch (name) \x7b\n      case \x27example_tool\x27:\n        return \x7b\n          content: [\n            \x7b\n              type: \x27text\x27,\n              text: \x60Processed message: $\x7bargs.message\x7d\x60,\n            \x7d,\n          ],\n        \x7d;\n      \n      default:\n        throw new McpError(ErrorCode.MethodNotFound, \x60Unknown tool: $\x7bname\x7d\x60);\n    \x7d\n  \x7d catch (error) \x7b\n    if (error instanceof McpError) \x7b\n      throw error;\n    \x7d\n    throw new McpError(ErrorCode.InternalError, \x60Tool execution failed: $\x7berror instanceof Error ? error.message : \x27Unknown error\x27\x7d\x60);\n  \x7d\n\x7d);\n\nasync function main() \x7b\n  const transport = new StdioServerTransport();\n  await server.connect(transport);\n  console.error(\x27\x7b\x7bSERVER_NAME\x7d\x7d MCP server running on stdio\x27);\n\x7d\n\nmain().catch((error) => \x7b\n  console.error(\x27Server failed to start:\x27, error);\n  process.exit(1);\n\x7d);".data

def tplTypeScriptTools : List Char :=
  "import \x7b Server \x7d from \x27@modelcontextprotocol/sdk/server/index.js\x27;\nimport \x7b StdioServerTransport \x7d from \x27@modelcontextprotocol/sdk/server/stdio.js\x27;\nimport \x7b\n  CallToolRequestSchema,\n  ErrorCode,\n  ListToolsRequestSchema,\n  McpError,\n\x7d from \x27@modelcontextprotocol/sdk/types.js\x27;\n\n\x7b\x7bSERVER_CODE\x7d\x7d\n\nconst server = new Server(\n  \x7b\n    name: \x27\x7b\x7bSERVER_NAME\x7d\x7d\x27,\n    version: \x271.0.0\x27,\n  \x7d,\n  \x7b\n    capabilities: \x7b\n      tools: \x7b\x7d,\n    \x7d,\n  \x7d\n);\n\n\x7b\x7bTOOLS\x7d\x7d\n\n// List available tools\nserver.setRequestHandler(ListToolsRequestSchema, async () => \x7b\n  return \x7b\n    tools: tools.map(tool => (\x7b\n      name: tool.name,\n      description: tool.description,\n      inputSchema: tool.inputSchema,\n    \x7d)),\n  \x7d;\n\x7d);\n\n// Handle tool calls\nserver.setRequestHandler(CallToolRequestSchema, async (request) => \x7b\n  const \x7b name, arguments: args \x7d = request.params;\n  \n  try \x7b\n    const tool = tools.find(t => t.name === name);\n    if (!tool) \x7b\n      throw new McpError(ErrorCode.MethodNotFound, \x60Unknown tool: $\x7bname\x7d\x60);\n    \x7d\n    \n    return await tool.handler(args);\n  \x7d catch (error) \x7b\n    if (error instanceof McpError) \x7b\n      throw error;\n    \x7d\n    throw new McpError(ErrorCode.InternalError, \x60Tool execution failed: $\x7berror instanceof Error ? error.message : \x27Unknown error\x27\x7d\x60);\n  \x7d\n\x7d);\n\nasync function main() \x7b\n  const transport = new StdioServerTransport();\n  await server.connect(transport);\n  console.error(\x27\x7b\x7bSERVER_NAME\x7d\x7d MCP server running on stdio\x27);\n\x7d\n\nmain().catch((error) => \x7b\n  console.error(\x27Server failed to start:\x27, error);\n  process.exit(1);\n\x7d);".data

def tplTypeScriptResources : List Char :=
  "import \x7b Server \x7d from \x27@modelcontextprotocol/sdk/server/index.js\x27;\nimport \x7b StdioServerTransport \x7d from \x27@modelcontextprotocol/sdk/server/stdio.js\x27;\nimport \x7b\n  ListResourcesRequestSchema,\n  ReadResourceRequestSchema,\n  ErrorCode,\n  McpError,\n\x7d from \x27@modelcontextprotocol/sdk/types.js\x27;\n\n\x7b\x7bSERVER_CODE\x7d\x7d\n\nconst server = new Server(\n  \x7b\n    name: \x27\x7b\x7bSERVER_NAME\x7d\x7d\x27,\n    version: \x271.0.0\x27,\n  \x7d,\n  \x7b\n    capabilities: \x7b\n      resources: \x7b\x7d,\n    \x7d,\n  \x7d\n);\n\n\x7b\x7bRESOURCES\x7d\x7d\n\n// List available resources\nserver.setRequestHandler(ListResourcesRequestSchema, async () => \x7b\n  return \x7b\n    resources: resources.map(resource => (\x7b\n      uri: resource.uri,\n      name: resource.name,\n      description: resource.description,\n      mimeType: resource.mimeType,\n    \x7d)),\n  \x7d;\n\x7d);\n\n// Read resource content\nserver.setRequestHandler(ReadResourceRequestSchema, async (request) => \x7b\n  const \x7b uri \x7d = request.params;\n  \n  try \x7b\n    const resource = resources.find(r => r.uri === uri);\n    if (!resource) \x7b\n      throw new McpError(ErrorCode.InvalidRequest, \x60Resource not found: $\x7buri\x7d\x60);\n    \x7d\n    \n    return \x7b\n      contents: [\n        \x7b\n          uri,\n          mimeType: resource.mimeType,\n          text: await resource.getContent(),\n        \x7d,\n      ],\n    \x7d;\n  \x7d catch (error) \x7b\n    if (error instanceof McpError) \x7b\n      throw error;\n    \x7d\n    throw new McpError(ErrorCode.InternalError, \x60Failed to read resource: $\x7berror instanceof Error ? error.message : \x27Unknown error\x27\x7d\x60);\n  \x7d\n\x7d);\n\nasync function main() \x7b\n  const transport = new StdioServerTransport();\n  await server.connect(transport);\n  console.error(\x27\x7b\x7bSERVER_NAME\x7d\x7d MCP server running on stdio\x27);\n\x7d\n\nmain().catch((error) => \x7b\n  console.error(\x27Server failed to start:\x27, error);\n  process.exit(1);\n\x7d);".data

def tplTypeScriptPrompts : List Char :=
  "import \x7b Server \x7d from \x27@modelcontextprotocol/sdk/server/index.js\x27;\nimport \x7b StdioServerTransport \x7d from \x27@modelcontextprotocol/sdk/server/stdio.js\x27;\nimport \x7b\n  ListPromptsRequestSchema,\n  GetPromptRequestSchema,\n  ErrorCode,\n  McpError,\n\x7d from \x27@modelcontextprotocol/sdk/types.js\x27;\n\n\x7b\x7bSERVER_CODE\x7d\x7d\n\nconst server = new Server(\n  \x7b\n    name: \x27\x7b\x7bSERVER_NAME\x7d\x7d\x27,\n    version: \x271.0.0\x27,\n  \x7d,\n  \x7b\n    capabilities: \x7b\n      prompts: \x7b\x7d,\n    \x7d,\n  \x7d\n);\n\n\x7b\x7bPROMPTS\x7d\x7d\n\n// List available prompts\nserver.setRequestHandler(ListPromptsRequestSchema, async () => \x7b\n  return \x7b\n    prompts: prompts.map(prompt => (\x7b\n      name: prompt.name,\n      description: prompt.description,\n      arguments: prompt.arguments,\n    \x7d)),\n  \x7d;\n\x7d);\n\n// Get prompt content\nserver.setRequestHandler(GetPromptRequestSchema, async (request) => \x7b\n  const \x7b name, arguments: args \x7d = request.params;\n  \n  try \x7b\n    const prompt = prompts.find(p => p.name === name);\n    if (!prompt) \x7b\n      throw new McpError(ErrorCode.InvalidRequest, \x60Prompt not found: $\x7bname\x7d\x60);\n    \x7d\n    \n    return await prompt.getContent(args);\n  \x7d catch (error) \x7b\n    if (error instanceof McpError) \x7b\n      throw error;\n    \x7d\n    throw new McpError(ErrorCode.InternalError, \x60Failed to get prompt: $\x7berror instanceof Error ? error.message : \x27Unknown error\x27\x7d\x60);\n  \x7d\n\x7d);\n\nasync function main() \x7b\n  const transport = new StdioServerTransport();\n  await server.connect(transport);\n  console.error(\x27\x7b\x7bSERVER_NAME\x7d\x7d MCP server running on stdio\x27);\n\x7d\n\nmain().catch((error) => \x7b\n  console.error(\x27Server failed to start:\x27, error);\n  process.exit(1);\n\x7d);".data

def tplTypeScriptAdvanced : List Char :=
  "import \x7b Server \x7d from \x27@modelcontextprotocol/sdk/server/index.js\x27;\nimport \x7b StdioServerTransport \x7d from \x27@modelcontextprotocol/sdk/server/stdio.js\x27;\nimport \x7b\n  CallToolRequestSchema,\n  ListToolsRequestSchema,\n  ListResourcesRequestSchema,\n  ReadResourceRequestSchema,\n  ListPromptsRequestSchema,\n  GetPromptRequestSchema,\n  ErrorCode,\n  McpError,\n\x7d from \x27@modelcontextprotocol/sdk/types.js\x27;\n\n\x7b\x7bSERVER_CODE\x7d\x7d\n\nconst server = new Server(\n  \x7b\n    name: \x27\x7b\x7bSERVER_NAME\x7d\x7d\x27,\n    version: \x271.0.0\x27,\n  \x7d,\n  \x7b\n    capabilities: \x7b\n      tools: \x7b\x7d,\n      resources: \x7b\x7d,\n      prompts: \x7b\x7d,\n    \x7d,\n  \x7d\n);\n\n\x7b\x7bTOOLS\x7d\x7d\n\x7b\x7bRESOURCES\x7d\x7d\n\x7b\x7bPROMPTS\x7d\x7d\n\n// List available tools\nserver.setRequestHandler(ListToolsRequestSchema, async () => \x7b\n  return \x7b\n    tools: tools.map(tool => (\x7b\n      name: tool.name,\n      description: tool.description,\n      inputSchema: tool.inputSchema,\n    \x7d)),\n  \x7d;\n\x7d);\n\n// Handle tool calls\nserver.setRequestHandler(CallToolRequestSchema, async (request) => \x7b\n  const \x7b name, arguments: args \x7d = request.params;\n  \n  try \x7b\n    const tool = tools.find(t => t.name === name);\n    if (!tool) \x7b\n      throw new McpError(ErrorCode.MethodNotFound, \x60Unknown tool: $\x7bname\x7d\x60);\n    \x7d\n    \n    return await tool.handler(args);\n  \x7d catch (error) \x7b\n    if (error instanceof McpError) \x7b\n      throw error;\n    \x7d\n    throw new McpError(ErrorCode.InternalError, \x60Tool execution failed: $\x7berror instanceof Error ? error.message : \x27Unknown error\x27\x7d\x60);\n  \x7d\n\x7d);\n\n// List available resources\nserver.setRequestHandler(ListResourcesRequestSchema, async () => \x7b\n  return \x7b\n    resources: resources.map(resource => (\x7b\n      uri: resource.uri,\n      name: resource.name,\n      description: resource.description,\n      mimeType: resource.mimeType,\n    \x7d)),\n  \x7d;\n\x7d);\n\n// Read resource content\nserver.setRequestHandler(ReadResourceRequestSchema, async (request) => \x7b\n  const \x7b uri \x7d = request.params;\n  \n  try \x7b\n    const resource = resources.find(r => r.uri === uri);\n    if (!resource) \x7b\n      throw new McpError(ErrorCode.InvalidRequest, \x60Resource not found: $\x7buri\x7d\x60);\n    \x7d\n    \n    return \x7b\n      contents: [\n        \x7b\n          uri,\n          mimeType: resource.mimeType,\n          text: await resource.getContent(),\n        \x7d,\n      ],\n    \x7d;\n  \x7d catch (error) \x7b\n    if (error instanceof McpError) \x7b\n      throw error;\n    \x7d\n    throw new McpError(ErrorCode.InternalError, \x60Failed to read resource: $\x7berror instanceof Error ? error.message : \x27Unknown error\x27\x7d\x60);\n  \x7d\n\x7d);\n\n// List available prompts\nserver.setRequestHandler(ListPromptsRequestSchema, async () => \x7b\n  return \x7b\n    prompts: prompts.map(prompt => (\x7b\n      name: prompt.name,\n      description: prompt.description,\n      arguments: prompt.arguments,\n    \x7d)),\n  \x7d;\n\x7d);\n\n// Get prompt content\nserver.setRequestHandler(GetPromptRequestSchema, async (request) => \x7b\n  const \x7b name, arguments: args \x7d = request.params;\n  \n  try \x7b\n    const prompt = prompts.find(p => p.name === name);\n    if (!prompt) \x7b\n      throw new McpError(ErrorCode.InvalidRequest, \x60Prompt not found: $\x7bname\x7d\x60);\n    \x7d\n    \n    return await prompt.getContent(args);\n  \x7d catch (error) \x7b\n    if (error instanceof McpError) \x7b\n      throw error;\n    \x7d\n    throw new McpError(ErrorCode.InternalError, \x60Failed to get prompt: $\x7berror instanceof Error ? error.message : \x27Unknown error\x27\x7d\x60);\n  \x7d\n\x7d);\n\n\x7b\x7bCUSTOM_CODE\x7d\x7d\n\nasync function main() \x7b\n  const transport = new StdioServerTransport();\n  await server.connect(transport);\n  console.error(\x27\x7b\x7bSERVER_NAME\x7d\x7d MCP server running on stdio\x27);\n\x7d\n\nmain().catch((error) => \x7b\n  console.error(\x27Server failed to start:\x27, error);\n  process.exit(1);\n\x7d);".data

def tplJavaScriptBasic : List Char :=
  "import \x7b Server \x7d from \x27@modelcontextprotocol/sdk/server/index.js\x27;\nimport \x7b StdioServerTransport \x7d from \x27@modelcontextprotocol/sdk/server/stdio.js\x27;\nimport \x7b\n  CallToolRequestSchema,\n  ErrorCode,\n  ListToolsRequestSchema,\n  McpError,\n\x7d from \x27@modelcontextprotocol/sdk/types.js\x27;\n\n\x7b\x7bSERVER_CODE\x7d\x7d\n\nconst server = new Server(\n  \x7b\n    name: \x27\x7b\x7bSERVER_NAME\x7d\x7d\x27,\n    version: \x271.0.0\x27,\n  \x7d,\n  \x7b\n    capabilities: \x7b\n      tools: \x7b\x7d,\n    \x7d,\n  \x7d\n);\n\n// List available tools\nserver.setRequestHandler(ListToolsRequestSchema, async () => \x7b\n  return \x7b\n    tools: [\n      \x7b\n        name: \x27example_tool\x27,\n        description: \x27An example tool that demonstrates the basic structure\x27,\n        inputSchema: \x7b\n          type: \x27object\x27,\n          properties: \x7b\n            message: \x7b\n              type: \x27string\x27,\n              description: \x27A message to process\x27,\n            \x7d,\n          \x7d,\n          required: [\x27message\x27],\n        \x7d,\n      \x7d,\n    ],\n  \x7d;\n\x7d);\n\n// Handle tool calls\nserver.setRequestHandler(CallToolRequestSchema, async (request) => \x7b\n  const \x7b name, arguments: args \x7d = request.params;\n  \n  try \x7b\n    switch (name) \x7b\n      case \x27example_tool\x27:\n        return \x7b\n          content: [\n            \x7b\n              type: \x27text\x27,\n              text: \x60Processed message: $\x7bargs.message\x7d\x60,\n            \x7d,\n          ],\n        \x7d;\n      \n      default:\n        throw new McpError(ErrorCode.MethodNotFound, \x60Unknown tool: $\x7bname\x7d\x60);\n    \x7d\n  \x7d catch (error) \x7b\n    if (error instanceof McpError) \x7b\n      throw error;\n    \x7d\n    throw new McpError(ErrorCode.InternalError, \x60Tool execution failed: $\x7berror instanceof Error ? error.message : \x27Unknown error\x27\x7d\x60);\n  \x7d\n\x7d);\n\nasync function main() \x7b\n  const transport = new StdioServerTransport();\n  await server.connect(transport);\n  console.error(\x27\x7b\x7bSERVER_NAME\x7d\x7d MCP server running on stdio\x27);\n\x7d\n\nmain().catch((error) => \x7b\n  console.error(\x27Server failed to start:\x27, error);\n  process.exit(1);\n\x7d);".data

def tplJavaScriptTools : List Char :=
  "import \x7b Server \x7d from \x27@modelcontextprotocol/sdk/server/index.js\x27;\nimport \x7b StdioServerTransport \x7d from \x27@modelcontextprotocol/sdk/server/stdio.js\x27;\nimport \x7b\n  CallToolRequestSchema,\n  ErrorCode,\n  ListToolsRequestSchema,\n  McpError,\n\x7d from \x27@modelcontextprotocol/sdk/types.js\x27;\n\n\x7b\x7bSERVER_CODE\x7d\x7d\n\nconst server = new Server(\n  \x7b\n    name: \x27\x7b\x7bSERVER_NAME\x7d\x7d\x27,\n    version: \x271.0.0\x27,\n  \x7d,\n  \x7b\n    capabilities: \x7b\n      tools: \x7b\x7d,\n    \x7d,\n  \x7d\n);\n\n\x7b\x7bTOOLS\x7d\x7d\n\n// List available tools\nserver.setRequestHandler(ListToolsRequestSchema, async () => \x7b\n  return \x7b\n    tools: tools.map(tool => (\x7b\n      name: tool.name,\n      description: tool.description,\n      inputSchema: tool.inputSchema,\n    \x7d)),\n  \x7d;\n\x7d);\n\n// Handle tool calls\nserver.setRequestHandler(CallToolRequestSchema, async (request) => \x7b\n  const \x7b name, arguments: args \x7d = request.params;\n  \n  try \x7b\n    const tool = tools.find(t => t.name === name);\n    if (!tool) \x7b\n      throw new McpError(ErrorCode.MethodNotFound, \x60Unknown tool: $\x7bname\x7d\x60);\n    \x7d\n    \n    return await tool.handler(args);\n  \x7d catch (error) \x7b\n    if (error instanceof McpError) \x7b\n      throw error;\n    \x7d\n    throw new McpError(ErrorCode.InternalError, \x60Tool execution failed: $\x7berror instanceof Error ? error.message : \x27Unknown error\x27\x7d\x60);\n  \x7d\n\x7d);\n\nasync function main() \x7b\n  const transport = new StdioServerTransport();\n  await server.connect(transport);\n  console.error(\x27\x7b\x7bSERVER_NAME\x7d\x7d MCP server running on stdio\x27);\n\x7d\n\nmain().catch((error) => \x7b\n  console.error(\x27Server failed to start:\x27, error);\n  process.exit(1);\n\x7d);".data

def tplJavaScriptResources : List Char :=
  "import \x7b Server \x7d from \x27@modelcontextprotocol/sdk/server/index.js\x27;\nimport \x7b StdioServerTransport \x7d from \x27@modelcontextprotocol/sdk/server/stdio.js\x27;\nimport \x7b\n  ListResourcesRequestSchema,\n  ReadResourceRequestSchema,\n  ErrorCode,\n  McpError,\n\x7d from \x27@modelcontextprotocol/sdk/types.js\x27;\n\n\x7b\x7bSERVER_CODE\x7d\x7d\n\nconst server = new Server(\n  \x7b\n    name: \x27\x7b\x7bSERVER_NAME\x7d\x7d\x27,\n    version: \x271.0.0\x27,\n  \x7d,\n  \x7b\n    capabilities: \x7b\n      resources: \x7b\x7d,\n    \x7d,\n  \x7d\n);\n\n\x7b\x7bRESOURCES\x7d\x7d\n\n// List available resources\nserver.setRequestHandler(ListResourcesRequestSchema, async () => \x7b\n  return \x7b\n    resources: resources.map(resource => (\x7b\n      uri: resource.uri,\n      name: resource.name,\n      description: resource.description,\n      mimeType: resource.mimeType,\n    \x7d)),\n  \x7d;\n\x7d);\n\n// Read resource content\nserver.setRequestHandler(ReadResourceRequestSchema, async (request) => \x7b\n  const \x7b uri \x7d = request.params;\n  \n  try \x7b\n    const resource = resources.find(r => r.uri === uri);\n    if (!resource) \x7b\n      throw new McpError(ErrorCode.InvalidRequest, \x60Resource not found: $\x7buri\x7d\x60);\n    \x7d\n    \n    return \x7b\n      contents: [\n        \x7b\n          uri,\n          mimeType: resource.mimeType,\n          text: await resource.getContent(),\n        \x7d,\n      ],\n    \x7d;\n  \x7d catch (error) \x7b\n    if (error instanceof McpError) \x7b\n      throw error;\n    \x7d\n    throw new McpError(ErrorCode.InternalError, \x60Failed to read resource: $\x7berror instanceof Error ? error.message : \x27Unknown error\x27\x7d\x60);\n  \x7d\n\x7d);\n\nasync function main() \x7b\n  const transport = new StdioServerTransport();\n  await server.connect(transport);\n  console.error(\x27\x7b\x7bSERVER_NAME\x7d\x7d MCP server running on stdio\x27);\n\x7d\n\nmain().catch((error) => \x7b\n  console.error(\x27Server failed to start:\x27, error);\n  process.exit(1);\n\x7d);".data

def tplJavaScriptPrompts : List Char :=
  "import \x7b Server \x7d from \x27@modelcontextprotocol/sdk/server/index.js\x27;\nimport \x7b StdioServerTransport \x7d from \x27@modelcontextprotocol/sdk/server/stdio.js\x27;\nimport \x7b\n  ListPromptsRequestSchema,\n  GetPromptRequestSchema,\n  ErrorCode,\n  McpError,\n\x7d from \x27@modelcontextprotocol/sdk/types.js\x27;\n\n\x7b\x7bSERVER_CODE\x7d\x7d\n\nconst server = new Server(\n  \x7b\n    name: \x27\x7b\x7bSERVER_NAME\x7d\x7d\x27,\n    version: \x271.0.0\x27,\n  \x7d,\n  \x7b\n    capabilities: \x7b\n      prompts: \x7b\x7d,\n    \x7d,\n  \x7d\n);\n\n\x7b\x7bPROMPTS\x7d\x7d\n\n// List available prompts\nserver.setRequestHandler(ListPromptsRequestSchema, async () => \x7b\n  return \x7b\n    prompts: prompts.map(prompt => (\x7b\n      name: prompt.name,\n      description: prompt.description,\n      arguments: prompt.arguments,\n    \x7d)),\n  \x7d;\n\x7d);\n\n// Get prompt content\nserver.setRequestHandler(GetPromptRequestSchema, async (request) => \x7b\n  const \x7b name, arguments: args \x7d = request.params;\n  \n  try \x7b\n    const prompt = prompts.find(p => p.name === name);\n    if (!prompt) \x7b\n      throw new McpError(ErrorCode.InvalidRequest, \x60Prompt not found: $\x7bname\x7d\x60);\n    \x7d\n    \n    return await prompt.getContent(args);\n  \x7d catch (error) \x7b\n    if (error instanceof McpError) \x7b\n      throw error;\n    \x7d\n    throw new McpError(ErrorCode.InternalError, \x60Failed to get prompt: $\x7berror instanceof Error ? error.message : \x27Unknown error\x27\x7d\x60);\n  \x7d\n\x7d);\n\nasync function main() \x7b\n  const transport = new StdioServerTransport();\n  await server.connect(transport);\n  console.error(\x27\x7b\x7bSERVER_NAME\x7d\x7d MCP server running on stdio\x27);\n\x7d\n\nmain().catch((error) => \x7b\n  console.error(\x27Server failed to start:\x27, error);\n  process.exit(1);\n\x7d);".data

def tplJavaScriptAdvanced : List Char :=
  "import \x7b Server \x7d from \x27@modelcontextprotocol/sdk/server/index.js\x27;\nimport \x7b StdioServerTransport \x7d from \x27@modelcontextprotocol/sdk/server/stdio.js\x27;\nimport \x7b\n  CallToolRequestSchema,\n  ListToolsRequestSchema,\n  ListResourcesRequestSchema,\n  ReadResourceRequestSchema,\n  ListPromptsRequestSchema,\n  GetPromptRequestSchema,\n  ErrorCode,\n  McpError,\n\x7d from \x27@modelcontextprotocol/sdk/types.js\x27;\n\n\x7b\x7bSERVER_CODE\x7d\x7d\n\nconst server = new Server(\n  \x7b\n    name: \x27\x7b\x7bSERVER_NAME\x7d\x7d\x27,\n    version: \x271.0.0\x27,\n  \x7d,\n  \x7b\n    capabilities: \x7b\n      tools: \x7b\x7d,\n      resources: \x7b\x7d,\n      prompts: \x7b\x7d,\n    \x7d,\n  \x7d\n);\n\n\x7b\x7bTOOLS\x7d\x7d\n\x7b\x7bRESOURCES\x7d\x7d\n\x7b\x7bPROMPTS\x7d\x7d\n\n// List available tools\nserver.setRequestHandler(ListToolsRequestSchema, async () => \x7b\n  return \x7b\n    tools: tools.map(tool => (\x7b\n      name: tool.name,\n      description: tool.description,\n      inputSchema: tool.inputSchema,\n    \x7d)),\n  \x7d;\n\x7d);\n\n// Handle tool calls\nserver.setRequestHandler(CallToolRequestSchema, async (request) => \x7b\n  const \x7b name, arguments: args \x7d = request.params;\n  \n  try \x7b\n    const tool = tools.find(t => t.name === name);\n    if (!tool) \x7b\n      throw new McpError(ErrorCode.MethodNotFound, \x60Unknown tool: $\x7bname\x7d\x60);\n    \x7d\n    \n    return await tool.handler(args);\n  \x7d catch (error) \x7b\n    if (error instanceof McpError) \x7b\n      throw error;\n    \x7d\n    throw new McpError(ErrorCode.InternalError, \x60Tool execution failed: $\x7berror instanceof Error ? error.message : \x27Unknown error\x27\x7d\x60);\n  \x7d\n\x7d);\n\n// List available resources\nserver.setRequestHandler(ListResourcesRequestSchema, async () => \x7b\n  return \x7b\n    resources: resources.map(resource => (\x7b\n      uri: resource.uri,\n      name: resource.name,\n      description: resource.description,\n      mimeType: resource.mimeType,\n    \x7d)),\n  \x7d;\n\x7d);\n\n// Read resource content\nserver.setRequestHandler(ReadResourceRequestSchema, async (request) => \x7b\n  const \x7b uri \x7d = request.params;\n  \n  try \x7b\n    const resource = resources.find(r => r.uri === uri);\n    if (!resource) \x7b\n      throw new McpError(ErrorCode.InvalidRequest, \x60Resource not found: $\x7buri\x7d\x60);\n    \x7d\n    \n    return \x7b\n      contents: [\n        \x7b\n          uri,\n          mimeType: resource.mimeType,\n          text: await resource.getContent(),\n        \x7d,\n      ],\n    \x7d;\n  \x7d catch (error) \x7b\n    if (error instanceof McpError) \x7b\n      throw error;\n    \x7d\n    throw new McpError(ErrorCode.InternalError, \x60Failed to read resource: $\x7berror instanceof Error ? error.message : \x27Unknown error\x27\x7d\x60);\n  \x7d\n\x7d);\n\n// List available prompts\nserver.setRequestHandler(ListPromptsRequestSchema, async () => \x7b\n  return \x7b\n    prompts: prompts.map(prompt => (\x7b\n      name: prompt.name,\n      description: prompt.description,\n      arguments: prompt.arguments,\n    \x7d)),\n  \x7d;\n\x7d);\n\n// Get prompt content\nserver.setRequestHandler(GetPromptRequestSchema, async (request) => \x7b\n  const \x7b name, arguments: args \x7d = request.params;\n  \n  try \x7b\n    const prompt = prompts.find(p => p.name === name);\n    if (!prompt) \x7b\n      throw new McpError(ErrorCode.InvalidRequest, \x60Prompt not found: $\x7bname\x7d\x60);\n    \x7d\n    \n    return await prompt.getContent(args);\n  \x7d catch (error) \x7b\n    if (error instanceof McpError) \x7b\n      throw error;\n    \x7d\n    throw new McpError(ErrorCode.InternalError, \x60Failed to get prompt: $\x7berror instanceof Error ? error.message : \x27Unknown error\x27\x7d\x60);\n  \x7d\n\x7d);\n\n\x7b\x7bCUSTOM_CODE\x7d\x7d\n\nasync function main() \x7b\n  const transport = new StdioServerTransport();\n  await server.connect(transport);\n  console.error(\x27\x7b\x7bSERVER_NAME\x7d\x7d MCP server running on stdio\x27);\n\x7d\n\nmain().catch((error) => \x7b\n  console.error(\x27Server failed to start:\x27, error);\n  process.exit(1);\n\x7d);".data

def tplPythonBasic : List Char :=
  "#!/usr/bin/env python3\n\"\"\"\n\x7b\x7bSERVER_NAME\x7d\x7d - \x7b\x7bDESCRIPTION\x7d\x7d\n\"\"\"\n\nimport asyncio\nimport json\nimport sys\nfrom typing import Any, Dict, List\n\nfrom mcp.server import Server\nfrom mcp.server.stdio import stdio_server\nfrom mcp.types import Tool, TextContent\n\n\x7b\x7bSERVER_CODE\x7d\x7d\n\nserver = Server(\"\x7b\x7bSERVER_NAME\x7d\x7d\")\n\n@server.list_tools()\nasync def handle_list_tools() -> List[Tool]:\n    \"\"\"List available tools.\"\"\"\n    return [\n        Tool(\n            name=\"example_tool\",\n            description=\"An example tool that demonstrates the basic structure\",\n            inputSchema=\x7b\n                \"type\": \"object\",\n                \"properties\": \x7b\n                    \"message\": \x7b\n                        \"type\": \"string\",\n                        \"description\": \"A message to process\",\n                    \x7d,\n                \x7d,\n                \"required\": [\"message\"],\n            \x7d,\n        )\n    ]\n\n@server.call_tool()\nasync def handle_call_tool(name: str, arguments: Dict[str, Any]) -> List[TextContent]:\n    \"\"\"Handle tool calls.\"\"\"\n    try:\n        if name == \"example_tool\":\n            return [TextContent(type=\"text\", text=f\"Processed message: \x7barguments[\x27message\x27]\x7d\")]\n        \n        raise ValueError(f\"Unknown tool: \x7bname\x7d\")\n    except Exception as e:\n        raise ValueError(f\"Tool execution failed: \x7bstr(e)\x7d\")\n\nasync def main():\n    \"\"\"Run the server.\"\"\"\n    async with stdio_server() as (read_stream, write_stream):\n        await server.run(\n            read_stream,\n            write_stream,\n            server.create_initialization_options()\n        )\n\nif __name__ == \"__main__\":\n    asyncio.run(main())".data

def tplPythonTools : List Char :=
  "#!/usr/bin/env python3\n\"\"\"\n\x7b\x7bSERVER_NAME\x7d\x7d - \x7b\x7bDESCRIPTION\x7d\x7d\n\"\"\"\n\nimport asyncio\nimport json\nimport sys\nfrom typing import Any, Dict, List\n\nfrom mcp.server import Server\nfrom mcp.server.stdio import stdio_server\nfrom mcp.types import Tool, TextContent\n\n\x7b\x7bSERVER_CODE\x7d\x7d\n\nserver = Server(\"\x7b\x7bSERVER_NAME\x7d\x7d\")\n\n\x7b\x7bTOOLS\x7d\x7d\n\n@server.list_tools()\nasync def handle_list_tools() -> List[Tool]:\n    \"\"\"List available tools.\"\"\"\n    return [\n        Tool(\n            name=tool[\"name\"],\n            description=tool[\"description\"],\n            inputSchema=tool[\"inputSchema\"]\n        )\n        for tool in tools\n    ]\n\n@server.call_tool()\nasync def handle_call_tool(name: str, arguments: Dict[str, Any]) -> List[TextContent]:\n    \"\"\"Handle tool calls.\"\"\"\n    try:\n        tool = next((t for t in tools if t[\"name\"] == name), None)\n        if not tool:\n            raise ValueError(f\"Unknown tool: \x7bname\x7d\")\n        \n        return await tool[\"handler\"](arguments)\n    except Exception as e:\n        raise ValueError(f\"Tool execution failed: \x7bstr(e)\x7d\")\n\nasync def main():\n    \"\"\"Run the server.\"\"\"\n    async with stdio_server() as (read_stream, write_stream):\n        await server.run(\n            read_stream,\n            write_stream,\n            server.create_initialization_options()\n        )\n\nif __name__ == \"__main__\":\n    asyncio.run(main())".data

def tplPythonResources : List Char :=
  "#!/usr/bin/env python3\n\"\"\"\n\x7b\x7bSERVER_NAME\x7d\x7d - \x7b\x7bDESCRIPTION\x7d\x7d\n\"\"\"\n\nimport asyncio\nimport json\nimport sys\nfrom typing import Any, Dict, List\n\nfrom mcp.server import Server\nfrom mcp.server.stdio import stdio_server\nfrom mcp.types import Resource, TextContent\n\n\x7b\x7bSERVER_CODE\x7d\x7d\n\nserver = Server(\"\x7b\x7bSERVER_NAME\x7d\x7d\")\n\n\x7b\x7bRESOURCES\x7d\x7d\n\n@server.list_resources()\nasync def handle_list_resources() -> List[Resource]:\n    \"\"\"List available resources.\"\"\"\n    return [\n        Resource(\n            uri=resource[\"uri\"],\n            name=resource[\"name\"],\n            description=resource[\"description\"],\n            mimeType=resource[\"mimeType\"]\n        )\n        for resource in resources\n    ]\n\n@server.read_resource()\nasync def handle_read_resource(uri: str) -> List[TextContent]:\n    \"\"\"Read resource content.\"\"\"\n    try:\n        resource = next((r for r in resources if r[\"uri\"] == uri), None)\n        if not resource:\n            raise ValueError(f\"Resource not found: \x7buri\x7d\")\n        \n        content = await resource[\"getContent\"]()\n        return [TextContent(type=\"text\", text=content, uri=uri)]\n    except Exception as e:\n        raise ValueError(f\"Failed to read resource: \x7bstr(e)\x7d\")\n\nasync def main():\n    \"\"\"Run the server.\"\"\"\n    async with stdio_server() as (read_stream, write_stream):\n        await server.run(\n            read_stream,\n            write_stream,\n            server.create_initialization_options()\n        )\n\nif __name__ == \"__main__\":\n    asyncio.run(main())".data

def tplPythonPrompts : List Char :=
  "#!/usr/bin/env python3\n\"\"\"\n\x7b\x7bSERVER_NAME\x7d\x7d - \x7b\x7bDESCRIPTION\x7d\x7d\n\"\"\"\n\nimport asyncio\nimport json\nimport sys\nfrom typing import Any, Dict, List\n\nfrom mcp.server import Server\nfrom mcp.server.stdio import stdio_server\nfrom mcp.types import Prompt, GetPromptResult\n\n\x7b\x7bSERVER_CODE\x7d\x7d\n\nserver = Server(\"\x7b\x7bSERVER_NAME\x7d\x7d\")\n\n\x7b\x7bPROMPTS\x7d\x7d\n\n@server.list_prompts()\nasync def handle_list_prompts() -> List[Prompt]:\n    \"\"\"List available prompts.\"\"\"\n    return [\n        Prompt(\n            name=prompt[\"name\"],\n            description=prompt[\"description\"],\n            arguments=prompt[\"arguments\"]\n        )\n        for prompt in prompts\n    ]\n\n@server.get_prompt()\nasync def handle_get_prompt(name: str, arguments: Dict[str, Any]) -> GetPromptResult:\n    \"\"\"Get prompt content.\"\"\"\n    try:\n        prompt = next((p for p in prompts if p[\"name\"] == name), None)\n        if not prompt:\n            raise ValueError(f\"Prompt not found: \x7bname\x7d\")\n        \n        return await prompt[\"getContent\"](arguments)\n    except Exception as e:\n        raise ValueError(f\"Failed to get prompt: \x7bstr(e)\x7d\")\n\nasync def main():\n    \"\"\"Run the server.\"\"\"\n    async with stdio_server() as (read_stream, write_stream):\n        await server.run(\n            read_stream,\n            write_stream,\n            server.create_initialization_options()\n        )\n\nif __name__ == \"__main__\":\n    asyncio.run(main())".data

def tplPythonAdvanced : List Char :=
  "#!/usr/bin/env python3\n\"\"\"\n\x7b\x7bSERVER_NAME\x7d\x7d - \x7b\x7bDESCRIPTION\x7d\x7d\n\"\"\"\n\nimport asyncio\nimport json\nimport sys\nfrom typing import Any, Dict, List\n\nfrom mcp.server import Server\nfrom mcp.server.stdio import stdio_server\nfrom mcp.types import Tool, Resource, Prompt, TextContent, GetPromptResult\n\n\x7b\x7bSERVER_CODE\x7d\x7d\n\nserver = Server(\"\x7b\x7bSERVER_NAME\x7d\x7d\")\n\n\x7b\x7bTOOLS\x7d\x7d\n\x7b\x7bRESOURCES\x7d\x7d\n\x7b\x7bPROMPTS\x7d\x7d\n\n@server.list_tools()\nasync def handle_list_tools() -> List[Tool]:\n    \"\"\"List available tools.\"\"\"\n    return [\n        Tool(\n            name=tool[\"name\"],\n            description=tool[\"description\"],\n            inputSchema=tool[\"inputSchema\"]\n        )\n        for tool in tools\n    ]\n\n@server.call_tool()\nasync def handle_call_tool(name: str, arguments: Dict[str, Any]) -> List[TextContent]:\n    \"\"\"Handle tool calls.\"\"\"\n    try:\n        tool = next((t for t in tools if t[\"name\"] == name), None)\n        if not tool:\n            raise ValueError(f\"Unknown tool: \x7bname\x7d\")\n        \n        return await tool[\"handler\"](arguments)\n    except Exception as e:\n        raise ValueError(f\"Tool execution failed: \x7bstr(e)\x7d\")\n\n@server.list_resources()\nasync def handle_list_resources() -> List[Resource]:\n    \"\"\"List available resources.\"\"\"\n    return [\n        Resource(\n            uri=resource[\"uri\"],\n            name=resource[\"name\"],\n            description=resource[\"description\"],\n            mimeType=resource[\"mimeType\"]\n        )\n        for resource in resources\n    ]\n\n@server.read_resource()\nasync def handle_read_resource(uri: str) -> List[TextContent]:\n    \"\"\"Read resource content.\"\"\"\n    try:\n        resource = next((r for r in resources if r[\"uri\"] == uri), None)\n        if not resource:\n            raise ValueError(f\"Resource not found: \x7buri\x7d\")\n        \n        content = await resource[\"getContent\"]()\n        return [TextContent(type=\"text\", text=content, uri=uri)]\n    except Exception as e:\n        raise ValueError(f\"Failed to read resource: \x7bstr(e)\x7d\")\n\n@server.list_prompts()\nasync def handle_list_prompts() -> List[Prompt]:\n    \"\"\"List available prompts.\"\"\"\n    return [\n        Prompt(\n            name=prompt[\"name\"],\n            description=prompt[\"description\"],\n            arguments=prompt[\"arguments\"]\n        )\n        for prompt in prompts\n    ]\n\n@server.get_prompt()\nasync def handle_get_prompt(name: str, arguments: Dict[str, Any]) -> GetPromptResult:\n    \"\"\"Get prompt content.\"\"\"\n    try:\n        prompt = next((p for p in prompts if p[\"name\"] == name), None)\n        if not prompt:\n            raise ValueError(f\"Prompt not found: \x7bname\x7d\")\n        \n        return await prompt[\"getContent\"](arguments)\n    except Exception as e:\n        raise ValueError(f\"Failed to get prompt: \x7bstr(e)\x7d\")\n\n\x7b\x7bCUSTOM_CODE\x7d\x7d\n\nasync def main():\n    \"\"\"Run the server.\"\"\"\n    async with stdio_server() as (read_stream, write_stream):\n        await server.run(\n            read_stream,\n            write_stream,\n            server.create_initialization_options()\n        )\n\nif __name__ == \"__main__\":\n    asyncio.run(main())".data

/-- The registry contents: (name, template body) in registration order. -/
def templateRegistry : List (List Char × List Char) :=
  [(("typescript-basic".data), tplTypeScriptBasic),
   (("typescript-tools".data), tplTypeScriptTools),
   (("typescript-resources".data), tplTypeScriptResources),
   (("typescript-prompts".data), tplTypeScriptPrompts),
   (("typescript-advanced".data), tplTypeScriptAdvanced),
   (("javascript-basic".data), tplJavaScriptBasic),
   (("javascript-tools".data), tplJavaScriptTools),
   (("javascript-resources".data), tplJavaScriptResources),
   (("javascript-prompts".data), tplJavaScriptPrompts),
   (("javascript-advanced".data), tplJavaScriptAdvanced),
   (("python-basic".data), tplPythonBasic),
   (("python-tools".data), tplPythonTools),
   (("python-resources".data), tplPythonResources),
   (("python-prompts".data), tplPythonPrompts),
   (("python-advanced".data), tplPythonAdvanced)]

/-- `TemplateRegistry.getTemplate`: lookup in the name-keyed map. -/
def getTemplate (name : List Char) : Option (List Char) :=
  (templateRegistry.find? (fun p => p.1 == name)).map (fun p => p.2)

/-! ### Segment view of template bodies (analysis infrastructure)

A template body is literal text interleaved with `\x7b\x7bNAME\x7d\x7d` markers. The
parser below recovers that structure while enforcing the discipline the
registered bodies satisfy: every double-open-brace begins a well-formed
marker and no literal chunk ends in an opening brace right before a
marker. All rendering lemmas are proved over this view. -/

inductive Seg where
  | txt : List Char → Seg
  | mark : List Char → Seg
deriving DecidableEq, Repr

def flattenSegs : List Seg → List Char
  | [] => []
  | Seg.txt a :: r => a ++ flattenSegs r
  | Seg.mark n :: r =>
    ("\x7b\x7b".data) ++ n ++ ("\x7d\x7d".data) ++ flattenSegs r

def nameOk (n : List Char) : Bool := !n.isEmpty && n.all upperOrUnd

/-- Marker discipline: literal chunks contain no double-open-brace and no
chunk ends in an opening brace while the rest of the body starts with one;
marker names are nonempty uppercase identifiers. -/
def repClean : List Seg → Bool
  | [] => true
  | Seg.txt a :: r =>
    !containsSub ("\x7b\x7b".data) a &&
    !((a.getLast? = some '{') && startsWithL ("\x7b".data) (flattenSegs r)) &&
    repClean r
  | Seg.mark n :: r => nameOk n && repClean r

/-- Parse a body into segments, rejecting any violation of the discipline. -/
def parseSegsGo : Nat → List Char → List Char → Option (List Seg)
  | 0, _, _ => none
  | _ + 1, acc, [] => some (if acc.isEmpty then [] else [Seg.txt acc.reverse])
  | fuel + 1, acc, c :: t =>
    if startsWithL ("\x7b\x7b".data) (c :: t) then
      if acc.head? = some '{' then none
      else
        let nm := ((c :: t).drop 2).takeWhile upperOrUnd
        if nm.isEmpty then none
        else if startsWithL ("\x7d\x7d".data) (((c :: t).drop 2).drop nm.length)
        then
          match parseSegsGo fuel [] ((((c :: t).drop 2).drop nm.length).drop 2)
          with
          | some segs =>
            some ((if acc.isEmpty then [] else [Seg.txt acc.reverse]) ++
              Seg.mark nm :: segs)
          | none => none
        else none
    else parseSegsGo fuel (c :: acc) t

/-- Replace every marker of one provided key by its value (the effect of
one pass-1 iteration on the segment view). -/
def substOne (key value : List Char) : List Seg → List Seg :=
  List.map (fun s =>
    match s with
    | Seg.mark n => if n = key then Seg.txt value else Seg.mark n
    | s => s)

def substRep (vars : List (List Char × List Char)) (rep : List Seg) :
    List Seg :=
  vars.foldl (fun r kv => substOne kv.1 kv.2 r) rep

/-- The marker substrings of a segment list, in order. -/
def markStringsOf : List Seg → List (List Char)
  | [] => []
  | Seg.txt _ :: r => markStringsOf r
  | Seg.mark n :: r =>
    (("\x7b\x7b".data) ++ n ++ ("\x7d\x7d".data)) :: markStringsOf r

/-- What pass 2 substitutes for a leftover marker of the given name. -/
def resolveVal (n : List Char) : List Char :=
  if optionalVars.contains n then [] else placeholderFor n

/-- The effect of pass 2 on the segment view. -/
def resolveRep : List Seg → List Seg :=
  List.map (fun s =>
    match s with
    | Seg.mark n => Seg.txt (resolveVal n)
    | s => s)

/-- Provided values assumed free of braces and dollar characters (braces
would interact with the leftover re-scan, dollars with the replacement
pattern syntax of `String.prototype.replace`). -/
def valueClean (v : List Char) : Bool :=
  v.all (fun c => !(c = '{') && !(c = '}') && !(c = '$'))


/-! ## End of definitions marker (further definitions are inserted above) -/

/-! ## Lemmas and claim theorems -/

theorem mem_dropWhile {p : Char → Bool} {l : List Char} {c : Char}
    (h : c ∈ l.dropWhile p) : c ∈ l := by
  induction l with
  | nil => simp at h
  | cons d ds ih =>
    rw [List.dropWhile_cons] at h
    by_cases hp : p d = true
    · simp [hp] at h
      exact List.mem_cons_of_mem _ (ih h)
    · simp [hp] at h
      simpa using h

theorem head?_dropWhile {p : Char → Bool} {l : List Char} {c : Char}
    (h : (l.dropWhile p).head? = some c) : p c = false := by
  induction l with
  | nil => simp at h
  | cons d ds ih =>
    rw [List.dropWhile_cons] at h
    by_cases hp : p d = true
    · simp [hp] at h
      exact ih h
    · simp [hp] at h
      rw [← h]
      simpa using hp

theorem dropWhile_suffix_decomp (p : Char → Bool) (l : List Char) :
    ∃ t, l = t ++ l.dropWhile p := by
  induction l with
  | nil => exact ⟨[], rfl⟩
  | cons d ds ih =>
    rw [List.dropWhile_cons]
    by_cases hp : p d = true
    · obtain ⟨t, ht⟩ := ih
      exact ⟨d :: t, by simp [hp, ← ht]⟩
    · exact ⟨[], by simp [hp]⟩

theorem getLast?_dropWhile {p : Char → Bool} {l : List Char}
    (h : l.dropWhile p ≠ []) : (l.dropWhile p).getLast? = l.getLast? := by
  obtain ⟨t, ht⟩ := dropWhile_suffix_decomp p l
  conv_rhs => rw [ht]
  rw [List.getLast?_append_of_ne_nil _ h]

theorem getLast?_cons_ne {c : Char} {l : List Char} (h : l ≠ []) :
    (c :: l).getLast? = l.getLast? := by
  cases l with
  | nil => exact absurd rfl h
  | cons e es => exact List.getLast?_cons_cons

theorem getLast?_ne_none {l : List Char} (h : l ≠ []) : l.getLast? ≠ none := by
  intro hn
  exact h (List.getLast?_eq_none_iff.mp hn)

theorem replaceBadRunsGo_allowed (b : Bool) (l : List Char) :
    ∀ c ∈ replaceBadRunsGo b l, allowedChar c = true := by
  induction l generalizing b with
  | nil => simp [replaceBadRunsGo]
  | cons d ds ih =>
    intro c hc
    rw [replaceBadRunsGo] at hc
    by_cases hd : allowedChar d = true
    · simp [hd] at hc
      rcases hc with h | h
      · exact h ▸ hd
      · exact ih false c h
    · simp [hd] at hc
      rcases b with _ | _
      · simp at hc
        rcases hc with h | h
        · subst h; decide
        · exact ih true c h
      · simp at hc
        exact ih true c hc

theorem replaceBadRunsGo_id (b : Bool) (l : List Char)
    (h : ∀ c ∈ l, allowedChar c = true) : replaceBadRunsGo b l = l := by
  induction l generalizing b with
  | nil => simp [replaceBadRunsGo]
  | cons d ds ih =>
    have hd : allowedChar d = true := h d (by simp)
    rw [replaceBadRunsGo]
    simp [hd]
    exact ih false (fun c hc => h c (List.mem_cons_of_mem _ hc))

theorem collapseHyphensGo_mem (b : Bool) (l : List Char) :
    ∀ c ∈ collapseHyphensGo b l, c = '-' ∨ c ∈ l := by
  induction l generalizing b with
  | nil => simp [collapseHyphensGo]
  | cons d ds ih =>
    intro c hc
    rw [collapseHyphensGo] at hc
    by_cases hd : d = '-'
    · simp [hd] at hc
      rcases b with _ | _
      · simp at hc
        rcases hc with h | h
        · exact Or.inl h
        · rcases ih true c h with h' | h'
          · exact Or.inl h'
          · exact Or.inr (List.mem_cons_of_mem _ h')
      · simp at hc
        rcases ih true c hc with h' | h'
        · exact Or.inl h'
        · exact Or.inr (List.mem_cons_of_mem _ h')
    · simp [hd] at hc
      rcases hc with h | h
      · exact Or.inr (h ▸ List.mem_cons_self _ _)
      · rcases ih false c h with h' | h'
        · exact Or.inl h'
        · exact Or.inr (List.mem_cons_of_mem _ h')

theorem collapseHyphensGo_true_head (l : List Char) :
    ∀ c, (collapseHyphensGo true l).head? = some c → c ≠ '-' := by
  induction l with
  | nil => simp [collapseHyphensGo]
  | cons d ds ih =>
    intro c hc
    rw [collapseHyphensGo] at hc
    by_cases hd : d = '-'
    · simp [hd] at hc
      exact ih c hc
    · simp [hd] at hc
      rw [← hc]
      exact hd

theorem collapseHyphensGo_noDouble (b : Bool) (l : List Char) :
    containsSub ("--".data) (collapseHyphensGo b l) = false := by
  induction l generalizing b with
  | nil => simp [collapseHyphensGo]; decide
  | cons d ds ih =>
    rw [collapseHyphensGo]
    by_cases hd : d = '-'
    · simp [hd]
      rcases b with _ | _
      · simp [containsSub]
        refine ⟨?_, ih true⟩
        cases hh : (collapseHyphensGo true ds).head? with
        | none =>
          cases hcc : collapseHyphensGo true ds with
          | nil => decide
          | cons x xs => simp [hcc] at hh
        | some c =>
          have := collapseHyphensGo_true_head ds c hh
          cases hcc : collapseHyphensGo true ds with
          | nil => decide
          | cons x xs =>
            rw [hcc] at hh
            simp at hh
            show (startsWithL ("--".data) ('-' :: x :: xs)) = false
            show (('-' = '-') && startsWithL ("-".data) (x :: xs)) = false
            simp [startsWithL]
            intro hx
            exact absurd (hh ▸ hx).symm this
      · exact ih true
    · simp [hd]
      simp [containsSub]
      refine ⟨?_, ih false⟩
      show (startsWithL ("--".data) (d :: collapseHyphensGo false ds)) = false
      show (('-' = d) && startsWithL ("-".data) (collapseHyphensGo false ds)) = false
      simp
      intro h
      exact absurd h.symm hd

theorem collapseHyphensGo_head_preserve (l : List Char) (c : Char)
    (hc : l.head? = some c) (hne : c ≠ '-') :
    (collapseHyphensGo false l).head? = some c := by
  cases l with
  | nil => simp at hc
  | cons d ds =>
    simp at hc
    rw [collapseHyphensGo]
    subst hc
    simp [hne]

theorem collapseHyphensGo_false_ne_nil (l : List Char) (h : l ≠ []) :
    collapseHyphensGo false l ≠ [] := by
  cases l with
  | nil => exact absurd rfl h
  | cons d ds =>
    rw [collapseHyphensGo]
    by_cases hd : d = '-' <;> simp [hd]

theorem collapseHyphensGo_getLast_preserve (b : Bool) (l : List Char)
    (hlast : l.getLast? ≠ some '-') :
    (collapseHyphensGo b l).getLast? = l.getLast? := by
  induction l generalizing b with
  | nil => simp [collapseHyphensGo]
  | cons d ds ih =>
    rw [collapseHyphensGo]
    by_cases hne : ds = []
    · subst hne
      simp at hlast
      simp [hlast, collapseHyphensGo]
    · have hstep : (d :: ds).getLast? = ds.getLast? := getLast?_cons_ne hne
      have hlast' : ds.getLast? ≠ some '-' := by rwa [hstep] at hlast
      by_cases hd : d = '-'
      · rw [if_pos hd]
        rcases b with _ | _
        · rw [if_neg (by simp)]
          have hXne : collapseHyphensGo true ds ≠ [] := by
            intro hX
            have := ih true hlast'
            rw [hX] at this
            exact getLast?_ne_none hne this.symm
          rw [getLast?_cons_ne hXne, hstep]
          exact ih true hlast'
        · rw [if_pos rfl, hstep]
          exact ih true hlast'
      · rw [if_neg hd]
        have hXne : collapseHyphensGo false ds ≠ [] :=
          collapseHyphensGo_false_ne_nil ds hne
        rw [getLast?_cons_ne hXne, hstep]
        exact ih false hlast'

theorem collapseHyphensGo_id (l : List Char)
    (h : containsSub ("--".data) l = false) : collapseHyphensGo false l = l := by
  induction l with
  | nil => rfl
  | cons d ds ih =>
    rw [collapseHyphensGo]
    by_cases hd : d = '-'
    · rw [if_pos hd]
      subst hd
      have hds : containsSub ("--".data) ds = false := by
        rw [containsSub] at h
        simp at h
        exact h.2
      have hhead : ∀ e es, ds = e :: es → e ≠ '-' := by
        intro e es hds' he
        rw [containsSub] at h
        simp at h
        rw [hds', he] at h
        have h1 := h.1
        simp [startsWithL] at h1
      cases hcs : ds with
      | nil => rfl
      | cons e es =>
        have he := hhead e es hcs
        rw [if_neg (by simp)]
        rw [collapseHyphensGo, if_neg he]
        have hthis : collapseHyphensGo false ds = ds := ih hds
        rw [hcs, collapseHyphensGo, if_neg he] at hthis
        have h2 : collapseHyphensGo false es = es := by simpa using hthis
        rw [h2]
    · rw [if_neg hd]
      have hds : containsSub ("--".data) ds = false := by
        rw [containsSub] at h
        simp at h
        exact h.2
      rw [ih hds]

theorem replaceBadRuns_allowed (l : List Char) :
    ∀ c ∈ replaceBadRuns l, allowedChar c = true :=
  replaceBadRunsGo_allowed false l

theorem stripHyphens_mem {l : List Char} {c : Char} (h : c ∈ stripHyphens l) :
    c ∈ l := by
  rw [stripHyphens] at h
  rw [List.mem_reverse] at h
  have h1 := mem_dropWhile h
  rw [List.mem_reverse] at h1
  exact mem_dropWhile h1

theorem stripHyphens_head? (l : List Char) :
    stripHyphens l ≠ [] → ∀ c, (stripHyphens l).head? = some c → c ≠ '-' := by
  intro hne c hc
  rw [stripHyphens] at hc hne
  rw [List.head?_reverse] at hc
  have hzne : (l.dropWhile (· = '-')).reverse.dropWhile (· = '-') ≠ [] := by
    intro hz
    rw [hz] at hne
    exact hne rfl
  rw [getLast?_dropWhile hzne, List.getLast?_reverse] at hc
  have := head?_dropWhile hc
  simpa using this

theorem stripHyphens_getLast? (l : List Char) :
    ∀ c, (stripHyphens l).getLast? = some c → c ≠ '-' := by
  intro c hc
  rw [stripHyphens, List.getLast?_reverse] at hc
  have := head?_dropWhile hc
  simpa using this

theorem dropWhile_id_of_head {p : Char → Bool} {l : List Char}
    (h : ∀ c, l.head? = some c → p c = false) : l.dropWhile p = l := by
  cases l with
  | nil => rfl
  | cons d ds =>
    rw [List.dropWhile_cons, if_neg]
    simp [h d rfl]

theorem stripHyphens_id (l : List Char)
    (hh : ∀ c, l.head? = some c → c ≠ '-')
    (hl : ∀ c, l.getLast? = some c → c ≠ '-') : stripHyphens l = l := by
  rw [stripHyphens]
  have houter : (l.dropWhile (· = '-')).reverse.dropWhile (· = '-')
      = (l.dropWhile (· = '-')).reverse := by
    apply dropWhile_id_of_head
    intro c hc
    rw [List.head?_reverse] at hc
    by_cases hnil : l.dropWhile (· = '-') = []
    · rw [hnil] at hc
      simp at hc
    · rw [getLast?_dropWhile hnil] at hc
      simpa using hl c hc
  rw [houter, List.reverse_reverse]
  apply dropWhile_id_of_head
  intro c hc
  simpa using hh c hc

theorem toLower_allowed {c : Char} (h : allowedChar c = true) :
    Char.toLower c = c := by
  rw [Char.toLower]
  rw [if_neg]
  rw [allowedChar] at h
  simp [Char.le_def] at h
  intro hcon
  obtain ⟨h1, h2⟩ := hcon
  rw [Char.toNat] at h1 h2
  rcases h with (⟨a, b⟩ | ⟨a, b⟩) | hc
  · have a' : (97 : UInt32).toNat ≤ c.val.toNat := a
    have b' : c.val.toNat ≤ (122 : UInt32).toNat := b
    have e1 : (97 : UInt32).toNat = 97 := by decide
    have e2 : (122 : UInt32).toNat = 122 := by decide
    omega
  · have a' : (48 : UInt32).toNat ≤ c.val.toNat := a
    have b' : c.val.toNat ≤ (57 : UInt32).toNat := b
    have e1 : (48 : UInt32).toNat = 48 := by decide
    have e2 : (57 : UInt32).toNat = 57 := by decide
    omega
  · subst hc
    exact absurd h1 (by decide)

theorem lowerStr_id (l : List Char) (h : ∀ c ∈ l, allowedChar c = true) :
    lowerStr l = l := by
  rw [lowerStr]
  induction l with
  | nil => rfl
  | cons d ds ih =>
    rw [List.map_cons, toLower_allowed (h d (by simp)), ih]
    intro c hc
    exact h c (List.mem_cons_of_mem _ hc)

theorem sanitizeName_allowed (l : List Char) :
    ∀ c ∈ sanitizeName l, allowedChar c = true := by
  intro c hc
  rw [sanitizeName] at hc
  rcases collapseHyphensGo_mem false _ c hc with h | h
  · subst h; decide
  · exact replaceBadRuns_allowed _ c (stripHyphens_mem h)

theorem replaceBadRuns_id (l : List Char) (h : ∀ c ∈ l, allowedChar c = true) :
    replaceBadRuns l = l :=
  replaceBadRunsGo_id false l h

theorem collapseHyphens_id (l : List Char)
    (h : containsSub ("--".data) l = false) : collapseHyphens l = l :=
  collapseHyphensGo_id l h

theorem sanitizeName_head? (l : List Char) :
    ∀ c, (sanitizeName l).head? = some c → c ≠ '-' := by
  intro c hc
  rw [sanitizeName, collapseHyphens] at hc
  set m := stripHyphens (replaceBadRuns (lowerStr l)) with hm
  cases hcm : m with
  | nil =>
    rw [hcm] at hc
    simp [collapseHyphensGo] at hc
  | cons d ds =>
    have hd : d ≠ '-' := by
      apply stripHyphens_head? (replaceBadRuns (lowerStr l)) (by rw [← hm, hcm]; simp) d
      rw [← hm, hcm]
      rfl
    rw [hcm, collapseHyphensGo_head_preserve (d :: ds) d rfl hd] at hc
    simp at hc
    rw [← hc]
    exact hd

theorem sanitizeName_getLast? (l : List Char) :
    ∀ c, (sanitizeName l).getLast? = some c → c ≠ '-' := by
  intro c hc
  rw [sanitizeName, collapseHyphens] at hc
  set m := stripHyphens (replaceBadRuns (lowerStr l)) with hm
  have hmlast : m.getLast? ≠ some '-' := by
    intro hsome
    exact stripHyphens_getLast? (replaceBadRuns (lowerStr l)) '-' (by rw [← hm]; exact hsome) rfl
  rw [collapseHyphensGo_getLast_preserve false m hmlast] at hc
  intro hcon
  rw [hcon] at hc
  exact hmlast hc

theorem sanitizeName_noDouble (l : List Char) :
    containsSub ("--".data) (sanitizeName l) = false :=
  collapseHyphensGo_noDouble false _

theorem sanitizeName_idem (l : List Char) :
    sanitizeName (sanitizeName l) = sanitizeName l := by
  have hall := sanitizeName_allowed l
  conv_lhs => rw [sanitizeName]
  rw [lowerStr_id _ hall, replaceBadRuns_id _ hall,
    stripHyphens_id _ (fun c hc => sanitizeName_head? l c hc)
      (fun c hc => sanitizeName_getLast? l c hc),
    collapseHyphens_id _ (sanitizeName_noDouble l)]

theorem startsWithL_append_self (p y : List Char) :
    startsWithL p (p ++ y) = true := by
  induction p with
  | nil => rfl
  | cons c cs ih => simp [startsWithL, ih]

theorem endsWithL_append_self (x suf : List Char) :
    endsWithL suf (x ++ suf) = true := by
  rw [endsWithL, List.reverse_append]
  exact startsWithL_append_self _ _

theorem ensureServerSuffix_idem (l : List Char) :
    ensureServerSuffix (ensureServerSuffix l) = ensureServerSuffix l := by
  by_cases h0 : l = []
  · simp [h0, ensureServerSuffix]
  · by_cases hsuf : endsWithL ("-server".data) l = true
    · have hel : ensureServerSuffix l = l := by
        rw [ensureServerSuffix, if_neg h0, if_pos hsuf]
      rw [hel]
      exact hel
    · have hel : ensureServerSuffix l = l ++ ("-server".data) := by
        rw [ensureServerSuffix, if_neg h0, if_neg hsuf]
      rw [hel, ensureServerSuffix, if_neg (by simp), if_pos (endsWithL_append_self l _)]

theorem ensureServerSuffix_ends (l : List Char) (h : l ≠ []) :
    endsWithL ("-server".data) (ensureServerSuffix l) = true := by
  rw [ensureServerSuffix, if_neg h]
  by_cases hsuf : endsWithL ("-server".data) l = true
  · rwa [if_pos hsuf]
  · rw [if_neg hsuf]
    exact endsWithL_append_self l _

/-- Claim C9: the project-name slug of "Weather Tools!" is "weather-tools"
(`sanitizeName`), ensuring the server suffix on "weather-server" leaves it
unchanged, and on "weather-tools" appends "-server", giving
"weather-tools-server". -/
theorem c9_slug_and_suffix_examples :
    sanitizeName ("Weather Tools!".data) = "weather-tools".data ∧
    ensureServerSuffix ("weather-server".data) = "weather-server".data ∧
    ensureServerSuffix ("weather-tools".data) = "weather-tools-server".data := by
  refine ⟨by decide, by decide, by decide⟩

/-- Claim C10: for every input string, `sanitizeName` yields only characters
from the class a-z, 0-9 and hyphen, with no leading or trailing hyphen, no two
consecutive hyphens, and is idempotent; `ensureServerSuffix` is idempotent and
its result ends with "-server" whenever its input is non-empty. -/
theorem c10_sanitize_canonical_idempotent (s : List Char) :
    (∀ c ∈ sanitizeName s, allowedChar c = true) ∧
    (∀ c, (sanitizeName s).head? = some c → c ≠ '-') ∧
    (∀ c, (sanitizeName s).getLast? = some c → c ≠ '-') ∧
    containsSub ("--".data) (sanitizeName s) = false ∧
    sanitizeName (sanitizeName s) = sanitizeName s ∧
    ensureServerSuffix (ensureServerSuffix s) = ensureServerSuffix s ∧
    (s ≠ [] → endsWithL ("-server".data) (ensureServerSuffix s) = true) :=
  ⟨sanitizeName_allowed s, sanitizeName_head? s, sanitizeName_getLast? s,
    sanitizeName_noDouble s, sanitizeName_idem s, ensureServerSuffix_idem s,
    ensureServerSuffix_ends s⟩

/-- Witness for C10 at the concrete input "weather". -/
theorem c10_witness :
    endsWithL ("-server".data) (ensureServerSuffix ("weather".data)) = true :=
  (c10_sanitize_canonical_idempotent ("weather".data)).2.2.2.2.2.2 (by decide)

theorem mlineTailOK_decomp {t : List Char} (h : mlineTailOK t = true) :
    ∃ t1 t2, t = t1 ++ t2 ∧ (∀ c ∈ t1, jsWS c = true) ∧
      (t2 = [] ∨ ∃ c, t2.head? = some c ∧ isLineTerm c = true) := by
  induction t with
  | nil => exact ⟨[], [], rfl, by simp, Or.inl rfl⟩
  | cons c t' ih =>
    rw [mlineTailOK] at h
    simp at h
    rcases h with h | ⟨hws, hrec⟩
    · exact ⟨[], c :: t', rfl, by simp, Or.inr ⟨c, rfl, h⟩⟩
    · obtain ⟨t1, t2, heq, hall, hend⟩ := ih hrec
      exact ⟨c :: t1, t2, by rw [heq]; rfl, by
        intro d hd
        rcases List.mem_cons.mp hd with h' | h'
        · exact h' ▸ hws
        · exact hall d h', hend⟩

theorem closeBraceSearch_decomp {l : List Char} (h : closeBraceSearch l = true) :
    ∃ r t, l = r ++ '}' :: t ∧ mlineTailOK t = true := by
  induction l with
  | nil => simp [closeBraceSearch] at h
  | cons c t' ih =>
    rw [closeBraceSearch] at h
    simp at h
    rcases h with ⟨hc, hok⟩ | h
    · exact ⟨[], t', by rw [hc]; rfl, hok⟩
    · obtain ⟨r, t, heq, hok⟩ := ih h
      exact ⟨c :: r, t, by rw [heq]; rfl, hok⟩

theorem mloAt_decomp {l : List Char} (h : mloAt l = true) :
    ∃ q rest, l = q ++ '{' :: rest ∧ (∀ c ∈ q, jsWS c = true) ∧
      closeBraceSearch rest = true := by
  rw [mloAt] at h
  cases hd : l.dropWhile jsWS with
  | nil => rw [hd] at h; simp at h
  | cons c t =>
    rw [hd] at h
    simp at h
    obtain ⟨hc, hcb⟩ := h
    subst hc
    refine ⟨l.takeWhile jsWS, t, ?_, fun d hd' => List.mem_takeWhile_imp hd', hcb⟩
    rw [← hd]
    exact (List.takeWhile_append_dropWhile jsWS l).symm

theorem mloGo_decomp {l : List Char} :
    ∀ {atLS : Bool}, mloGo atLS l = true →
    (atLS = true ∧ mloAt l = true) ∨
    ∃ pre c suf, l = pre ++ c :: suf ∧ isLineTerm c = true ∧ mloAt suf = true := by
  induction l with
  | nil =>
    intro atLS h
    rw [mloGo] at h
    simp at h
    exact Or.inl h
  | cons c t ih =>
    intro atLS h
    rw [mloGo] at h
    simp at h
    rcases h with ⟨ha, hat⟩ | h
    · exact Or.inl ⟨ha, hat⟩
    · rcases ih h with ⟨ha, hat⟩ | ⟨pre, c', suf, heq, hlt, hat⟩
      · exact Or.inr ⟨[], c, t, rfl, ha, hat⟩
      · exact Or.inr ⟨c :: pre, c', suf, by rw [heq]; rfl, hlt, hat⟩

theorem multilineObjTest_imp_decl {l : List Char} (h : multilineObjTest l = true) :
    MLODecl l := by
  rcases mloGo_decomp h with ⟨_, hat⟩ | ⟨pre, c, suf, heq, hlt, hat⟩
  · obtain ⟨q, rest, heq, hq, hcb⟩ := mloAt_decomp hat
    obtain ⟨r, t, heq2, hok⟩ := closeBraceSearch_decomp hcb
    obtain ⟨t1, t2, heq3, ht1, ht2⟩ := mlineTailOK_decomp hok
    refine ⟨[], q, r, t1, t2, ?_, Or.inl rfl, hq, ht1, ht2⟩
    rw [heq, heq2, heq3]
    simp
  · obtain ⟨q, rest, heqs, hq, hcb⟩ := mloAt_decomp hat
    obtain ⟨r, t, heq2, hok⟩ := closeBraceSearch_decomp hcb
    obtain ⟨t1, t2, heq3, ht1, ht2⟩ := mlineTailOK_decomp hok
    refine ⟨pre ++ [c], q, r, t1, t2, ?_, Or.inr ⟨c, List.getLast?_concat _, hlt⟩,
      hq, ht1, ht2⟩
    rw [heq, heqs, heq2, heq3]
    simp

theorem mlineTailOK_build {t1 t2 : List Char} (h1 : ∀ c ∈ t1, jsWS c = true)
    (h2 : t2 = [] ∨ ∃ c, t2.head? = some c ∧ isLineTerm c = true) :
    mlineTailOK (t1 ++ t2) = true := by
  induction t1 with
  | nil =>
    rcases h2 with h | ⟨c, hc, hlt⟩
    · simp [h, mlineTailOK]
    · cases t2 with
      | nil => simp at hc
      | cons d t' =>
        simp at hc
        subst hc
        simp [mlineTailOK, hlt]
  | cons c t' ih =>
    rw [List.cons_append, mlineTailOK]
    simp
    right
    exact ⟨h1 c (by simp), ih (fun d hd => h1 d (List.mem_cons_of_mem _ hd))⟩

theorem closeBraceSearch_build {r t : List Char} (h : mlineTailOK t = true) :
    closeBraceSearch (r ++ '}' :: t) = true := by
  induction r with
  | nil => simp [closeBraceSearch, h]
  | cons c r' ih =>
    rw [List.cons_append, closeBraceSearch]
    simp [ih]

theorem dropWhile_append_all {p : Char → Bool} {q x : List Char}
    (h : ∀ c ∈ q, p c = true) : (q ++ x).dropWhile p = x.dropWhile p := by
  induction q with
  | nil => rfl
  | cons c q' ih =>
    rw [List.cons_append, List.dropWhile_cons, if_pos (h c (by simp))]
    exact ih (fun d hd => h d (List.mem_cons_of_mem _ hd))

theorem mloAt_build {q rest : List Char} (hq : ∀ c ∈ q, jsWS c = true)
    (hcb : closeBraceSearch rest = true) : mloAt (q ++ '{' :: rest) = true := by
  rw [mloAt, dropWhile_append_all hq, List.dropWhile_cons, if_neg (by decide)]
  exact hcb

theorem mloGo_build_here {l : List Char} (h : mloAt l = true) :
    mloGo true l = true := by
  cases l with
  | nil =>
    rw [mloAt] at h
    simp at h
  | cons c t =>
    rw [mloGo]
    simp [h]

theorem mloGo_build_after {c : Char} {suf : List Char}
    (hlt : isLineTerm c = true) (hat : mloAt suf = true) :
    ∀ (p : List Char) (atLS : Bool), p.getLast? = some c →
      mloGo atLS (p ++ suf) = true := by
  intro p
  induction p with
  | nil => intro atLS hl; simp at hl
  | cons d p' ih =>
    intro atLS hl
    rw [List.cons_append, mloGo]
    cases hp' : p' with
    | nil =>
      subst hp'
      simp at hl
      subst hl
      have hh := mloGo_build_here hat
      simp [hlt, hh]
    | cons e es =>
      have hl' : p'.getLast? = some c := by
        rw [hp'] at hl ⊢
        rwa [getLast?_cons_ne (by simp)] at hl
      have hrec := ih (isLineTerm d) hl'
      rw [hp'] at hrec
      simp at hrec
      simp [hrec]

theorem decl_imp_multilineObjTest {l : List Char} (h : MLODecl l) :
    multilineObjTest l = true := by
  obtain ⟨p, q, r, t1, t2, heq, hp, hq, ht1, ht2⟩ := h
  have hat : mloAt (q ++ '{' :: (r ++ '}' :: (t1 ++ t2))) = true :=
    mloAt_build hq (closeBraceSearch_build (mlineTailOK_build ht1 ht2))
  rcases hp with hp | ⟨c, hc, hlt⟩
  · subst hp
    rw [heq, multilineObjTest]
    simp only [List.nil_append]
    exact mloGo_build_here hat
  · rw [heq, multilineObjTest, List.append_assoc]
    exact mloGo_build_after hlt hat p true hc

/-- Claim C3 (amended): the selector returns the structured (JSON) strategy
iff the text contains a json fence or matches the structured-object pattern
anchored at line starts and line ends (multiline anchors, not the whole
text's start and end); otherwise the mixed strategy iff the text contains a
markdown header marker or any fence; otherwise the plain-text strategy —
always exactly one, deterministically. -/
theorem c3_autodetect_characterization (l : List Char) :
    (autoDetectParser l = ParserKind.json ↔
      (containsSub ("```json".data) l = true ∨ MLODecl l)) ∧
    (autoDetectParser l = ParserKind.mixed ↔
      (¬(containsSub ("```json".data) l = true ∨ MLODecl l) ∧
        (containsSub ("##".data) l = true ∨ containsSub ("```".data) l = true))) ∧
    (autoDetectParser l = ParserKind.text ↔
      (¬(containsSub ("```json".data) l = true ∨ MLODecl l) ∧
        ¬(containsSub ("##".data) l = true ∨ containsSub ("```".data) l = true))) := by
  have hbridge : multilineObjTest l = true ↔ MLODecl l :=
    ⟨multilineObjTest_imp_decl, decl_imp_multilineObjTest⟩
  by_cases h1 : (containsSub ("```json".data) l || multilineObjTest l) = true
  · rw [autoDetectParser, if_pos h1]
    have hJ : containsSub ("```json".data) l = true ∨ MLODecl l := by
      simp at h1
      rcases h1 with h | h
      · exact Or.inl h
      · exact Or.inr (hbridge.mp h)
    exact ⟨⟨fun _ => hJ, fun _ => rfl⟩,
      ⟨fun hcon => absurd hcon (by decide), fun hh => absurd hJ hh.1⟩,
      ⟨fun hcon => absurd hcon (by decide), fun hh => absurd hJ hh.1⟩⟩
  · rw [autoDetectParser, if_neg h1]
    have hnJ : ¬(containsSub ("```json".data) l = true ∨ MLODecl l) := by
      intro hc
      apply h1
      rcases hc with h | h
      · simp [h]
      · simp [hbridge.mpr h]
    by_cases h2 : (containsSub ("##".data) l || containsSub ("```".data) l) = true
    · rw [if_pos h2]
      have hM : containsSub ("##".data) l = true ∨ containsSub ("```".data) l = true := by
        simpa using h2
      exact ⟨⟨fun hcon => absurd hcon (by decide), fun hJ => absurd hJ hnJ⟩,
        ⟨fun _ => ⟨hnJ, hM⟩, fun _ => rfl⟩,
        ⟨fun hcon => absurd hcon (by decide), fun hh => absurd hM hh.2⟩⟩
    · rw [if_neg h2]
      have hnM : ¬(containsSub ("##".data) l = true ∨ containsSub ("```".data) l = true) := by
        intro hc
        apply h2
        rcases hc with h | h <;> simp [h]
      exact ⟨⟨fun hcon => absurd hcon (by decide), fun hJ => absurd hJ hnJ⟩,
        ⟨fun hcon => absurd hcon (by decide), fun hh => absurd hh.2 hnM⟩,
        ⟨fun _ => ⟨hnJ, hnM⟩, fun _ => rfl⟩⟩

theorem toNat_ofNat_valid (n : Nat) (h : n.isValidChar) :
    (Char.ofNat n).toNat = n := by
  rw [Char.ofNat, dif_pos h]
  rfl

theorem jsWS_toLower {c : Char} (h : jsWS c = false) :
    jsWS (Char.toLower c) = false := by
  rw [Char.toLower]
  by_cases hr : c.toNat ≥ 65 ∧ c.toNat ≤ 90
  · rw [if_pos hr]
    have hv : (Char.ofNat (c.toNat + 32)).toNat = c.toNat + 32 :=
      toNat_ofNat_valid _ (Or.inl (by omega))
    rw [jsWS] at h ⊢
    simp only [hv]
    simp
    omega
  · rw [if_neg hr]
    exact h

theorem dropWhile_idem (p : Char → Bool) (l : List Char) :
    (l.dropWhile p).dropWhile p = l.dropWhile p := by
  apply dropWhile_id_of_head
  intro c hc
  exact head?_dropWhile hc

theorem jsTrim_dropWhile (l : List Char) :
    jsTrim (l.dropWhile jsWS) = jsTrim l := by
  rw [jsTrim, jsTrim, dropWhile_idem]

theorem containsSub_append_right {pat x y : List Char}
    (h : containsSub pat (x ++ y) = false) : containsSub pat y = false := by
  induction x with
  | nil => simpa using h
  | cons c t ih =>
    rw [List.cons_append, containsSub] at h
    simp at h
    exact ih h.2

theorem containsSub_dropWhile {pat l : List Char} {p : Char → Bool}
    (h : containsSub pat l = false) : containsSub pat (l.dropWhile p) = false := by
  obtain ⟨t, ht⟩ := dropWhile_suffix_decomp p l
  rw [ht] at h
  exact containsSub_append_right h

theorem contentSplit_no_lookahead {x : List Char}
    (h : containsSub ("##".data) x = false) : contentSplit x = (x, []) := by
  induction x with
  | nil => rfl
  | cons c t ih =>
    rw [containsSub] at h
    simp at h
    rw [contentSplit, if_neg (by
      rw [sectionLookaheadAt]
      simp [h.1])]
    rw [ih h.2]

theorem extractSectionsGo_nil (f : Nat) : extractSectionsGo f [] = [] := by
  cases f with
  | zero => rfl
  | succ f' => rw [extractSectionsGo, findSection]

/-- Claim C4 (amended): for a second-level header section written as two hash
marks, a space, a header title beginning with a non-whitespace character, a
newline and a body (with no further header marker anywhere after the title's
first character), the section extractor produces exactly one entry whose key
is the lowercased FIRST CHARACTER of the header title only — the remainder of
the title is absorbed into the content — and whose content is the trimmed
remainder. The code's intended normalization maps whitespace runs to
underscores (not hyphens), but it never engages because the lazy header
capture of the section regex matches a single character. -/
theorem c4_section_key_first_char (c : Char) (rest body : List Char)
    (hc : jsWS c = false)
    (hnh : containsSub ("##".data) (rest ++ '\n' :: body) = false) :
    extractSections ('#' :: '#' :: ' ' :: c :: (rest ++ '\n' :: body)) =
      [([Char.toLower c], jsTrim (rest ++ '\n' :: body))] := by
  have hws : jsWS ' ' = true := by decide
  have ht : (' ' :: c :: (rest ++ '\n' :: body)).takeWhile jsWS = [' '] := by
    rw [List.takeWhile_cons, if_pos hws, List.takeWhile_cons, if_neg (by simp [hc])]
  have hd : (' ' :: c :: (rest ++ '\n' :: body)).dropWhile jsWS =
      c :: (rest ++ '\n' :: body) := by
    rw [List.dropWhile_cons, if_pos hws, List.dropWhile_cons, if_neg (by simp [hc])]
  have hcs : completeSection (' ' :: c :: (rest ++ '\n' :: body)) =
      some (c, (rest ++ '\n' :: body).dropWhile jsWS, []) := by
    rw [completeSection, ht, hd, if_neg (by simp)]
    show some (c, (contentSplit ((rest ++ '\n' :: body).dropWhile jsWS)).1,
      (contentSplit ((rest ++ '\n' :: body).dropWhile jsWS)).2) = _
    rw [contentSplit_no_lookahead (containsSub_dropWhile hnh)]
  have hfind : findSection ('#' :: '#' :: ' ' :: c :: (rest ++ '\n' :: body)) =
      some (c, (rest ++ '\n' :: body).dropWhile jsWS, []) := by
    rw [findSection]
    rw [if_pos (by simp [startsWithL])]
    show (match completeSection (' ' :: c :: (rest ++ '\n' :: body)) with
      | some r => some r
      | none => findSection ('#' :: ' ' :: c :: (rest ++ '\n' :: body))) = _
    rw [hcs]
  have hkey : normalizeSectionName [c] = [Char.toLower c] := by
    rw [normalizeSectionName]
    simp only [List.map_cons, List.map_nil]
    rw [wsRunsToUnderscore, wsRunsToUnderscoreGo, if_neg (by simp [jsWS_toLower hc])]
    rfl
  rw [extractSections, extractSectionsGo, hfind]
  simp [hkey, jsTrim_dropWhile, extractSectionsGo_nil]

/-- Witness for C4 at the concrete header "Server Code" with body "hello". -/
theorem c4_witness :
    extractSections ('#' :: '#' :: ' ' :: 'S' :: (("erver Code".data) ++ '\n' :: ("hello".data))) =
      [([Char.toLower 'S'], jsTrim (("erver Code".data) ++ '\n' :: ("hello".data)))] :=
  c4_section_key_first_char 'S' ("erver Code".data) ("hello".data) (by decide) (by decide)

/-- Counterexample for C4 as stated: on the input with header "Server Code"
the extractor keys the section as "s" (the lowercased first character of the
header), not "server-code" as the claim's hyphen normalization would give,
and not "server_code" as the code's literal underscore replacement would
give either. -/
theorem c4_counterexample :
    (extractSections ("## Server Code\nhello".data)).map (fun kv => kv.1) =
      ["s".data] ∧
    sectionsGet (extractSections ("## Server Code\nhello".data)) ("server-code".data) = none ∧
    sectionsGet (extractSections ("## Server Code\nhello".data)) ("server_code".data) = none ∧
    sectionsGet (extractSections ("## Server Code\nhello".data)) ("s".data) =
      some ("erver Code\nhello".data) := by
  refine ⟨by decide, by decide, by decide, by decide⟩

theorem dropWhile_all {p : Char → Bool} {l : List Char}
    (h : ∀ c ∈ l, p c = true) : l.dropWhile p = [] := by
  induction l with
  | nil => rfl
  | cons c t ih =>
    rw [List.dropWhile_cons, if_pos (h c (by simp))]
    exact ih (fun d hd => h d (List.mem_cons_of_mem _ hd))

theorem allWS_trim {l : List Char} (h : ∀ c ∈ l, jsWS c = true) :
    jsTrim l = [] := by
  rw [jsTrim, dropWhile_all h]
  rfl

theorem dropWhile_eq_nil_imp {p : Char → Bool} {l : List Char}
    (h : l.dropWhile p = []) : ∀ c ∈ l, p c = true := by
  induction l with
  | nil => simp
  | cons c t ih =>
    rw [List.dropWhile_cons] at h
    by_cases hp : p c = true
    · rw [if_pos hp] at h
      intro d hd
      rcases List.mem_cons.mp hd with h' | h'
      · exact h' ▸ hp
      · exact ih h d h'
    · rw [if_neg hp] at h
      simp at h

theorem trim_nonempty_of_mem {l : List Char} {a : Char} (ha : a ∈ l)
    (hws : jsWS a = false) : (jsTrim l).isEmpty = false := by
  cases he : (jsTrim l).isEmpty
  · rfl
  · exfalso
    have htr : jsTrim l = [] := by
      cases hl : jsTrim l
      · rfl
      · rw [hl] at he; simp at he
    rw [jsTrim] at htr
    have h1 : (l.dropWhile jsWS).reverse.dropWhile jsWS = [] := by
      cases hx : (l.dropWhile jsWS).reverse.dropWhile jsWS
      · rfl
      · rw [hx] at htr; simp at htr
    have h2 : ∀ c ∈ (l.dropWhile jsWS).reverse, jsWS c = true :=
      dropWhile_eq_nil_imp h1
    have h3 : ∀ c ∈ l.dropWhile jsWS, jsWS c = true := by
      intro c hc
      exact h2 c (List.mem_reverse.mpr hc)
    have h4 : ∀ c ∈ l, jsWS c = true := by
      intro c hc
      rw [← List.takeWhile_append_dropWhile jsWS l] at hc
      rcases List.mem_append.mp hc with h' | h'
      · exact List.mem_takeWhile_imp h'
      · exact h3 c h'
    rw [h4 a ha] at hws
    cases hws

theorem ne_char_of_ws {c d : Char} (hc : jsWS c = true) (hd : jsWS d = false) :
    decide (d = c) = false := by
  simp
  intro h
  rw [h, hc] at hd
  cases hd

theorem ws_not_backtick {c : Char} (h : jsWS c = true) : isBacktick c = false := by
  rw [isBacktick]
  rw [jsWS] at h
  simp at h ⊢
  omega

theorem startsWith_fence3_false {d : Char} (hd : isBacktick d = false) (Y : List Char) :
    startsWithL ("```".data) (d :: Y) = false := by
  have hne : decide (Char.ofNat 96 = d) = false := by
    cases hdec : decide (Char.ofNat 96 = d)
    · rfl
    · exfalso
      have heq := of_decide_eq_true hdec
      rw [← heq] at hd
      exact absurd hd (by decide)
  show (decide (Char.ofNat 96 = d) && startsWithL ("``".data) Y) = false
  rw [hne]
  rfl

theorem extractJson_ws {l : List Char} (h : ∀ c ∈ l, jsWS c = true) :
    extractJson l = none := by
  rw [extractJson, if_pos]
  rw [allWS_trim h]
  rfl

theorem findSection_ws {l : List Char} (h : ∀ c ∈ l, jsWS c = true) :
    findSection l = none := by
  induction l with
  | nil => rfl
  | cons c t ih =>
    rw [findSection, if_neg]
    · exact ih (fun d hd => h d (List.mem_cons_of_mem _ hd))
    · show ¬(startsWithL ("##".data) (c :: t) = true)
      show ¬((('#' = c) && startsWithL ("#".data) t) = true)
      rw [ne_char_of_ws (h c (by simp)) (by decide)]
      simp

theorem extractSections_ws {l : List Char} (h : ∀ c ∈ l, jsWS c = true) :
    extractSections l = [] := by
  rw [extractSections, extractSectionsGo, findSection_ws h]

theorem codeBlocksGo_ws {l : List Char} (h : ∀ c ∈ l, jsWS c = true) :
    ∀ f, codeBlocksGo f l = [] := by
  induction l with
  | nil => intro f; cases f <;> rfl
  | cons c t ih =>
    intro f
    cases f with
    | zero => rfl
    | succ f' =>
      rw [codeBlocksGo, if_neg]
      · exact ih (fun d hd => h d (List.mem_cons_of_mem _ hd)) f'
      · simp [startsWith_fence3_false (ws_not_backtick (h c (by simp)))]

theorem mdServerCodeGo_ws {l : List Char} (h : ∀ c ∈ l, jsWS c = true) :
    mdServerCodeGo l = none := by
  induction l with
  | nil => rfl
  | cons c t ih =>
    rw [mdServerCodeGo]
    have hs : startsWithL ("##".data) (c :: t) = false := by
      show (('#' = c) && startsWithL ("#".data) t) = false
      rw [ne_char_of_ws (h c (by simp)) (by decide)]
      rfl
    rw [hs]
    simp only [Bool.false_eq_true, if_false]
    exact ih (fun d hd => h d (List.mem_cons_of_mem _ hd))

theorem codeLikeAt_ws {c : Char} {t : List Char} (hc : jsWS c = true) :
    codeLikeAt (c :: t) = none := by
  rw [codeLikeAt]
  have h1 : startsWithL ("import".data) (c :: t) = false := by
    show (('i' = c) && startsWithL ("mport".data) t) = false
    rw [ne_char_of_ws hc (by decide)]; rfl
  have h2 : startsWithL ("const".data) (c :: t) = false := by
    show (('c' = c) && startsWithL ("onst".data) t) = false
    rw [ne_char_of_ws hc (by decide)]; rfl
  have h3 : startsWithL ("function".data) (c :: t) = false := by
    show (('f' = c) && startsWithL ("unction".data) t) = false
    rw [ne_char_of_ws hc (by decide)]; rfl
  have h4 : startsWithL ("class".data) (c :: t) = false := by
    show (('c' = c) && startsWithL ("lass".data) t) = false
    rw [ne_char_of_ws hc (by decide)]; rfl
  have h5 : startsWithL ("def".data) (c :: t) = false := by
    show (('d' = c) && startsWithL ("ef".data) t) = false
    rw [ne_char_of_ws hc (by decide)]; rfl
  have h6 : startsWithL ("export".data) (c :: t) = false := by
    show (('e' = c) && startsWithL ("xport".data) t) = false
    rw [ne_char_of_ws hc (by decide)]; rfl
  rw [codeKeywords]
  simp [List.find?, h1, h2, h3, h4, h5, h6]

theorem codeLikeGo_ws {l : List Char} (h : ∀ c ∈ l, jsWS c = true) :
    codeLikeGo l = none := by
  induction l with
  | nil => rfl
  | cons c t ih =>
    rw [codeLikeGo, codeLikeAt_ws (h c (by simp))]
    exact ih (fun d hd => h d (List.mem_cons_of_mem _ hd))

/-- Claim C1 (amended): on empty or whitespace-only input, only the JSON
strategy reports a ParseFailure ("No valid JSON found in response"); the
plain-text, markdown and mixed strategies never throw on any input and, on
such input, return a record whose server code is respectively the empty
trimmed input, the empty string, and the raw input, with boilerplate or
empty auxiliary fields. The plain-text strategy has no failure path at all,
so it does not fail "exactly on empty/whitespace-only input". -/
theorem c1_empty_input_behaviour (s : List Char) (h : ∀ c ∈ s, jsWS c = true) :
    jsonParserParse s = Except.error ParseErr.noValidJson ∧
    (textParserParse s).serverCode = [] ∧
    (textParserParse s).readme = some (JsonValue.jstr basicReadme) ∧
    (markdownParserParse s).serverCode = [] ∧
    (mixedParserParse s).serverCode = s ∧
    (mixedParserParse s).readme = some (JsonValue.jstr basicReadme) := by
  have hjson : extractJson s = none := extractJson_ws h
  have hsecs : extractSections s = [] := extractSections_ws h
  have hblocks : extractCodeBlocks s = [] := by
    rw [extractCodeBlocks]; exact codeBlocksGo_ws h _
  refine ⟨?_, ?_, rfl, ?_, ?_, ?_⟩
  · rw [jsonParserParse, hjson]
  · show jsTrim s = []
    exact allWS_trim h
  · show mdServerCode s = []
    rw [mdServerCode, mdServerCodeGo_ws h, hsecs, hblocks]
    rfl
  · show mixedServerCode2 s = s
    have hbase : (mixedBase s).serverCode = [] := by
      rw [mixedBase, hjson]
    have h1 : mixedServerCode1 s = [] := by
      rw [mixedServerCode1, hblocks]
      simp [hbase, codeBlocksGet, optTruthyStr]
    rw [mixedServerCode2, h1]
    simp [codeLikeGo_ws h]
  · show mixedField s ((mixedBase s).readme) _ _ _ basicReadme =
      some (JsonValue.jstr basicReadme)
    have hbase : (mixedBase s).readme = some (JsonValue.jstr []) := by
      rw [mixedBase, hjson]
    rw [mixedField, hbase, hsecs]
    rfl

/-- Witness for C1 at the concrete whitespace-only input " ". -/
theorem c1_witness :
    jsonParserParse (" ".data) = Except.error ParseErr.noValidJson ∧
    (textParserParse (" ".data)).serverCode = [] ∧
    (textParserParse (" ".data)).readme = some (JsonValue.jstr basicReadme) ∧
    (markdownParserParse (" ".data)).serverCode = [] ∧
    (mixedParserParse (" ".data)).serverCode = (" ".data) ∧
    (mixedParserParse (" ".data)).readme = some (JsonValue.jstr basicReadme) :=
  c1_empty_input_behaviour (" ".data) (by decide)

/-- Counterexample for C1 as stated: the claim demands that every strategy
throw a ParseFailure on whitespace-only input; the plain-text strategy
instead returns a full ParsedRecord on " " (and has no failure path on any
input), and the markdown and mixed strategies also return records. -/
theorem c1_counterexample :
    textParserParse (" ".data) =
      { serverCode := []
        readme := some (JsonValue.jstr basicReadme)
        installInstructions := some (JsonValue.jstr basicInstallInstructions)
        usageExample := some (JsonValue.jstr basicUsageExample) } ∧
    (markdownParserParse (" ".data)).serverCode = [] ∧
    (mixedParserParse (" ".data)).serverCode = (" ".data) := by
  refine ⟨rfl, by decide, by decide⟩

theorem findFencedJson_none {l : List Char}
    (h : containsSub ("```json".data) l = false) : findFencedJson l = none := by
  induction l with
  | nil => rfl
  | cons c t ih =>
    rw [containsSub] at h
    simp at h
    rw [findFencedJson, if_neg (by simp [h.1])]
    exact ih h.2

theorem scanJson_append (st : ScanSt) (x y : List Char) :
    scanJson st (x ++ y) = scanJson (scanJson st x) y := by
  rw [scanJson, scanJson, scanJson, List.foldl_append]

theorem scanStep_init {c : Char} (h : c ≠ '{') : scanStep initScan c = initScan := by
  rw [scanStep, if_neg h]
  by_cases hc : c = '}'
  · rw [if_pos hc]
    rfl
  · rw [if_neg hc]
    rfl

theorem scanJson_pre {pre : List Char} (h : ∀ c ∈ pre, c ≠ '{') :
    scanJson initScan pre = initScan := by
  induction pre with
  | nil => rfl
  | cons c t ih =>
    rw [scanJson, List.foldl_cons, scanStep_init (h c (by simp))]
    exact ih (fun d hd => h d (List.mem_cons_of_mem _ hd))

theorem scanStep_found {st : ScanSt} {c : Char} (h : c ≠ '}') :
    (scanStep st c).found = st.found := by
  rw [scanStep]
  by_cases hc : c = '{'
  · rw [if_pos hc]
  · rw [if_neg hc, if_neg h]

theorem scanJson_post_found {post : List Char} (h : ∀ c ∈ post, c ≠ '}') :
    ∀ st : ScanSt, (scanJson st post).found = st.found := by
  induction post with
  | nil => intro st; rfl
  | cons c t ih =>
    intro st
    rw [scanJson, List.foldl_cons]
    rw [show List.foldl scanStep (scanStep st c) t = scanJson (scanStep st c) t from rfl]
    rw [ih (fun d hd => h d (List.mem_cons_of_mem _ hd)) (scanStep st c)]
    exact scanStep_found (h c (by simp))

/-- Claim C5 (amended): for a text consisting of a single clean brace-balanced
schema-valid JSON object, preceded by arbitrary noise containing no opening
brace (stray closing braces reset the depth counter) and followed by
arbitrary noise containing no closing brace (stray opening braces open a
candidate that is never completed), and with no json fence anywhere, the
brace-balanced scan recovers exactly that object: it is the single candidate,
it parses, passes the schema-validity check, and the structured strategy
returns its record. A stray opening brace before the object instead merges
the object into one larger unparseable candidate and extraction fails (see
the counterexample). -/
theorem c5_brace_scan_recovery (pre obj post : List Char) (v : JsonValue)
    (hpre : ∀ c ∈ pre, c ≠ '{')
    (hpost : ∀ c ∈ post, c ≠ '}')
    (hobj : scanJson initScan obj = { braceCount := 0, cur := none, found := [obj] })
    (hparse : jsonParse obj = some v)
    (hval : validateJsonStructure v = true)
    (hfence : containsSub ("```json".data) (pre ++ obj ++ post) = false)
    (htrim : (jsTrim (pre ++ obj ++ post)).isEmpty = false) :
    extractJson (pre ++ obj ++ post) = some v ∧
    jsonParserParse (pre ++ obj ++ post) = Except.ok (mkJsonRecord v) := by
  have hcands : findJsonObjects (pre ++ obj ++ post) = [obj] := by
    rw [findJsonObjects, scanJson_append, scanJson_append, scanJson_pre hpre, hobj,
      scanJson_post_found hpost]
  have hmain : extractJson (pre ++ obj ++ post) = some v := by
    rw [extractJson, if_neg (by rw [htrim]; simp)]
    rw [findFencedJson_none hfence, hcands]
    simp [firstValidCandidate, hparse, hval]
  exact ⟨hmain, by rw [jsonParserParse, hmain]⟩

/-- Witness for C5: stray closing braces before and stray opening braces
after a serverCode object. -/
theorem c5_witness :
    extractJson (("\x7d\x7d ".data) ++ ("\x7b\"serverCode\":\"x\"\x7d".data) ++
        (" \x7b\x7b".data)) =
      some (JsonValue.jobj [(("serverCode".data), JsonValue.jstr ("x".data))]) :=
  (c5_brace_scan_recovery ("\x7d\x7d ".data) ("\x7b\"serverCode\":\"x\"\x7d".data)
    (" \x7b\x7b".data) (JsonValue.jobj [(("serverCode".data), JsonValue.jstr ("x".data))])
    (by decide) (by decide) (by rfl) (by rfl) (by rfl) (by decide) (by decide)).1

/-- Counterexample for C5 as stated: one stray opening brace before the valid
schema-valid object and stray closing braces after it (unbalanced stray
braces before and after, as the claim allows) make the scan emit a single
merged candidate that does not parse, so extraction recovers nothing and the
structured strategy throws instead of returning the object. -/
theorem c5_counterexample :
    (match jsonParse ("\x7b\"serverCode\":\"x\"\x7d".data) with
     | some v => validateJsonStructure v
     | none => false) = true ∧
    findJsonObjects (("\x7b ".data) ++ ("\x7b\"serverCode\":\"x\"\x7d".data) ++
        (" \x7d\x7d".data)) =
      [("\x7b \x7b\"serverCode\":\"x\"\x7d \x7d".data)] ∧
    extractJson (("\x7b ".data) ++ ("\x7b\"serverCode\":\"x\"\x7d".data) ++
        (" \x7d\x7d".data)) = none ∧
    jsonParserParse (("\x7b ".data) ++ ("\x7b\"serverCode\":\"x\"\x7d".data) ++
        (" \x7d\x7d".data)) = Except.error ParseErr.noValidJson := by
  refine ⟨by rfl, by rfl, by rfl, by rfl⟩

theorem dropWhile_append_ne_nil {p : Char → Bool} {l y : List Char}
    (h : l.dropWhile p ≠ []) : (l ++ y).dropWhile p = l.dropWhile p ++ y := by
  induction l with
  | nil => exact absurd rfl h
  | cons c t ih =>
    rw [List.cons_append, List.dropWhile_cons, List.dropWhile_cons]
    by_cases hp : p c = true
    · rw [if_pos hp, if_pos hp]
      rw [List.dropWhile_cons, if_pos hp] at h
      exact ih h
    · rw [if_neg hp, if_neg hp]
      rfl

theorem dropWhile_ne_nil_of_mem {p : Char → Bool} {l : List Char} {a : Char}
    (ha : a ∈ l) (hp : p a = false) : l.dropWhile p ≠ [] := by
  intro hnil
  have := dropWhile_eq_nil_imp hnil a ha
  rw [hp] at this
  cases this

theorem fenceBodyGo_clean :
    ∀ (s acc : List Char), (∀ c ∈ s, isBacktick c = false) → s.getLast? = some '}' →
    fenceBodyGo acc (s ++ '\n' :: ("```".data)) =
      some (acc.reverse ++ s, []) := by
  intro s
  induction s with
  | nil => intro acc _ hl; simp at hl
  | cons c s' ih =>
    intro acc hnb hl
    have hmem : '}' ∈ c :: s' := List.mem_of_mem_getLast? hl
    have hne : (c :: s').dropWhile jsWS ≠ [] :=
      dropWhile_ne_nil_of_mem hmem (by decide)
    have hsplit : ((c :: s') ++ '\n' :: ("```".data)).dropWhile jsWS =
        (c :: s').dropWhile jsWS ++ '\n' :: ("```".data) :=
      dropWhile_append_ne_nil hne
    have hclose : fenceCloseHere ((c :: s') ++ '\n' :: ("```".data)) = false := by
      rw [fenceCloseHere, hsplit]
      cases hx : (c :: s').dropWhile jsWS with
      | nil => exact absurd hx hne
      | cons d r =>
        have hd : d ∈ c :: s' := mem_dropWhile (by rw [hx]; simp)
        rw [List.cons_append]
        exact startsWith_fence3_false (hnb d hd) _
    rw [List.cons_append, fenceBodyGo, if_neg (by rw [List.cons_append] at hclose; simp [hclose])]
    cases hs' : s' with
    | nil =>
      subst hs'
      simp at hl
      subst hl
      simp only [List.nil_append]
      rw [fenceBodyGo, if_pos (by decide)]
      rw [List.reverse_cons]
      rfl
    | cons e es =>
      rw [← hs']
      have hl' : s'.getLast? = some '}' := by
        rw [hs'] at hl ⊢
        rwa [getLast?_cons_ne (by simp)] at hl
      rw [ih (c :: acc) (fun d hd => hnb d (List.mem_cons_of_mem _ hd)) hl']
      rw [List.reverse_cons, List.append_assoc]
      rfl

theorem jsTrim_of_ends {l : List Char} {a b : Char}
    (hh : l.head? = some a) (hwa : jsWS a = false)
    (hl : l.getLast? = some b) (hwb : jsWS b = false) : jsTrim l = l := by
  rw [jsTrim]
  have hinner : l.dropWhile jsWS = l := by
    apply dropWhile_id_of_head
    intro c hc
    rw [hh] at hc
    simp at hc
    rw [← hc]
    exact hwa
  rw [hinner]
  have houter : l.reverse.dropWhile jsWS = l.reverse := by
    apply dropWhile_id_of_head
    intro c hc
    rw [List.head?_reverse, hl] at hc
    simp at hc
    rw [← hc]
    exact hwb
  rw [houter]
  exact List.reverse_reverse l

theorem clipBraces_id {s : List Char} (hh : s.head? = some '{')
    (hl : s.getLast? = some '}') : clipBraces s = s := by
  cases s with
  | nil => simp at hh
  | cons a s' =>
    simp at hh
    subst hh
    have hidx : idxOfChar ('{' :: s') '{' = some 0 := by
      rw [idxOfChar, List.findIdx?_cons]
      simp
    have hs'ne : s' ≠ [] := by
      intro hnil
      subst hnil
      simp at hl
    have hr' : ('{' :: s').reverse.head? = some '}' := by
      rw [List.head?_reverse]
      exact hl
    have hrev : ∃ r, ('{' :: s').reverse = '}' :: r := by
      cases hx : ('{' :: s').reverse with
      | nil => simp at hx
      | cons y r =>
        rw [hx] at hr'
        simp at hr'
        exact ⟨r, by rw [hr']⟩
    obtain ⟨r, hr⟩ := hrev
    have hlast : lastIdxOfChar ('{' :: s') '}' = some (('{' :: s').length - 1) := by
      rw [lastIdxOfChar, hr, List.findIdx?_cons]
      simp
    rw [clipBraces, hidx, hlast]
    have hpos : 0 < ('{' :: s').length - 1 := by
      cases s' with
      | nil => exact absurd rfl hs'ne
      | cons _ _ => simp
    show (if 0 < ('{' :: s').length - 1 then
        List.take (('{' :: s').length - 1 + 1 - 0) (List.drop 0 ('{' :: s'))
      else '{' :: s') = '{' :: s'
    rw [if_pos hpos, List.drop_zero]
    have harith : ('{' :: s').length - 1 + 1 - 0 = ('{' :: s').length := by
      simp
    rw [harith, List.take_length]

theorem findFencedJson_at_head {s : List Char} (hnb : ∀ c ∈ s, isBacktick c = false)
    (hh : s.head? = some '{') (hl : s.getLast? = some '}') :
    findFencedJson (("```json".data) ++ '\n' :: (s ++ '\n' :: ("```".data))) =
      some s := by
  have hdrop : (("```json".data) ++ '\n' :: (s ++ '\n' :: ("```".data))).drop 7 =
      '\n' :: (s ++ '\n' :: ("```".data)) := by
    have h7 : ("```json".data).length = 7 := rfl
    rw [← h7, List.drop_left]
  have hsne : s ≠ [] := by
    intro hnil; subst hnil; simp at hh
  have hheadne : s.dropWhile jsWS = s := by
    apply dropWhile_id_of_head
    intro c hc
    rw [hh] at hc
    simp at hc
    rw [← hc]
    decide
  have hbody : fenceBody ('\n' :: (s ++ '\n' :: ("```".data))) = some (s, []) := by
    rw [fenceBody]
    have : ('\n' :: (s ++ '\n' :: ("```".data))).dropWhile jsWS =
        s ++ '\n' :: ("```".data) := by
      rw [List.dropWhile_cons, if_pos (by decide)]
      rw [dropWhile_append_ne_nil (by rw [hheadne]; exact hsne), hheadne]
    rw [this]
    have := fenceBodyGo_clean s [] hnb hl
    simpa using this
  cases hcase : (("```json".data) ++ '\n' :: (s ++ '\n' :: ("```".data))) with
  | nil => exact absurd hcase (by simp)
  | cons c t =>
    rw [findFencedJson]
    rw [if_pos (by rw [← hcase]; exact startsWithL_append_self _ _)]
    have hdrop2 : (c :: t).drop 7 = '\n' :: (s ++ '\n' :: ("```".data)) := by
      rw [← hcase]; exact hdrop
    rw [hdrop2, hbody]

/-- Claim C7: for every well-formed JSON object (no backtick characters, no
surrounding whitespace, brace-delimited) wrapped in a json fence, when the
object parses and passes the schema-validity check, the structured strategy
returns a ParsedRecord whose fields equal the JSON's fields exactly. -/
theorem c7_fenced_roundtrip (s : List Char) (v : JsonValue)
    (hnb : ∀ c ∈ s, isBacktick c = false)
    (hh : s.head? = some '{')
    (hl : s.getLast? = some '}')
    (hparse : jsonParse s = some v)
    (hval : validateJsonStructure v = true) :
    jsonParserParse (("```json".data) ++ '\n' :: (s ++ '\n' :: ("```".data))) =
      Except.ok (mkJsonRecord v) ∧
    (mkJsonRecord v).serverCode = getStrD v ("serverCode".data) ∧
    (mkJsonRecord v).packageJson = jsGet v ("packageJson".data) ∧
    (mkJsonRecord v).readme = jsGet v ("readme".data) ∧
    (mkJsonRecord v).installInstructions = jsGet v ("installInstructions".data) ∧
    (mkJsonRecord v).usageExample = jsGet v ("usageExample".data) ∧
    (mkJsonRecord v).dependencies = jsGet v ("dependencies".data) ∧
    (mkJsonRecord v).devDependencies = jsGet v ("devDependencies".data) ∧
    (mkJsonRecord v).scripts = jsGet v ("scripts".data) ∧
    (mkJsonRecord v).additionalFiles = jsGet v ("additionalFiles".data) := by
  have htrimS : jsTrim s = s := jsTrim_of_ends hh (by decide) hl (by decide)
  have hfence := findFencedJson_at_head hnb hh hl
  have htryf : tryFencedParse s = some v := by
    rw [tryFencedParse, htrimS, clipBraces_id hh hl, hparse]
    simp [hval]
  have hmem : '{' ∈ (("```json".data) ++ '\n' :: (s ++ '\n' :: ("```".data))) := by
    have : '{' ∈ s := List.mem_of_mem_head? hh
    simp [this]
  have hmain : extractJson (("```json".data) ++ '\n' :: (s ++ '\n' :: ("```".data))) =
      some v := by
    rw [extractJson, if_neg (by rw [trim_nonempty_of_mem hmem (by decide)]; simp)]
    rw [hfence]
    simp [htryf]
  exact ⟨by rw [jsonParserParse, hmain], rfl, rfl, rfl, rfl, rfl, rfl, rfl, rfl, rfl⟩

/-- Witness for C7 at the spec's example input. -/
theorem c7_witness :
    jsonParserParse (("```json".data) ++ '\n' ::
        (("\x7b\"serverCode\":\"x\",\"readme\":\"R\"\x7d".data) ++ '\n' :: ("```".data))) =
      Except.ok (mkJsonRecord (JsonValue.jobj
        [(("serverCode".data), JsonValue.jstr ("x".data)),
         (("readme".data), JsonValue.jstr ("R".data))])) ∧
    (mkJsonRecord (JsonValue.jobj
        [(("serverCode".data), JsonValue.jstr ("x".data)),
         (("readme".data), JsonValue.jstr ("R".data))])).serverCode = ("x".data) ∧
    (mkJsonRecord (JsonValue.jobj
        [(("serverCode".data), JsonValue.jstr ("x".data)),
         (("readme".data), JsonValue.jstr ("R".data))])).readme =
      some (JsonValue.jstr ("R".data)) := by
  refine ⟨(c7_fenced_roundtrip ("\x7b\"serverCode\":\"x\",\"readme\":\"R\"\x7d".data)
    (JsonValue.jobj
      [(("serverCode".data), JsonValue.jstr ("x".data)),
       (("readme".data), JsonValue.jstr ("R".data))])
    (by decide) (by rfl) (by rfl) (by rfl) (by rfl)).1, by rfl, by rfl⟩

/-- Counterexample for C3 as stated: the input has no json fence and does not
match a whole-text-anchored object pattern (so the claim would select the
plain-text strategy: no header marker, no fence), yet the code selects the
structured (JSON) strategy, because its object pattern is anchored at line
boundaries (multiline flag) and the second line is an object. -/
theorem c3_counterexample :
    containsSub ("```json".data) ("prefix\n\x7b\x7d\nsuffix".data) = false ∧
    wholeAnchoredObjTest ("prefix\n\x7b\x7d\nsuffix".data) = false ∧
    containsSub ("##".data) ("prefix\n\x7b\x7d\nsuffix".data) = false ∧
    containsSub ("```".data) ("prefix\n\x7b\x7d\nsuffix".data) = false ∧
    autoDetectParser ("prefix\n\x7b\x7d\nsuffix".data) = ParserKind.json := by
  refine ⟨by decide, by decide, by decide, by decide, by decide⟩

theorem createDirsGo_clean {env : FsEnv} (base : List Char)
    (hm : ∀ p, env.mkdirFails p = false) :
    ∀ (dirs : List (List Char)) (made : List (List Char)),
    createDirsGo env base made dirs =
      (made.reverse ++ dirs.map (joinPath base), none) := by
  intro dirs
  induction dirs with
  | nil => intro made; simp [createDirsGo]
  | cons d rest ih =>
    intro made
    rw [createDirsGo, if_neg (by rw [hm]; simp)]
    rw [ih (joinPath base d :: made)]
    simp

theorem createFileOne_str {env : FsEnv} {base fp s : List Char}
    (hm : env.mkdirFails (dirnameOf (joinPath base fp)) = false)
    (hw : env.writeFails (joinPath base fp) = false) :
    createFileOne env base fp (FileVal.str s) = none := by
  rw [createFileOne, if_neg (by rw [hm]; simp)]
  show (if env.writeFails (joinPath base fp) then some FailReason.fsError
    else none) = none
  rw [if_neg (by rw [hw]; simp)]

theorem createFileOne_nonString {env : FsEnv} {base fp : List Char}
    (hm : env.mkdirFails (dirnameOf (joinPath base fp)) = false) :
    createFileOne env base fp FileVal.nonString =
      some FailReason.nonStringContent := by
  rw [createFileOne, if_neg (by rw [hm]; simp)]

theorem generateProjectTail_vfail {env : FsEnv} {base : List Char}
    {ps : ProjStructure} {msg : List Char}
    (hval : validateProjectStructure ps = some msg) :
    generateProjectTail env base ps =
      (Except.error (GenError.structureValidation msg),
       { dirsMade := [], filesWritten := [] }) := by
  rw [generateProjectTail, hval]

theorem generateProjectTail_dirfail {env : FsEnv} {base : List Char}
    {ps : ProjStructure} {made : List (List Char)} {failedPath : List Char}
    (hval : validateProjectStructure ps = none)
    (hdirs : createDirectories env base ps.directories =
      (made, some failedPath)) :
    generateProjectTail env base ps =
      (Except.error (GenError.directoryCreation failedPath),
       { dirsMade := made, filesWritten := [] }) := by
  rw [generateProjectTail, hval, hdirs]

theorem generateProjectTail_fok {env : FsEnv} {base : List Char}
    {ps : ProjStructure} {made created : List (List Char)}
    (hval : validateProjectStructure ps = none)
    (hdirs : createDirectories env base ps.directories = (made, none))
    (hfiles : createFiles env base ps.files = (created, [])) :
    generateProjectTail env base ps =
      (Except.ok (), { dirsMade := made, filesWritten := created }) := by
  rw [generateProjectTail, hval, hdirs, hfiles]

theorem generateProjectTail_ffail {env : FsEnv} {base : List Char}
    {ps : ProjStructure} {made created : List (List Char)}
    {f : List Char × FailReason} {fs : List (List Char × FailReason)}
    (hval : validateProjectStructure ps = none)
    (hdirs : createDirectories env base ps.directories = (made, none))
    (hfiles : createFiles env base ps.files = (created, f :: fs)) :
    generateProjectTail env base ps =
      (Except.error (GenError.materializationFailure (f :: fs)),
       { dirsMade := made, filesWritten := created }) := by
  rw [generateProjectTail, hval, hdirs, hfiles]

theorem createFilesGo_clean {env : FsEnv} (base : List Char)
    (hm : ∀ p, env.mkdirFails p = false)
    (hw : ∀ p, env.writeFails p = false) :
    ∀ (files : List (List Char × FileVal)) (created : List (List Char))
      (failed : List (List Char × FailReason)),
    (∀ f ∈ files, ∃ s, f.2 = FileVal.str s) →
    createFilesGo env base created failed files =
      (created.reverse ++ files.map Prod.fst, failed.reverse) := by
  intro files
  induction files with
  | nil => intro created failed _; simp [createFilesGo]
  | cons f rest ih =>
    intro created failed hstr
    obtain ⟨s, hs⟩ := hstr f (by simp)
    obtain ⟨fp, content⟩ := f
    simp at hs
    subst hs
    rw [createFilesGo, createFileOne_str (hm _) (hw _)]
    rw [ih (fp :: created) failed
      (fun g hg => hstr g (List.mem_cons_of_mem _ hg))]
    simp

/-- Claim C2 (amended): for a project structure whose file map is
`pre ++ [(k, nonString)] ++ post` with every other content a string, on a
filesystem with no faults of its own, `createFiles` does attempt and write
every other file in declaration order and the aggregate error names exactly
file `k` with the content-type reason; but directory creation is not
collected into that aggregate: `createDirectories` aborts at its first
`mkdirSync` failure before any further directory or any file is attempted
(see the counterexample). -/
theorem c2_nonstring_collection (env : FsEnv) (base : List Char)
    (dirs : List (List Char)) (pre post : List (List Char × FileVal))
    (k : List Char)
    (hm : ∀ p, env.mkdirFails p = false)
    (hw : ∀ p, env.writeFails p = false)
    (hpre : ∀ f ∈ pre, ∃ s, f.2 = FileVal.str s)
    (hpost : ∀ f ∈ post, ∃ s, f.2 = FileVal.str s)
    (hval : validateProjectStructure
      { directories := dirs,
        files := pre ++ (k, FileVal.nonString) :: post } = none) :
    (generateProjectTail env base
        { directories := dirs,
          files := pre ++ (k, FileVal.nonString) :: post }).1 =
      Except.error (GenError.materializationFailure
        [(k, FailReason.nonStringContent)]) ∧
    (generateProjectTail env base
        { directories := dirs,
          files := pre ++ (k, FileVal.nonString) :: post }).2.filesWritten =
      (pre ++ post).map Prod.fst := by
  have hdirs : createDirectories env base dirs =
      (dirs.map (joinPath base), none) := by
    rw [createDirectories, createDirsGo_clean base hm]
    simp
  have hprefix :
      ∀ (created : List (List Char)) (failed : List (List Char × FailReason))
        (l : List (List Char × FileVal)) (rest : List (List Char × FileVal)),
      (∀ f ∈ l, ∃ s, f.2 = FileVal.str s) →
      createFilesGo env base created failed (l ++ rest) =
        createFilesGo env base ((l.map Prod.fst).reverse ++ created) failed
          rest := by
    intro created failed l
    induction l generalizing created with
    | nil => intro rest _; simp
    | cons f t ih =>
      intro rest hstr
      obtain ⟨s, hs⟩ := hstr f (by simp)
      obtain ⟨fp, content⟩ := f
      simp at hs
      subst hs
      rw [List.cons_append, createFilesGo, createFileOne_str (hm _) (hw _)]
      rw [ih (fp :: created) rest
        (fun g hg => hstr g (List.mem_cons_of_mem _ hg))]
      simp
  have hfiles : createFiles env base (pre ++ (k, FileVal.nonString) :: post) =
      ((pre ++ post).map Prod.fst, [(k, FailReason.nonStringContent)]) := by
    rw [createFiles, hprefix [] [] pre _ hpre]
    rw [createFilesGo, createFileOne_nonString (hm _)]
    show createFilesGo env base ((pre.map Prod.fst).reverse ++ [])
        [(k, FailReason.nonStringContent)] post = _
    rw [createFilesGo_clean base hm hw post ((pre.map Prod.fst).reverse ++ [])
      [(k, FailReason.nonStringContent)] hpost]
    simp
  have hmain := generateProjectTail_ffail hval hdirs hfiles
  rw [hmain]
  exact ⟨rfl, rfl⟩

/-- Witness for C2: three files where the middle one has non-string content;
the other two are written and the aggregate names the middle one. -/
theorem c2_witness :
    (generateProjectTail cleanEnv ("out".data)
        { directories := [("src".data)],
          files := [(("server.ts".data), FileVal.str ("code".data))] ++
            (("bad.json".data), FileVal.nonString) ::
            [(("README.md".data), FileVal.str ("readme".data))] }).1 =
      Except.error (GenError.materializationFailure
        [(("bad.json".data), FailReason.nonStringContent)]) ∧
    (generateProjectTail cleanEnv ("out".data)
        { directories := [("src".data)],
          files := [(("server.ts".data), FileVal.str ("code".data))] ++
            (("bad.json".data), FileVal.nonString) ::
            [(("README.md".data), FileVal.str ("readme".data))] }).2.filesWritten =
      ([(("server.ts".data), FileVal.str ("code".data))] ++
        [(("README.md".data), FileVal.str ("readme".data))]).map Prod.fst :=
  c2_nonstring_collection cleanEnv ("out".data) [("src".data)]
    [(("server.ts".data), FileVal.str ("code".data))]
    [(("README.md".data), FileVal.str ("readme".data))]
    ("bad.json".data)
    (fun _ => rfl) (fun _ => rfl)
    (by intro f hf; simp at hf; exact ⟨("code".data), by rw [hf]⟩)
    (by intro f hf; simp at hf; exact ⟨("readme".data), by rw [hf]⟩)
    (by rfl)

/-- Counterexample for C2 as stated: with two directories where only the
first `mkdirSync` fails, `createDirectories` aborts immediately: the second
directory is never created, the sole (writable, string-content) file is
never written, and the error is a lone directory-creation error naming the
first directory rather than an aggregate collecting all failures after
attempting everything. -/
theorem c2_counterexample :
    oneDirFailEnv.mkdirFails (joinPath ("out".data) ("b".data)) = false ∧
    oneDirFailEnv.writeFails
      (joinPath ("out".data) ("server.ts".data)) = false ∧
    generateProjectTail oneDirFailEnv ("out".data)
        { directories := [("a".data), ("b".data)],
          files := [(("server.ts".data), FileVal.str ("x".data))] } =
      (Except.error (GenError.directoryCreation
          (joinPath ("out".data) ("a".data))),
       { dirsMade := [], filesWritten := [] }) := by
  refine ⟨by decide, rfl, by rfl⟩

/-- Claim C8: a structure with no files, or with no file path passing the
entry-file test, makes the generation tail raise the structure-validation
error with an empty mutation log (no directory made, no file written); a
structure passing the check never raises that error. -/
theorem c8_validation_gate (env : FsEnv) (base : List Char)
    (ps : ProjStructure) :
    ((ps.files = [] ∨ ∀ f ∈ ps.files, entryFileTest f.1 = false) →
      (∃ msg, (generateProjectTail env base ps).1 =
        Except.error (GenError.structureValidation msg)) ∧
      (generateProjectTail env base ps).2 =
        { dirsMade := [], filesWritten := [] }) ∧
    ((ps.files ≠ [] ∧ ∃ f ∈ ps.files, entryFileTest f.1 = true) →
      ∀ msg, (generateProjectTail env base ps).1 ≠
        Except.error (GenError.structureValidation msg)) := by
  constructor
  · intro hbad
    have hsome : ∃ msg, validateProjectStructure ps = some msg := by
      by_cases hnil : ps.files = []
      · exact ⟨("Project structure must contain at least one file.".data),
          by rw [validateProjectStructure, if_pos (by rw [hnil]; rfl)]⟩
      · have hall : ∀ f ∈ ps.files, entryFileTest f.1 = false := by
          rcases hbad with h | h
          · exact absurd h hnil
          · exact h
        refine ⟨("Project structure must contain a main server file.".data),
          ?_⟩
        rw [validateProjectStructure,
          if_neg (by simp [List.length_eq_zero, hnil])]
        rw [if_neg ?_]
        intro hany
        rw [List.any_eq_true] at hany
        obtain ⟨f, hf, hft⟩ := hany
        rw [hall f hf] at hft
        exact absurd hft (by simp)
    obtain ⟨msg, hmsg⟩ := hsome
    rw [generateProjectTail_vfail hmsg]
    exact ⟨⟨msg, rfl⟩, rfl⟩
  · intro hgood msg
    obtain ⟨hnil, f, hf, hft⟩ := hgood
    have hnone : validateProjectStructure ps = none := by
      rw [validateProjectStructure,
        if_neg (by simp [List.length_eq_zero, hnil])]
      rw [if_pos (List.any_eq_true.mpr ⟨f, hf, hft⟩)]
    cases hdc : createDirectories env base ps.directories with
    | mk made failOpt =>
      cases failOpt with
      | some failedPath =>
        rw [generateProjectTail_dirfail hnone hdc]
        intro hcon
        simp at hcon
      | none =>
        cases hcf : createFiles env base ps.files with
        | mk created failedL =>
          cases failedL with
          | nil =>
            rw [generateProjectTail_fok hnone hdc hcf]
            intro hcon
            simp at hcon
          | cons g gs =>
            rw [generateProjectTail_ffail hnone hdc hcf]
            intro hcon
            simp at hcon

/-- Witness for C8: the empty structure raises the structure-validation
error with an empty mutation log; a one-file structure naming server.ts
never raises it. -/
theorem c8_witness :
    ((∃ msg, (generateProjectTail cleanEnv ("out".data)
        { directories := [], files := [] }).1 =
      Except.error (GenError.structureValidation msg)) ∧
     (generateProjectTail cleanEnv ("out".data)
        { directories := [], files := [] }).2 =
      { dirsMade := [], filesWritten := [] }) ∧
    (∀ msg, (generateProjectTail cleanEnv ("out".data)
        { directories := [],
          files := [(("server.ts".data), FileVal.str ("x".data))] }).1 ≠
      Except.error (GenError.structureValidation msg)) :=
  ⟨(c8_validation_gate cleanEnv ("out".data)
      { directories := [], files := [] }).1 (Or.inl rfl),
   (c8_validation_gate cleanEnv ("out".data)
      { directories := [],
        files := [(("server.ts".data), FileVal.str ("x".data))] }).2
     ⟨by simp, ⟨(("server.ts".data), FileVal.str ("x".data)), by simp,
       by decide⟩⟩⟩


/-! ## Template-rendering lemmas (claim C6) -/

theorem mmStr_eq : ("\x7b\x7b".data) = ['{', '{'] := rfl

theorem cbStr_eq : ("\x7d\x7d".data) = ['}', '}'] := rfl

theorem startsWithL_two {a b : Char} {l : List Char} :
    startsWithL [a, b] l = true ↔ ∃ t, l = a :: b :: t := by
  constructor
  · intro h
    cases l with
    | nil => simp [startsWithL] at h
    | cons c t =>
      cases t with
      | nil => simp [startsWithL] at h
      | cons d t2 =>
        simp [startsWithL] at h
        exact ⟨t2, by rw [h.1, h.2]⟩
  · rintro ⟨t, rfl⟩
    simp [startsWithL]

theorem startsWithL_cons_false {p : Char} {ps : List Char} {c : Char}
    {l : List Char} (h : p ≠ c) : startsWithL (p :: ps) (c :: l) = false := by
  simp [startsWithL]
  intro hcon
  exact absurd hcon h

theorem startsWithL_ex {p l : List Char} (h : startsWithL p l = true) :
    ∃ t, l = p ++ t := by
  induction p generalizing l with
  | nil => exact ⟨l, rfl⟩
  | cons a ps ih =>
    cases l with
    | nil => simp [startsWithL] at h
    | cons c t =>
      simp [startsWithL] at h
      obtain ⟨t2, ht⟩ := ih h.2
      exact ⟨t2, by rw [h.1, ht]; rfl⟩

theorem containsSub_cons_eq (pat : List Char) (c : Char) (t : List Char) :
    containsSub pat (c :: t) = (startsWithL pat (c :: t) || containsSub pat t) :=
  rfl

theorem contains_of_startsWith {p l : List Char}
    (h : startsWithL p l = true) : containsSub p l = true := by
  cases l with
  | nil => rw [containsSub, h]
  | cons c t => rw [containsSub_cons_eq, h]; rfl

theorem containsSub_append_left {pat x y : List Char}
    (h : containsSub pat y = true) : containsSub pat (x ++ y) = true := by
  by_contra hcon
  simp at hcon
  rw [containsSub_append_right hcon] at h
  exact absurd h (by simp)

theorem upperOrUnd_not_ws {c : Char} (h : upperOrUnd c = true) :
    jsWS c = false := by
  rw [upperOrUnd] at h
  simp at h
  rw [jsWS]
  simp
  omega

theorem upperOrUnd_ne_ob {c : Char} (h : upperOrUnd c = true) : c ≠ '{' := by
  intro hcon
  subst hcon
  simp [upperOrUnd] at h

theorem upperOrUnd_ne_cb {c : Char} (h : upperOrUnd c = true) : c ≠ '}' := by
  intro hcon
  subst hcon
  simp [upperOrUnd] at h

theorem nameOk_ne_nil {n : List Char} (h : nameOk n = true) : n ≠ [] := by
  rw [nameOk] at h
  simp at h
  exact h.1

theorem nameOk_mem {n : List Char} (h : nameOk n = true) :
    ∀ c ∈ n, upperOrUnd c = true := by
  rw [nameOk] at h
  simp at h
  exact h.2

theorem containsSub_MM_single (c : Char) :
    containsSub ("\x7b\x7b".data) [c] = false := by
  rw [mmStr_eq]
  show (startsWithL ['{', '{'] [c] || containsSub ['{', '{'] []) = false
  simp [startsWithL, containsSub]

theorem containsSub_MM_of_no_ob {l : List Char} (h : ∀ c ∈ l, c ≠ '{') :
    containsSub ("\x7b\x7b".data) l = false := by
  induction l with
  | nil => rfl
  | cons c t ih =>
    rw [containsSub_cons_eq]
    rw [mmStr_eq, startsWithL_cons_false (fun hc => h c (by simp) hc.symm)]
    rw [← mmStr_eq, ih (fun d hd => h d (List.mem_cons_of_mem _ hd))]
    rfl

theorem MM_append_free {x y : List Char}
    (hx : containsSub ("\x7b\x7b".data) x = false)
    (hy : containsSub ("\x7b\x7b".data) y = false)
    (hseam : x.getLast? = some '{' → y.head? ≠ some '{') :
    containsSub ("\x7b\x7b".data) (x ++ y) = false := by
  induction x with
  | nil => simpa using hy
  | cons c t ih =>
    rw [containsSub_cons_eq] at hx
    simp at hx
    rw [List.cons_append, containsSub_cons_eq]
    have htail : containsSub ("\x7b\x7b".data) (t ++ y) = false := by
      apply ih hx.2
      intro hl hh
      cases t with
      | nil => simp at hl
      | cons d t2 =>
        apply hseam _ hh
        rw [getLast?_cons_ne (by simp)]
        exact hl
    rw [htail]
    have hhead : startsWithL ['{', '{'] (c :: (t ++ y)) = false := by
      by_contra hcon
      simp only [Bool.not_eq_false] at hcon
      obtain ⟨r, hr⟩ := startsWithL_two.mp hcon
      have hc : c = '{' := (List.cons_eq_cons.mp hr).1
      have hty : t ++ y = '{' :: r := (List.cons_eq_cons.mp hr).2
      cases t with
      | nil =>
        simp at hty
        apply hseam (by rw [hc]; rfl)
        rw [hty]
        rfl
      | cons d t2 =>
        have hd : d = '{' := (List.cons_eq_cons.mp hty).1
        have hsw : startsWithL ['{', '{'] (c :: d :: t2) = true :=
          startsWithL_two.mpr ⟨t2, by rw [hc, hd]⟩
        rw [hsw] at hx
        exact absurd hx.1 (by simp)
    rw [mmStr_eq, hhead]
    rfl

theorem drop_takeWhile_length (p : Char → Bool) :
    ∀ l : List Char, l.drop (l.takeWhile p).length = l.dropWhile p := by
  intro l
  induction l with
  | nil => rfl
  | cons c t ih =>
    rw [List.takeWhile, List.dropWhile]
    cases hp : p c <;> simp [hp, ih]

theorem takeWhile_append_stop {p : Char → Bool} {n y : List Char} {d : Char}
    (h : ∀ c ∈ n, p c = true) (hd : p d = false) :
    (n ++ d :: y).takeWhile p = n := by
  induction n with
  | nil => simp [List.takeWhile, hd]
  | cons c t ih =>
    rw [List.cons_append, List.takeWhile, h c (by simp)]
    simp [ih (fun x hx => h x (List.mem_cons_of_mem _ hx))]

theorem dropWhile_ws_of_head {a : Char} {l : List Char} (h : jsWS a = false) :
    (a :: l).dropWhile jsWS = a :: l := by
  rw [List.dropWhile_cons, if_neg (by simp [h])]

theorem noMM_head {c : Char} {t R : List Char}
    (ha : containsSub ("\x7b\x7b".data) (c :: t) = false)
    (hseam : (c :: t).getLast? = some '{' → R.head? ≠ some '{') :
    startsWithL ("\x7b\x7b".data) (c :: (t ++ R)) = false := by
  rw [containsSub_cons_eq] at ha
  simp at ha
  rw [mmStr_eq]
  by_contra hcon
  simp only [Bool.not_eq_false] at hcon
  obtain ⟨r, hr⟩ := startsWithL_two.mp hcon
  have hc : c = '{' := (List.cons_eq_cons.mp hr).1
  have hty : t ++ R = '{' :: r := (List.cons_eq_cons.mp hr).2
  cases t with
  | nil =>
    simp at hty
    apply hseam (by rw [hc]; rfl)
    rw [hty]
    rfl
  | cons d t2 =>
    have hd : d = '{' := (List.cons_eq_cons.mp hty).1
    have hsw : startsWithL ("\x7b\x7b".data) (c :: d :: t2) = true := by
      rw [mmStr_eq]
      exact startsWithL_two.mpr ⟨t2, by rw [hc, hd]⟩
    rw [hsw] at ha
    exact absurd ha.1 (by simp)

theorem matchVarAt_none {key l : List Char}
    (h : startsWithL ("\x7b\x7b".data) l = false) : matchVarAt key l = none := by
  rw [matchVarAt, if_neg (by simp [h])]

theorem reScanAt_none {l : List Char}
    (h : startsWithL ("\x7b\x7b".data) l = false) : reScanAt l = none := by
  rw [reScanAt, if_neg (by simp [h])]

theorem matchVarAt_hit {n R : List Char} (hn : nameOk n = true) :
    matchVarAt n (("\x7b\x7b".data) ++ (n ++ (("\x7d\x7d".data) ++ R))) =
      some R := by
  have h2 : ("\x7b\x7b".data).length = 2 := rfl
  rw [matchVarAt, if_pos (startsWithL_append_self _ _)]
  have hd1 : ((("\x7b\x7b".data) ++ (n ++ (("\x7d\x7d".data) ++ R))).drop 2) =
      n ++ (("\x7d\x7d".data) ++ R) := by
    rw [← h2, List.drop_left]
  rw [hd1]
  obtain ⟨c, t, hct⟩ : ∃ c t, n = c :: t := by
    cases n with
    | nil => exact absurd rfl (nameOk_ne_nil hn)
    | cons c t => exact ⟨c, t, rfl⟩
  have hws : (n ++ (("\x7d\x7d".data) ++ R)).dropWhile jsWS =
      n ++ (("\x7d\x7d".data) ++ R) := by
    rw [hct, List.cons_append]
    exact dropWhile_ws_of_head
      (upperOrUnd_not_ws (nameOk_mem hn c (by rw [hct]; simp)))
  rw [hws, if_pos (startsWithL_append_self _ _), List.drop_left]
  have hws2 : ((("\x7d\x7d".data) ++ R)).dropWhile jsWS =
      ("\x7d\x7d".data) ++ R := by
    rw [cbStr_eq, List.cons_append]
    exact dropWhile_ws_of_head (by decide)
  rw [hws2, if_pos (startsWithL_append_self _ _)]
  have h2c : ("\x7d\x7d".data).length = 2 := rfl
  rw [← h2c, List.drop_left]

theorem matchVarAt_miss {key n R : List Char} (hn : nameOk n = true)
    (hk : nameOk key = true) (hne : key ≠ n) :
    matchVarAt key (("\x7b\x7b".data) ++ (n ++ (("\x7d\x7d".data) ++ R))) =
      none := by
  have h2 : ("\x7b\x7b".data).length = 2 := rfl
  rw [matchVarAt, if_pos (startsWithL_append_self _ _)]
  have hd1 : ((("\x7b\x7b".data) ++ (n ++ (("\x7d\x7d".data) ++ R))).drop 2) =
      n ++ (("\x7d\x7d".data) ++ R) := by
    rw [← h2, List.drop_left]
  rw [hd1]
  obtain ⟨c, t, hct⟩ : ∃ c t, n = c :: t := by
    cases n with
    | nil => exact absurd rfl (nameOk_ne_nil hn)
    | cons c t => exact ⟨c, t, rfl⟩
  have hws : (n ++ (("\x7d\x7d".data) ++ R)).dropWhile jsWS =
      n ++ (("\x7d\x7d".data) ++ R) := by
    rw [hct, List.cons_append]
    exact dropWhile_ws_of_head
      (upperOrUnd_not_ws (nameOk_mem hn c (by rw [hct]; simp)))
  rw [hws]
  by_cases hsw : startsWithL key (n ++ (("\x7d\x7d".data) ++ R)) = true
  · rw [if_pos hsw]
    obtain ⟨t2, ht2⟩ := startsWithL_ex hsw
    by_cases hlen : key.length ≤ n.length
    · have htake : (n ++ (("\x7d\x7d".data) ++ R)).take key.length =
          n.take key.length := List.take_append_of_le_length hlen
      have hkey : key = n.take key.length := by
        rw [ht2] at htake
        rw [List.take_left key t2] at htake
        exact htake
      have hlt : key.length < n.length := by
        rcases Nat.lt_or_ge key.length n.length with h | h
        · exact h
        · exact absurd (by rw [hkey, List.take_of_length_le (by omega)])
            hne
      have hdrop : (n ++ (("\x7d\x7d".data) ++ R)).drop key.length =
          n.drop key.length ++ (("\x7d\x7d".data) ++ R) :=
        List.drop_append_of_le_length (by omega)
      rw [hdrop]
      obtain ⟨d, t3, hdt⟩ : ∃ d t3, n.drop key.length = d :: t3 := by
        cases hx : n.drop key.length with
        | nil =>
          have := List.length_drop key.length n
          rw [hx] at this
          simp at this
          omega
        | cons d t3 => exact ⟨d, t3, rfl⟩
      have hdmem : d ∈ n := by
        have : d ∈ n.drop key.length := by rw [hdt]; simp
        exact List.mem_of_mem_drop this
      have hdok : upperOrUnd d = true := nameOk_mem hn d hdmem
      rw [hdt, List.cons_append,
        dropWhile_ws_of_head (upperOrUnd_not_ws hdok)]
      rw [cbStr_eq, startsWithL_cons_false (fun hx => upperOrUnd_ne_cb hdok hx.symm)]
      rfl
    · exfalso
      have hlen2 : n.length ≤ key.length := by omega
      have htake : (n ++ (("\x7d\x7d".data) ++ R)).take n.length =
          n.take n.length := List.take_append_of_le_length (by omega)
      have hn2 : (key ++ t2).take n.length = n := by
        rw [← ht2, htake, List.take_of_length_le (by omega)]
      have hkpre : key.take n.length = n := by
        rw [List.take_append_of_le_length hlen2] at hn2
        exact hn2
      have hsplit : key = n ++ key.drop n.length := by
        conv_lhs => rw [← List.take_append_drop n.length key]
        rw [hkpre]
      obtain ⟨d, t3, hdt⟩ : ∃ d t3, key.drop n.length = d :: t3 := by
        cases hx : key.drop n.length with
        | nil =>
          have hkn : key = n := by
            rw [hsplit, hx, List.append_nil]
          exact absurd hkn hne
        | cons d t3 => exact ⟨d, t3, rfl⟩
      have hdmem : d ∈ key := by
        have : d ∈ key.drop n.length := by rw [hdt]; simp
        exact List.mem_of_mem_drop this
      have hdok : upperOrUnd d = true := nameOk_mem hk d hdmem
      have heq : n ++ (("\x7d\x7d".data) ++ R) = n ++ (d :: t3 ++ t2) := by
        rw [ht2]
        conv_lhs => rw [hsplit]
        rw [hdt, List.append_assoc]
      have heq2 : ("\x7d\x7d".data) ++ R = d :: t3 ++ t2 :=
        List.append_cancel_left heq
      rw [cbStr_eq] at heq2
      have : d = '}' := ((List.cons_eq_cons.mp heq2).1).symm
      exact upperOrUnd_ne_cb hdok this
  · rw [if_neg hsw]

theorem startsWith_one {c : Char} {l : List Char} :
    startsWithL [c] l = true ↔ l.head? = some c := by
  cases l with
  | nil => simp [startsWithL]
  | cons d t =>
    simp [startsWithL]
    constructor
    · intro h; rw [h]
    · intro h; simp at h; rw [h]

theorem nameOk_getLast_ne_ob {n : List Char} (hn : nameOk n = true) :
    n.getLast? = some '{' → False := by
  intro h
  exact upperOrUnd_ne_ob (nameOk_mem hn '{' (List.mem_of_mem_getLast? h)) rfl

theorem nameOk_head_ne_ob {n : List Char} (hn : nameOk n = true) :
    (n.head? = some '{') → False := by
  intro h
  exact upperOrUnd_ne_ob (nameOk_mem hn '{' (List.mem_of_mem_head? h)) rfl

theorem nameOk_MM_free {n : List Char} (hn : nameOk n = true) :
    containsSub ("\x7b\x7b".data) n = false :=
  containsSub_MM_of_no_ob (fun c hc => upperOrUnd_ne_ob (nameOk_mem hn c hc))

theorem markTail_MM_free {n : List Char} (hn : nameOk n = true) :
    containsSub ("\x7b\x7b".data) ('{' :: (n ++ ("\x7d\x7d".data))) = false := by
  have h1 : containsSub ("\x7b\x7b".data) (n ++ ("\x7d\x7d".data)) = false := by
    apply MM_append_free (nameOk_MM_free hn) (by rw [cbStr_eq]; decide)
    intro hl _
    exact nameOk_getLast_ne_ob hn hl
  have : ('{' :: (n ++ ("\x7d\x7d".data))) = ['{'] ++ (n ++ ("\x7d\x7d".data)) :=
    rfl
  rw [this]
  apply MM_append_free (containsSub_MM_single _) h1
  intro _ hh
  apply nameOk_head_ne_ob hn
  rw [← List.head?_append_of_ne_nil _ (nameOk_ne_nil hn)]
  exact hh

theorem markTail_getLast {n : List Char} :
    ('{' :: (n ++ ("\x7d\x7d".data))).getLast? = some '}' := by
  rw [getLast?_cons_ne (by simp [cbStr_eq]),
    List.getLast?_append_of_ne_nil n (by rw [cbStr_eq]; simp)]
  rfl

theorem replaceGo_skip (key value : List Char) :
    ∀ (a R : List Char) (f : Nat),
    containsSub ("\x7b\x7b".data) a = false →
    (a.getLast? = some '{' → R.head? ≠ some '{') →
    replaceAllVarGo key value (a.length + f) (a ++ R) =
      a ++ replaceAllVarGo key value f R := by
  intro a
  induction a with
  | nil => intro R f _ _; simp
  | cons c t ih =>
    intro R f ha hseam
    have hsw := noMM_head ha hseam
    have hlen : (c :: t).length + f = (t.length + f) + 1 := by
      simp
      omega
    rw [hlen, List.cons_append, replaceAllVarGo, matchVarAt_none hsw]
    show c :: replaceAllVarGo key value (t.length + f) (t ++ R) = _
    rw [containsSub_cons_eq] at ha
    simp at ha
    rw [ih R f ha.2 ?tseam]
    · rfl
    case tseam =>
      intro hl hh
      cases t with
      | nil => simp at hl
      | cons d t2 =>
        apply hseam _ hh
        rw [getLast?_cons_ne (by simp)]
        exact hl

theorem scanGo_skip :
    ∀ (a R : List Char) (f : Nat),
    containsSub ("\x7b\x7b".data) a = false →
    (a.getLast? = some '{' → R.head? ≠ some '{') →
    scanMarkersGo (a.length + f) (a ++ R) = scanMarkersGo f R := by
  intro a
  induction a with
  | nil => intro R f _ _; simp
  | cons c t ih =>
    intro R f ha hseam
    have hsw := noMM_head ha hseam
    have hlen : (c :: t).length + f = (t.length + f) + 1 := by
      simp
      omega
    rw [hlen, List.cons_append, scanMarkersGo, reScanAt_none hsw]
    rw [containsSub_cons_eq] at ha
    simp at ha
    apply ih R f ha.2
    intro hl hh
    cases t with
    | nil => simp at hl
    | cons d t2 =>
      apply hseam _ hh
      rw [getLast?_cons_ne (by simp)]
      exact hl

theorem reScanAt_mark {n R : List Char} (hn : nameOk n = true) :
    reScanAt (("\x7b\x7b".data) ++ (n ++ (("\x7d\x7d".data) ++ R))) =
      some (("\x7b\x7b".data) ++ n ++ ("\x7d\x7d".data), R) := by
  have h2 : ("\x7b\x7b".data).length = 2 := rfl
  have h2c : ("\x7d\x7d".data).length = 2 := rfl
  rw [reScanAt, if_pos (startsWithL_append_self _ _)]
  have hd1 : ((("\x7b\x7b".data) ++ (n ++ (("\x7d\x7d".data) ++ R))).drop 2) =
      n ++ (("\x7d\x7d".data) ++ R) := by
    rw [← h2, List.drop_left]
  rw [hd1]
  have htake : (n ++ (("\x7d\x7d".data) ++ R)).takeWhile
      (fun c => !(c = '}')) = n := by
    have hshape : n ++ (("\x7d\x7d".data) ++ R) = n ++ '}' :: ('}' :: R) := by
      rw [cbStr_eq]
      rfl
    rw [hshape]
    apply takeWhile_append_stop
    · intro c hc
      simp
      exact upperOrUnd_ne_cb (nameOk_mem hn c hc)
    · simp
  rw [htake, if_neg (by simp [nameOk_ne_nil hn]), List.drop_left,
    if_pos (startsWithL_append_self _ _)]
  rw [← h2c, List.drop_left]

theorem matchVarAt_hit_cons {n R : List Char} (hn : nameOk n = true) :
    matchVarAt n ('{' :: '{' :: (n ++ (("\x7d\x7d".data) ++ R))) = some R :=
  matchVarAt_hit hn

theorem matchVarAt_miss_cons {key n R : List Char} (hn : nameOk n = true)
    (hk : nameOk key = true) (hne : key ≠ n) :
    matchVarAt key ('{' :: '{' :: (n ++ (("\x7d\x7d".data) ++ R))) = none :=
  matchVarAt_miss hn hk hne

theorem reScanAt_mark_cons {n R : List Char} (hn : nameOk n = true) :
    reScanAt ('{' :: '{' :: (n ++ (("\x7d\x7d".data) ++ R))) =
      some (("\x7b\x7b".data) ++ n ++ ("\x7d\x7d".data), R) :=
  reScanAt_mark hn

theorem flattenSegs_mark_shape (n : List Char) (r : List Seg) :
    flattenSegs (Seg.mark n :: r) =
      '{' :: '{' :: (n ++ (("\x7d\x7d".data) ++ flattenSegs r)) := by
  rw [flattenSegs, mmStr_eq]
  simp [List.append_assoc]

theorem flattenSegs_mark_len (n : List Char) (r : List Seg) :
    (flattenSegs (Seg.mark n :: r)).length =
      n.length + (flattenSegs r).length + 4 := by
  rw [flattenSegs_mark_shape]
  simp [cbStr_eq]
  omega

theorem substOne_cons_txt (key value a : List Char) (r : List Seg) :
    substOne key value (Seg.txt a :: r) = Seg.txt a :: substOne key value r :=
  rfl

theorem substOne_cons_mark (key value n : List Char) (r : List Seg) :
    substOne key value (Seg.mark n :: r) =
      (if n = key then Seg.txt value else Seg.mark n) :: substOne key value r :=
  rfl

theorem repClean_txt {a : List Char} {r : List Seg}
    (h : repClean (Seg.txt a :: r) = true) :
    containsSub ("\x7b\x7b".data) a = false ∧
    ((a.getLast? = some '{') →
      startsWithL ("\x7b".data) (flattenSegs r) = false) ∧
    repClean r = true := by
  rw [repClean] at h
  simp only [Bool.and_eq_true, Bool.not_eq_true'] at h
  obtain ⟨⟨h1, h2⟩, h3⟩ := h
  refine ⟨h1, ?_, h3⟩
  intro hl
  by_contra hcon
  simp only [Bool.not_eq_false] at hcon
  rw [hcon] at h2
  simp at h2
  exact absurd hl (by simpa using h2)

theorem repClean_mark {n : List Char} {r : List Seg}
    (h : repClean (Seg.mark n :: r) = true) :
    nameOk n = true ∧ repClean r = true := by
  rw [repClean] at h
  exact And.imp id id (by simpa using h)

theorem substOne_flatten (key value : List Char) (hk : nameOk key = true) :
    ∀ (rep : List Seg) (fuel : Nat), repClean rep = true →
    (flattenSegs rep).length ≤ fuel →
    replaceAllVarGo key value fuel (flattenSegs rep) =
      flattenSegs (substOne key value rep) := by
  intro rep
  induction rep with
  | nil =>
    intro fuel _ _
    show replaceAllVarGo key value fuel [] = []
    cases fuel <;> rfl
  | cons s r ih =>
    intro fuel hclean hfuel
    cases s with
    | txt a =>
      obtain ⟨hfree, hseam, hrc⟩ := repClean_txt hclean
      have hflat : flattenSegs (Seg.txt a :: r) = a ++ flattenSegs r := rfl
      rw [hflat] at hfuel ⊢
      obtain ⟨f, rfl⟩ : ∃ f, fuel = a.length + f :=
        ⟨fuel - a.length, by simp at hfuel; omega⟩
      rw [replaceGo_skip key value a (flattenSegs r) f hfree ?aseam]
      · rw [ih f hrc (by simp at hfuel; omega)]
        rfl
      case aseam =>
        intro hl hh
        have := hseam hl
        rw [startsWith_one.mpr hh] at this
        · simp at this
    | mark n =>
      obtain ⟨hn, hrc⟩ := repClean_mark hclean
      rw [flattenSegs_mark_shape] at hfuel ⊢
      obtain ⟨f, rfl⟩ : ∃ f, fuel = f + 1 := by
        cases fuel with
        | zero => simp at hfuel
        | succ k => exact ⟨k, rfl⟩
      by_cases hkey : n = key
      · subst hkey
        rw [replaceAllVarGo, matchVarAt_hit_cons hn]
        have hflen : (flattenSegs r).length ≤ f := by
          simp [cbStr_eq] at hfuel
          omega
        show value ++ replaceAllVarGo n value f (flattenSegs r) =
          flattenSegs (substOne n value (Seg.mark n :: r))
        rw [ih f hrc hflen, substOne_cons_mark, if_pos rfl]
        rfl
      · rw [replaceAllVarGo,
          matchVarAt_miss_cons hn hk (fun h => hkey h.symm)]
        show '{' :: replaceAllVarGo key value f
            ('{' :: (n ++ (("\x7d\x7d".data) ++ flattenSegs r))) = _
        have hshape : '{' :: (n ++ (("\x7d\x7d".data) ++ flattenSegs r)) =
            ('{' :: (n ++ ("\x7d\x7d".data))) ++ flattenSegs r := by
          simp [List.append_assoc]
        rw [hshape]
        obtain ⟨f2, rfl⟩ : ∃ f2, f = ('{' :: (n ++ ("\x7d\x7d".data))).length + f2 := by
          refine ⟨f - ('{' :: (n ++ ("\x7d\x7d".data))).length, ?_⟩
          simp [cbStr_eq] at hfuel ⊢
          omega
        rw [replaceGo_skip key value _ _ f2 (markTail_MM_free hn) ?mseam]
        · rw [ih f2 hrc (by simp [cbStr_eq] at hfuel; omega)]
          rw [substOne_cons_mark, if_neg hkey, flattenSegs_mark_shape]
          simp [List.append_assoc]
        case mseam =>
          intro hl _
          rw [markTail_getLast] at hl
          simp at hl

theorem valueClean_mem {v : List Char} (h : valueClean v = true) :
    ∀ c ∈ v, c ≠ '{' ∧ c ≠ '}' ∧ c ≠ '$' := by
  intro c hc
  rw [valueClean, List.all_eq_true] at h
  have h2 := h c hc
  simp at h2
  exact ⟨h2.1.1, h2.1.2, h2.2⟩

theorem valueClean_MM_free {v : List Char} (h : valueClean v = true) :
    containsSub ("\x7b\x7b".data) v = false :=
  containsSub_MM_of_no_ob (fun c hc => (valueClean_mem h c hc).1)

theorem valueClean_getLast_ne_ob {v : List Char} (h : valueClean v = true) :
    v.getLast? = some '{' → False := by
  intro hl
  exact (valueClean_mem h '{' (List.mem_of_mem_getLast? hl)).1 rfl

theorem substOne_head_ob {k v : List Char} :
    ∀ r : List Seg, (flattenSegs (substOne k v r)).head? = some '{' →
    (flattenSegs r).head? = some '{' := by
  intro r
  induction r with
  | nil => intro h; simp [substOne, flattenSegs] at h
  | cons s r' ih =>
    intro h
    cases s with
    | txt a =>
      rw [substOne_cons_txt] at h
      cases a with
      | nil =>
        show (flattenSegs (Seg.txt [] :: r')).head? = some '{'
        have h' : (flattenSegs (substOne k v r')).head? = some '{' := by
          have : flattenSegs (Seg.txt [] :: substOne k v r') =
              flattenSegs (substOne k v r') := rfl
          rw [this] at h
          exact h
        have := ih h'
        show (([] : List Char) ++ flattenSegs r').head? = some '{'
        simpa using this
      | cons c t =>
        have h1 : flattenSegs (Seg.txt (c :: t) :: substOne k v r') =
            (c :: t) ++ flattenSegs (substOne k v r') := rfl
        rw [h1, List.head?_append_of_ne_nil _ (by simp)] at h
        show ((c :: t) ++ flattenSegs r').head? = some '{'
        rw [List.head?_append_of_ne_nil _ (by simp)]
        exact h
    | mark n =>
      rw [flattenSegs_mark_shape]
      rfl

theorem substOne_clean {k v : List Char} (_hk : nameOk k = true)
    (hv : valueClean v = true) :
    ∀ r : List Seg, repClean r = true → repClean (substOne k v r) = true := by
  intro r
  induction r with
  | nil => intro _; rfl
  | cons s r' ih =>
    intro h
    cases s with
    | txt a =>
      obtain ⟨h1, h2, h3⟩ := repClean_txt h
      rw [substOne_cons_txt, repClean]
      simp only [Bool.and_eq_true]
      refine ⟨⟨by simp [h1], ?_⟩, ih h3⟩
      simp only [Bool.not_eq_true']
      by_cases hl : a.getLast? = some '{'
      · have hsw := h2 hl
        have : startsWithL ("\x7b".data) (flattenSegs (substOne k v r')) =
            false := by
          by_contra hcon
          simp only [Bool.not_eq_false] at hcon
          have hh : (flattenSegs (substOne k v r')).head? = some '{' :=
            startsWith_one.mp hcon
          have hro := substOne_head_ob r' hh
          rw [startsWith_one.mpr hro] at hsw
          simp at hsw
        simp [hl, this]
      · simp [hl]
    | mark n =>
      obtain ⟨hn, h3⟩ := repClean_mark h
      rw [substOne_cons_mark]
      by_cases hkey : n = k
      · rw [if_pos hkey, repClean]
        simp only [Bool.and_eq_true]
        refine ⟨⟨by simp [valueClean_MM_free hv], ?_⟩, ih h3⟩
        simp only [Bool.not_eq_true']
        have : (v.getLast? = some '{') = False := by
          simp
          intro hcon
          exact absurd hcon (fun hx => valueClean_getLast_ne_ob hv hx)
        simp [this]
      · rw [if_neg hkey, repClean]
        simp only [Bool.and_eq_true]
        exact ⟨hn, ih h3⟩

theorem substRep_nil_eq (rep : List Seg) : substRep [] rep = rep := rfl

theorem substRep_cons_eq (kv : List Char × List Char)
    (vars : List (List Char × List Char)) (rep : List Seg) :
    substRep (kv :: vars) rep = substRep vars (substOne kv.1 kv.2 rep) := rfl

theorem substRep_spec :
    ∀ (vars : List (List Char × List Char)) (rep : List Seg),
    repClean rep = true →
    (∀ kv ∈ vars, nameOk kv.1 = true ∧ valueClean kv.2 = true) →
    substPass vars (flattenSegs rep) = flattenSegs (substRep vars rep) ∧
    repClean (substRep vars rep) = true := by
  intro vars
  induction vars with
  | nil => intro rep hc _; exact ⟨rfl, hc⟩
  | cons kv vars' ih =>
    intro rep hc hkv
    obtain ⟨hk, hv⟩ := hkv kv (by simp)
    have h1 : replaceAllVar kv.1 kv.2 (flattenSegs rep) =
        flattenSegs (substOne kv.1 kv.2 rep) := by
      rw [replaceAllVar]
      exact substOne_flatten kv.1 kv.2 hk rep _ hc (Nat.le_refl _)
    have hc' : repClean (substOne kv.1 kv.2 rep) = true :=
      substOne_clean hk hv rep hc
    have hrest := ih (substOne kv.1 kv.2 rep) hc'
      (fun kv2 h2 => hkv kv2 (List.mem_cons_of_mem _ h2))
    constructor
    · show substPass vars' (replaceAllVar kv.1 kv.2 (flattenSegs rep)) =
        flattenSegs (substRep (kv :: vars') rep)
      rw [h1, substRep_cons_eq]
      exact hrest.1
    · rw [substRep_cons_eq]
      exact hrest.2

theorem mark_mem_substOne {n k v : List Char} {r : List Seg}
    (hm : Seg.mark n ∈ r) (hne : n ≠ k) :
    Seg.mark n ∈ substOne k v r := by
  have h1 := List.mem_map_of_mem
    (fun s => match s with
      | Seg.mark m => if m = k then Seg.txt v else Seg.mark m
      | s => s) hm
  have h2 : (if n = k then Seg.txt v else Seg.mark n) ∈ List.map
      (fun s => match s with
        | Seg.mark m => if m = k then Seg.txt v else Seg.mark m
        | s => s) r := h1
  rw [if_neg hne] at h2
  exact h2

theorem mark_mem_substRep {n : List Char} :
    ∀ (vars : List (List Char × List Char)) (r : List Seg),
    Seg.mark n ∈ r → (∀ kv ∈ vars, kv.1 ≠ n) →
    Seg.mark n ∈ substRep vars r := by
  intro vars
  induction vars with
  | nil => intro r hm _; exact hm
  | cons kv vars' ih =>
    intro r hm hkv
    rw [substRep_cons_eq]
    apply ih
    · exact mark_mem_substOne hm (fun h => hkv kv (by simp) h.symm)
    · intro kv2 h2
      exact hkv kv2 (List.mem_cons_of_mem _ h2)

theorem scanGo_main :
    ∀ (rep : List Seg) (fuel : Nat), repClean rep = true →
    (flattenSegs rep).length ≤ fuel →
    scanMarkersGo fuel (flattenSegs rep) = markStringsOf rep := by
  intro rep
  induction rep with
  | nil =>
    intro fuel _ _
    show scanMarkersGo fuel [] = []
    cases fuel <;> rfl
  | cons s r ih =>
    intro fuel hclean hfuel
    cases s with
    | txt a =>
      obtain ⟨hfree, hseam, hrc⟩ := repClean_txt hclean
      have hflat : flattenSegs (Seg.txt a :: r) = a ++ flattenSegs r := rfl
      rw [hflat] at hfuel ⊢
      obtain ⟨f, rfl⟩ : ∃ f, fuel = a.length + f :=
        ⟨fuel - a.length, by simp at hfuel; omega⟩
      rw [scanGo_skip a (flattenSegs r) f hfree ?aseam]
      · show scanMarkersGo f (flattenSegs r) = markStringsOf (Seg.txt a :: r)
        rw [ih f hrc (by simp at hfuel; omega)]
        rfl
      case aseam =>
        intro hl hh
        have hx := hseam hl
        rw [startsWith_one.mpr hh] at hx
        simp at hx
    | mark n =>
      obtain ⟨hn, hrc⟩ := repClean_mark hclean
      rw [flattenSegs_mark_shape] at hfuel ⊢
      obtain ⟨f, rfl⟩ : ∃ f, fuel = f + 1 := by
        cases fuel with
        | zero => simp at hfuel
        | succ k => exact ⟨k, rfl⟩
      rw [scanMarkersGo, reScanAt_mark_cons hn]
      show (("\x7b\x7b".data) ++ n ++ ("\x7d\x7d".data)) ::
          scanMarkersGo f (flattenSegs r) = markStringsOf (Seg.mark n :: r)
      have hflen : (flattenSegs r).length ≤ f := by
        simp [cbStr_eq] at hfuel
        omega
      rw [ih f hrc hflen]
      rfl

theorem stripGo_name {n : List Char} (hok : ∀ c ∈ n, upperOrUnd c = true) :
    ∀ fuel, n.length + 3 ≤ fuel →
    stripGo fuel (n ++ ("\x7d\x7d".data)) = n := by
  induction n with
  | nil =>
    intro fuel hf
    obtain ⟨f, rfl⟩ : ∃ f, fuel = f + 1 := by
      cases fuel with
      | zero => omega
      | succ k => exact ⟨k, rfl⟩
    show stripGo (f + 1) ('}' :: ('}' :: [])) = []
    rw [stripGo]
    have hat : stripAt ('}' :: '}' :: []) = some [] := by
      rw [stripAt, if_neg (by rw [mmStr_eq]; exact (by decide))]
      rw [dropWhile_ws_of_head (by decide),
        if_pos (by rw [cbStr_eq]; simp [startsWithL])]
      rfl
    rw [hat]
    show stripGo f [] = []
    cases f <;> rfl
  | cons c t ih =>
    intro fuel hf
    obtain ⟨f, rfl⟩ : ∃ f, fuel = f + 1 := by
      cases fuel with
      | zero => simp at hf
      | succ k => exact ⟨k, rfl⟩
    have hcok : upperOrUnd c = true := hok c (by simp)
    rw [List.cons_append, stripGo]
    have hat : stripAt (c :: (t ++ ("\x7d\x7d".data))) = none := by
      rw [stripAt, if_neg ?h1, if_neg ?h2]
      case h1 =>
        rw [mmStr_eq]
        simp [startsWithL_cons_false (fun h => upperOrUnd_ne_ob hcok h.symm)]
      case h2 =>
        rw [dropWhile_ws_of_head (upperOrUnd_not_ws hcok), cbStr_eq]
        simp [startsWithL_cons_false (fun h => upperOrUnd_ne_cb hcok h.symm)]
    rw [hat]
    show c :: stripGo f (t ++ ("\x7d\x7d".data)) = c :: t
    rw [ih (fun d hd => hok d (List.mem_cons_of_mem _ hd)) f (by simp at hf; omega)]

theorem stripMarker_mark {n : List Char} (hn : nameOk n = true) :
    stripMarker (("\x7b\x7b".data) ++ n ++ ("\x7d\x7d".data)) = n := by
  rw [stripMarker]
  have hshape : ("\x7b\x7b".data) ++ n ++ ("\x7d\x7d".data) =
      '{' :: '{' :: (n ++ ("\x7d\x7d".data)) := by
    rw [mmStr_eq]
    simp
  rw [hshape]
  have hlen : ('{' :: '{' :: (n ++ ("\x7d\x7d".data))).length =
      (n.length + 3) + 1 := by
    simp [cbStr_eq]
    try omega
  rw [hlen, stripGo]
  have hat : stripAt ('{' :: '{' :: (n ++ ("\x7d\x7d".data))) =
      some (n ++ ("\x7d\x7d".data)) := by
    rw [stripAt, if_pos (by rw [mmStr_eq]; simp [startsWithL])]
    show some (((n ++ ("\x7d\x7d".data))).dropWhile jsWS) = _
    obtain ⟨c, t, hct⟩ : ∃ c t, n = c :: t := by
      cases n with
      | nil => exact absurd rfl (nameOk_ne_nil hn)
      | cons c t => exact ⟨c, t, rfl⟩
    rw [hct, List.cons_append, dropWhile_ws_of_head
      (upperOrUnd_not_ws (nameOk_mem hn c (by rw [hct]; simp)))]
  rw [hat]
  exact stripGo_name (nameOk_mem hn) _ (Nat.le_refl _)

theorem replaceFirst_cons (pat rep : List Char) (c : Char) (t : List Char) :
    replaceFirst pat rep (c :: t) =
      if startsWithL pat (c :: t) then rep ++ (c :: t).drop pat.length
      else c :: replaceFirst pat rep t := rfl

theorem replaceFirst_at {n : List Char} (hn : nameOk n = true)
    (rv : List Char) :
    ∀ (X Y : List Char), containsSub ("\x7b\x7b".data) X = false →
    replaceFirst (("\x7b\x7b".data) ++ n ++ ("\x7d\x7d".data)) rv
      (X ++ (("\x7b\x7b".data) ++ n ++ ("\x7d\x7d".data) ++ Y)) =
    X ++ (rv ++ Y) := by
  have hpat : ("\x7b\x7b".data) ++ n ++ ("\x7d\x7d".data) =
      '{' :: '{' :: (n ++ ("\x7d\x7d".data)) := by
    rw [mmStr_eq]
    simp
  obtain ⟨c0, t0, hct⟩ : ∃ c t, n = c :: t := by
    cases n with
    | nil => exact absurd rfl (nameOk_ne_nil hn)
    | cons c t => exact ⟨c, t, rfl⟩
  have hc0 : upperOrUnd c0 = true := nameOk_mem hn c0 (by rw [hct]; simp)
  intro X
  induction X with
  | nil =>
    intro Y hX
    simp only [List.nil_append]
    cases hcase : ("\x7b\x7b".data) ++ n ++ ("\x7d\x7d".data) ++ Y with
    | nil => exact absurd hcase (by rw [hpat]; simp)
    | cons d t =>
      rw [replaceFirst_cons]
      rw [if_pos (by rw [← hcase]; exact startsWithL_append_self _ _)]
      have hdrop : (d :: t).drop
          (("\x7b\x7b".data) ++ n ++ ("\x7d\x7d".data)).length = Y := by
        rw [← hcase, List.drop_left]
      rw [hdrop]
  | cons c X' ih =>
    intro Y hX
    rw [containsSub_cons_eq] at hX
    simp at hX
    show replaceFirst (("\x7b\x7b".data) ++ n ++ ("\x7d\x7d".data)) rv
        (c :: (X' ++ (("\x7b\x7b".data) ++ n ++ ("\x7d\x7d".data) ++ Y))) =
      c :: (X' ++ (rv ++ Y))
    rw [replaceFirst_cons, if_neg ?hsw]
    · rw [ih Y hX.2]
    case hsw =>
      simp only [Bool.not_eq_true]
      rw [hpat]
      by_cases hc : c = '{'
      · subst hc
        cases X' with
        | nil =>
          simp only [List.nil_append]
          have hne : ¬(c0 = '{') := fun h => upperOrUnd_ne_ob hc0 h
          rw [hct]
          simp [startsWithL, hne]
        | cons d X2 =>
          have hd : d ≠ '{' := by
            intro hcon
            subst hcon
            have : startsWithL ("\x7b\x7b".data) ('{' :: '{' :: X2) = true := by
              rw [mmStr_eq]
              exact startsWithL_two.mpr ⟨X2, rfl⟩
            rw [this] at hX
            exact absurd hX.1 (by simp)
          rw [List.cons_append]
          show ((('{' : Char) = '{') &&
            startsWithL ('{' :: (n ++ ("\x7d\x7d".data)))
              (d :: (X2 ++ (("\x7b\x7b".data) ++ n ++ ("\x7d\x7d".data) ++ Y)))) =
            false
          simp [startsWithL]
          intro h
          exact absurd h.symm hd
      · rw [startsWithL_cons_false (fun h => hc h.symm)]

theorem resolveStep_eq (acc m : List Char) :
    resolveStep acc m =
      replaceFirst m (resolveVal (stripMarker m)) acc := by
  rw [resolveStep, resolveVal]
  by_cases h : optionalVars.contains (stripMarker m) = true
  · rw [if_pos h, if_pos h]
  · rw [if_neg h, if_neg h]

theorem placeholder_shape (n : List Char) :
    placeholderFor n = ("/* TODO: Replace ".data) ++ n ++ (" */".data) := rfl

theorem placeholder_ne_nil (n : List Char) : placeholderFor n ≠ [] := by
  rw [placeholder_shape]
  simp

theorem placeholder_MM_free {n : List Char} (hn : nameOk n = true) :
    containsSub ("\x7b\x7b".data) (placeholderFor n) = false := by
  rw [placeholder_shape]
  apply MM_append_free
  · apply MM_append_free (by decide) (nameOk_MM_free hn)
    intro hl _
    have : (("/* TODO: Replace ".data) : List Char).getLast? = some ' ' := by
      decide
    rw [this] at hl
    simp at hl
  · decide
  · intro _ hh
    have : ((" */".data) : List Char).head? = some ' ' := by decide
    rw [this] at hh
    simp at hh

theorem placeholder_getLast (n : List Char) :
    (placeholderFor n).getLast? = some '/' := by
  rw [placeholder_shape,
    List.getLast?_append_of_ne_nil _ (by decide : (" */".data) ≠ [])]
  decide

theorem placeholder_head (n : List Char) :
    (placeholderFor n).head? = some '/' := by
  rw [placeholder_shape,
    List.head?_append_of_ne_nil _
      (show ("/* TODO: Replace ".data) ++ n ≠ [] by simp),
    List.head?_append_of_ne_nil _
      (by decide : ("/* TODO: Replace ".data) ≠ ([] : List Char))]
  decide

theorem resolveVal_MM_free {n : List Char} (hn : nameOk n = true) :
    containsSub ("\x7b\x7b".data) (resolveVal n) = false := by
  rw [resolveVal]
  by_cases h : optionalVars.contains n = true
  · rw [if_pos h]; rfl
  · rw [if_neg h]; exact placeholder_MM_free hn

theorem resolveVal_getLast_ne_ob {n : List Char} :
    (resolveVal n).getLast? = some '{' → False := by
  rw [resolveVal]
  by_cases h : optionalVars.contains n = true
  · rw [if_pos h]; simp
  · rw [if_neg h, placeholder_getLast]; simp

theorem resolveVal_head_ne_ob {n : List Char} :
    (resolveVal n).head? = some '{' → False := by
  rw [resolveVal]
  by_cases h : optionalVars.contains n = true
  · rw [if_pos h]; simp
  · rw [if_neg h, placeholder_head]; simp

theorem resolveRep_txt (a : List Char) (r : List Seg) :
    resolveRep (Seg.txt a :: r) = Seg.txt a :: resolveRep r := rfl

theorem resolveRep_mark (n : List Char) (r : List Seg) :
    resolveRep (Seg.mark n :: r) =
      Seg.txt (resolveVal n) :: resolveRep r := rfl

theorem markStringsOf_txt (a : List Char) (r : List Seg) :
    markStringsOf (Seg.txt a :: r) = markStringsOf r := rfl

theorem markStringsOf_mark (n : List Char) (r : List Seg) :
    markStringsOf (Seg.mark n :: r) =
      (("\x7b\x7b".data) ++ n ++ ("\x7d\x7d".data)) :: markStringsOf r := rfl

theorem resolve_fold :
    ∀ (rep : List Seg) (P : List Char), repClean rep = true →
    containsSub ("\x7b\x7b".data) P = false →
    (P.getLast? = some '{' → (flattenSegs rep).head? ≠ some '{') →
    List.foldl resolveStep (P ++ flattenSegs rep) (markStringsOf rep) =
      P ++ flattenSegs (resolveRep rep) ∧
    containsSub ("\x7b\x7b".data) (P ++ flattenSegs (resolveRep rep)) =
      false := by
  intro rep
  induction rep with
  | nil =>
    intro P _ hP _
    constructor
    · rfl
    · show containsSub ("\x7b\x7b".data) (P ++ []) = false
      simpa using hP
  | cons s r ih =>
    intro P hclean hP hseam
    cases s with
    | txt a =>
      obtain ⟨hfree, hsm, hrc⟩ := repClean_txt hclean
      have hPa : containsSub ("\x7b\x7b".data) (P ++ a) = false := by
        apply MM_append_free hP hfree
        intro hl hh
        apply hseam hl
        show (flattenSegs (Seg.txt a :: r)).head? = some '{'
        show (a ++ flattenSegs r).head? = some '{'
        cases a with
        | nil => simp at hh
        | cons c t =>
          rw [List.head?_append_of_ne_nil _ (by simp)]
          exact hh
      have hseam2 : (P ++ a).getLast? = some '{' →
          (flattenSegs r).head? ≠ some '{' := by
        intro hl hh
        cases ha : a with
        | nil =>
          subst ha
          rw [List.append_nil] at hl
          apply hseam hl
          show (([] : List Char) ++ flattenSegs r).head? = some '{'
          simpa using hh
        | cons c t =>
          rw [ha, List.getLast?_append_of_ne_nil _ (by simp)] at hl
          rw [← ha] at hl
          have := hsm hl
          rw [startsWith_one.mpr hh] at this
          simp at this
      have hmain := ih (P ++ a) hrc hPa hseam2
      have hshape : P ++ flattenSegs (Seg.txt a :: r) =
          (P ++ a) ++ flattenSegs r := by
        show P ++ (a ++ flattenSegs r) = (P ++ a) ++ flattenSegs r
        rw [List.append_assoc]
      have hshape2 : P ++ flattenSegs (resolveRep (Seg.txt a :: r)) =
          (P ++ a) ++ flattenSegs (resolveRep r) := by
        rw [resolveRep_txt]
        show P ++ (a ++ flattenSegs (resolveRep r)) = _
        rw [List.append_assoc]
      rw [markStringsOf_txt, hshape, hshape2]
      exact hmain
    | mark n =>
      obtain ⟨hn, hrc⟩ := repClean_mark hclean
      have hPlast : P.getLast? = some '{' → False := by
        intro hl
        apply hseam hl
        rw [flattenSegs_mark_shape]
        rfl
      rw [markStringsOf_mark, List.foldl_cons, resolveStep_eq,
        stripMarker_mark hn]
      have hacc : P ++ flattenSegs (Seg.mark n :: r) =
          P ++ (("\x7b\x7b".data) ++ n ++ ("\x7d\x7d".data) ++
            flattenSegs r) := rfl
      rw [hacc, replaceFirst_at hn (resolveVal n) P (flattenSegs r) hP]
      have hPrv : containsSub ("\x7b\x7b".data) (P ++ resolveVal n) = false := by
        apply MM_append_free hP (resolveVal_MM_free hn)
        intro hl hh
        exact resolveVal_head_ne_ob hh
      have hseam2 : (P ++ resolveVal n).getLast? = some '{' →
          (flattenSegs r).head? ≠ some '{' := by
        intro hl _
        cases hrv : resolveVal n with
        | nil =>
          rw [hrv] at hl
          rw [List.append_nil] at hl
          exact hPlast hl
        | cons c t =>
          rw [hrv, List.getLast?_append_of_ne_nil _ (by simp)] at hl
          rw [← hrv] at hl
          exact resolveVal_getLast_ne_ob hl
      have hmain := ih (P ++ resolveVal n) hrc hPrv hseam2
      have hshape : P ++ (resolveVal n ++ flattenSegs r) =
          (P ++ resolveVal n) ++ flattenSegs r := by
        rw [List.append_assoc]
      have hshape2 : P ++ flattenSegs (resolveRep (Seg.mark n :: r)) =
          (P ++ resolveVal n) ++ flattenSegs (resolveRep r) := by
        rw [resolveRep_mark]
        show P ++ (resolveVal n ++ flattenSegs (resolveRep r)) = _
        rw [List.append_assoc]
      rw [hshape, hshape2]
      exact hmain

theorem containsSub_MM_nil : containsSub ("\x7b\x7b".data) [] = false := rfl

theorem parseSegsGo_sound :
    ∀ (fuel : Nat) (acc l : List Char) (rep : List Seg),
    containsSub ("\x7b\x7b".data) acc.reverse = false →
    (acc.head? = some '{' → l.head? ≠ some '{') →
    parseSegsGo fuel acc l = some rep →
    flattenSegs rep = acc.reverse ++ l ∧ repClean rep = true := by
  intro fuel
  induction fuel with
  | zero =>
    intro acc l rep _ _ h
    exact absurd h (by rw [parseSegsGo]; simp)
  | succ f ih =>
    intro acc l rep hacc hpair hp
    cases l with
    | nil =>
      rw [parseSegsGo] at hp
      cases acc with
      | nil =>
        simp at hp
        subst hp
        exact ⟨rfl, rfl⟩
      | cons a0 accT =>
        have hrep : [Seg.txt (a0 :: accT).reverse] = rep := Option.some.inj hp
        subst hrep
        constructor
        · rfl
        · have hacc2 := hacc
          simp at hacc2
          simp [repClean, flattenSegs, startsWithL, hacc2]
    | cons c t =>
      rw [parseSegsGo] at hp
      by_cases hMM : startsWithL ("\x7b\x7b".data) (c :: t) = true
      · rw [if_pos hMM] at hp
        obtain ⟨t2, ht2⟩ := startsWithL_two.mp (by rw [← mmStr_eq]; exact hMM)
        have hc : c = '{' := (List.cons_eq_cons.mp ht2).1
        have ht : t = '{' :: t2 := (List.cons_eq_cons.mp ht2).2
        by_cases hhd : acc.head? = some '{'
        · rw [if_pos hhd] at hp
          exact absurd hp (by simp)
        · rw [if_neg hhd] at hp
          have hdrop2 : (c :: t).drop 2 = t2 := by rw [ht]; rfl
          rw [hdrop2] at hp
          by_cases hnm : (t2.takeWhile upperOrUnd).isEmpty = true
          · rw [if_pos hnm] at hp
            exact absurd hp (by simp)
          · rw [if_neg hnm] at hp
            by_cases hcb : startsWithL ("\x7d\x7d".data)
                (t2.drop (t2.takeWhile upperOrUnd).length) = true
            · rw [if_pos hcb] at hp
              cases hip : parseSegsGo f []
                  ((t2.drop (t2.takeWhile upperOrUnd).length).drop 2) with
              | none => rw [hip] at hp; exact absurd hp (by simp)
              | some segs =>
                rw [hip] at hp
                simp at hp
                obtain ⟨hflat_in, hclean_in⟩ :=
                  ih [] _ segs containsSub_MM_nil (by simp) hip
                rw [List.reverse_nil, List.nil_append] at hflat_in
                have hsplit : t2 = t2.takeWhile upperOrUnd ++
                    t2.drop (t2.takeWhile upperOrUnd).length := by
                  rw [drop_takeWhile_length]
                  exact (List.takeWhile_append_dropWhile upperOrUnd t2).symm
                obtain ⟨r4, hr4⟩ := startsWithL_ex hcb
                have hrest2 : (t2.drop (t2.takeWhile upperOrUnd).length).drop 2
                    = r4 := by
                  rw [hr4]
                  have h2 : ("\x7d\x7d".data).length = 2 := rfl
                  rw [← h2, List.drop_left]
                have hnmOk : nameOk (t2.takeWhile upperOrUnd) = true := by
                  rw [nameOk]
                  simp only [Bool.and_eq_true]
                  constructor
                  · simp [hnm]
                  · rw [List.all_eq_true]
                    intro c2 hc2
                    exact List.mem_takeWhile_imp hc2
                have htext : (c :: t) =
                    ("\x7b\x7b".data) ++ (t2.takeWhile upperOrUnd ++
                      (("\x7d\x7d".data) ++ r4)) := by
                  rw [hc, ht, mmStr_eq]
                  have hteq : t2 = t2.takeWhile upperOrUnd ++
                      (("\x7d\x7d".data) ++ r4) := by
                    conv_lhs => rw [hsplit]
                    rw [hr4]
                  show ('{' : Char) :: '{' :: t2 = '{' :: '{' ::
                    (t2.takeWhile upperOrUnd ++ (("\x7d\x7d".data) ++ r4))
                  rw [← hteq]
                have hflatm : flattenSegs (Seg.mark (t2.takeWhile upperOrUnd)
                    :: segs) = (c :: t) := by
                  rw [flattenSegs_mark_shape, hflat_in, hrest2, htext, mmStr_eq]
                  rfl
                cases acc with
                | nil =>
                  rw [← hp]
                  constructor
                  · show flattenSegs (Seg.mark (t2.takeWhile upperOrUnd) ::
                        segs) = c :: t
                    exact hflatm
                  · show repClean (Seg.mark (t2.takeWhile upperOrUnd) ::
                        segs) = true
                    rw [repClean]
                    simp [hnmOk, hclean_in]
                | cons a0 accT =>
                  rw [← hp]
                  constructor
                  · show (a0 :: accT).reverse ++
                        flattenSegs (Seg.mark (t2.takeWhile upperOrUnd) ::
                          segs) =
                      (a0 :: accT).reverse ++ (c :: t)
                    rw [hflatm]
                  · show repClean (Seg.txt (a0 :: accT).reverse ::
                        Seg.mark (t2.takeWhile upperOrUnd) :: segs) = true
                    rw [repClean]
                    simp only [Bool.and_eq_true]
                    refine ⟨⟨by simpa using hacc, ?_⟩, ?_⟩
                    · simp only [Bool.not_eq_true']
                      have h3 : (a0 :: accT).reverse.getLast? =
                          (a0 :: accT).head? := List.getLast?_reverse _
                      rw [h3]
                      have ha0 : ((a0 :: accT).head? = some '{') = False := by
                        simp
                        intro hcon
                        exact hhd (by rw [List.head?_cons, hcon])
                      simp [ha0]
                      intro hcon
                      exact absurd (show (a0 :: accT).head? = some '{' by
                        rw [List.head?_cons, hcon]) hhd
                    · rw [repClean]
                      simp [hnmOk, hclean_in]
            · rw [if_neg hcb] at hp
              exact absurd hp (by simp)
      · rw [if_neg hMM] at hp
        have hacc2 : containsSub ("\x7b\x7b".data) (c :: acc).reverse =
            false := by
          rw [List.reverse_cons]
          apply MM_append_free hacc (containsSub_MM_single c)
          intro hl hh
          simp at hh
          rw [List.getLast?_reverse] at hl
          exact hpair hl (by rw [hh]; rfl)
        have hpair2 : (c :: acc).head? = some '{' → t.head? ≠ some '{' := by
          intro hch hth
          simp at hch
          subst hch
          rw [mmStr_eq] at hMM
          apply hMM
          apply startsWithL_two.mpr
          cases t with
          | nil => simp at hth
          | cons d t2 =>
            simp at hth
            exact ⟨t2, by rw [hth]⟩
        obtain ⟨hf, hcl⟩ := ih (c :: acc) t rep hacc2 hpair2 hp
        constructor
        · rw [hf, List.reverse_cons, List.append_assoc]
          rfl
        · exact hcl

theorem placeholder_in_resolved {n : List Char} :
    ∀ rep : List Seg, Seg.mark n ∈ rep →
    optionalVars.contains n = false →
    containsSub (placeholderFor n) (flattenSegs (resolveRep rep)) = true := by
  intro rep
  induction rep with
  | nil => intro hm _; simp at hm
  | cons s r ih =>
    intro hm hopt
    rcases List.mem_cons.mp hm with hh | ht
    · rw [← hh, resolveRep_mark]
      show containsSub (placeholderFor n)
        (resolveVal n ++ flattenSegs (resolveRep r)) = true
      rw [resolveVal, if_neg (by rw [hopt]; simp)]
      exact contains_of_startsWith (startsWithL_append_self _ _)
    · cases s with
      | txt a =>
        rw [resolveRep_txt]
        show containsSub (placeholderFor n)
          (a ++ flattenSegs (resolveRep r)) = true
        exact containsSub_append_left (ih ht hopt)
      | mark m =>
        rw [resolveRep_mark]
        show containsSub (placeholderFor n)
          (resolveVal m ++ flattenSegs (resolveRep r)) = true
        exact containsSub_append_left (ih ht hopt)

theorem mem_markNames {n : List Char} :
    ∀ rep : List Seg, repClean rep = true →
    n ∈ (markStringsOf rep).map stripMarker → Seg.mark n ∈ rep := by
  intro rep
  induction rep with
  | nil => intro _ hm; simp [markStringsOf] at hm
  | cons s r ih =>
    intro hclean hm
    cases s with
    | txt a =>
      rw [markStringsOf_txt] at hm
      exact List.mem_cons_of_mem _ (ih (repClean_txt hclean).2.2 hm)
    | mark m =>
      obtain ⟨hmOk, hrc⟩ := repClean_mark hclean
      rw [markStringsOf_mark] at hm
      simp only [List.map_cons, List.mem_cons] at hm
      rcases hm with hh | ht
      · rw [stripMarker_mark hmOk] at hh
        rw [hh]
        exact List.Mem.head _
      · exact List.mem_cons_of_mem _ (ih hrc ht)

theorem repClean_mark_of_mem {n : List Char} :
    ∀ rep : List Seg, repClean rep = true → Seg.mark n ∈ rep →
    nameOk n = true := by
  intro rep
  induction rep with
  | nil => intro _ hm; simp at hm
  | cons s r ih =>
    intro hclean hm
    rcases List.mem_cons.mp hm with hh | ht
    · cases s with
      | txt a => exact absurd hh.symm (by simp)
      | mark m =>
        have : m = n := by
          have := hh
          injection this.symm
        rw [← this]
        exact (repClean_mark hclean).1
    · cases s with
      | txt a => exact ih (repClean_txt hclean).2.2 ht
      | mark m => exact ih (repClean_mark hclean).2 ht

theorem interfaceKeys_nameOk : ∀ k ∈ interfaceKeys, nameOk k = true := by
  decide

theorem render_spec (rep : List Seg) (vars : List (List Char × List Char))
    (hclean : repClean rep = true)
    (hkv : ∀ kv ∈ vars, nameOk kv.1 = true ∧ valueClean kv.2 = true) :
    containsSub ("\x7b\x7b".data)
      (renderTemplate (flattenSegs rep) vars) = false ∧
    renderTemplate (flattenSegs rep) vars =
      flattenSegs (resolveRep (substRep vars rep)) := by
  obtain ⟨hsub, hclean2⟩ := substRep_spec vars rep hclean hkv
  have hscan : scanMarkers (flattenSegs (substRep vars rep)) =
      markStringsOf (substRep vars rep) :=
    scanGo_main _ _ hclean2 (Nat.le_refl _)
  have hfold := resolve_fold (substRep vars rep) [] hclean2
    containsSub_MM_nil (by simp)
  have h1 : List.foldl resolveStep (flattenSegs (substRep vars rep))
      (markStringsOf (substRep vars rep)) =
      flattenSegs (resolveRep (substRep vars rep)) := hfold.1
  have h2 : containsSub ("\x7b\x7b".data)
      (flattenSegs (resolveRep (substRep vars rep))) = false := hfold.2
  constructor
  · rw [renderTemplate, hsub, resolveLeftovers, hscan, h1]
    exact h2
  · rw [renderTemplate, hsub, resolveLeftovers, hscan, h1]

theorem c6_tpl_case {tpl : List Char} {rep : List Seg}
    (hp : parseSegsGo 4000 [] tpl = some rep)
    (vars : List (List Char × List Char))
    (hv : ∀ kv ∈ vars, nameOk kv.1 = true ∧ valueClean kv.2 = true) :
    containsSub ("\x7b\x7b".data) (renderTemplate tpl vars) = false ∧
    ∀ n ∈ markerNamesOf tpl,
      (∀ kv ∈ vars, kv.1 ≠ n) → optionalVars.contains n = false →
      containsSub (placeholderFor n) (renderTemplate tpl vars) = true := by
  obtain ⟨hflat0, hclean⟩ := parseSegsGo_sound 4000 [] tpl rep
    containsSub_MM_nil (by simp) hp
  have hflat : flattenSegs rep = tpl := by simpa using hflat0
  obtain ⟨hmm, hout⟩ := render_spec rep vars hclean hv
  rw [← hflat]
  constructor
  · exact hmm
  · intro n hmem hnotprov hnotopt
    have hscan0 : scanMarkers (flattenSegs rep) = markStringsOf rep :=
      scanGo_main rep _ hclean (Nat.le_refl _)
    rw [markerNamesOf, hscan0] at hmem
    have hmark : Seg.mark n ∈ rep := mem_markNames rep hclean hmem
    have hmark2 : Seg.mark n ∈ substRep vars rep :=
      mark_mem_substRep vars rep hmark (fun kv hkv => hnotprov kv hkv)
    rw [hout]
    exact placeholder_in_resolved _ hmark2 hnotopt

set_option maxRecDepth 10000 in
/-- Claim C6: for every template registered in the registry and every
variable set typed by the TemplateVariables interface (values free of brace
and dollar characters), the registered name resolves to the template;
rendering never throws and leaves no literal marker in the output (in
particular none for a missing known-optional variable, which is replaced by
the empty string); and every marker of the template whose name was not
provided and is not in the known-optional list is replaced by the TODO
placeholder comment containing that variable\x27s name. -/
theorem c6_missing_variable_handling :
    ∀ nb ∈ templateRegistry, ∀ vars : List (List Char × List Char),
    (∀ kv ∈ vars, kv.1 ∈ interfaceKeys ∧ valueClean kv.2 = true) →
    getTemplate nb.1 = some nb.2 ∧
    containsSub ("\x7b\x7b".data) (renderTemplate nb.2 vars) = false ∧
    ∀ n ∈ markerNamesOf nb.2,
      (∀ kv ∈ vars, kv.1 ≠ n) → optionalVars.contains n = false →
      containsSub (placeholderFor n) (renderTemplate nb.2 vars) = true := by
  intro nb hnb vars hv
  have hv2 : ∀ kv ∈ vars, nameOk kv.1 = true ∧ valueClean kv.2 = true :=
    fun kv h => ⟨interfaceKeys_nameOk kv.1 (hv kv h).1, (hv kv h).2⟩
  rw [templateRegistry] at hnb
  simp only [List.mem_cons, List.not_mem_nil, or_false] at hnb
  rcases hnb with rfl | rfl | rfl | rfl | rfl | rfl | rfl | rfl | rfl | rfl |
    rfl | rfl | rfl | rfl | rfl
  · cases hp : parseSegsGo 4000 [] tplTypeScriptBasic with
    | none => exact absurd hp (by decide)
    | some rep =>
      have hc := c6_tpl_case hp vars hv2
      exact ⟨rfl, hc.1, hc.2⟩
  · cases hp : parseSegsGo 4000 [] tplTypeScriptTools with
    | none => exact absurd hp (by decide)
    | some rep =>
      have hc := c6_tpl_case hp vars hv2
      exact ⟨rfl, hc.1, hc.2⟩
  · cases hp : parseSegsGo 4000 [] tplTypeScriptResources with
    | none => exact absurd hp (by decide)
    | some rep =>
      have hc := c6_tpl_case hp vars hv2
      exact ⟨rfl, hc.1, hc.2⟩
  · cases hp : parseSegsGo 4000 [] tplTypeScriptPrompts with
    | none => exact absurd hp (by decide)
    | some rep =>
      have hc := c6_tpl_case hp vars hv2
      exact ⟨rfl, hc.1, hc.2⟩
  · cases hp : parseSegsGo 4000 [] tplTypeScriptAdvanced with
    | none => exact absurd hp (by decide)
    | some rep =>
      have hc := c6_tpl_case hp vars hv2
      exact ⟨rfl, hc.1, hc.2⟩
  · cases hp : parseSegsGo 4000 [] tplJavaScriptBasic with
    | none => exact absurd hp (by decide)
    | some rep =>
      have hc := c6_tpl_case hp vars hv2
      exact ⟨rfl, hc.1, hc.2⟩
  · cases hp : parseSegsGo 4000 [] tplJavaScriptTools with
    | none => exact absurd hp (by decide)
    | some rep =>
      have hc := c6_tpl_case hp vars hv2
      exact ⟨rfl, hc.1, hc.2⟩
  · cases hp : parseSegsGo 4000 [] tplJavaScriptResources with
    | none => exact absurd hp (by decide)
    | some rep =>
      have hc := c6_tpl_case hp vars hv2
      exact ⟨rfl, hc.1, hc.2⟩
  · cases hp : parseSegsGo 4000 [] tplJavaScriptPrompts with
    | none => exact absurd hp (by decide)
    | some rep =>
      have hc := c6_tpl_case hp vars hv2
      exact ⟨rfl, hc.1, hc.2⟩
  · cases hp : parseSegsGo 4000 [] tplJavaScriptAdvanced with
    | none => exact absurd hp (by decide)
    | some rep =>
      have hc := c6_tpl_case hp vars hv2
      exact ⟨rfl, hc.1, hc.2⟩
  · cases hp : parseSegsGo 4000 [] tplPythonBasic with
    | none => exact absurd hp (by decide)
    | some rep =>
      have hc := c6_tpl_case hp vars hv2
      exact ⟨rfl, hc.1, hc.2⟩
  · cases hp : parseSegsGo 4000 [] tplPythonTools with
    | none => exact absurd hp (by decide)
    | some rep =>
      have hc := c6_tpl_case hp vars hv2
      exact ⟨rfl, hc.1, hc.2⟩
  · cases hp : parseSegsGo 4000 [] tplPythonResources with
    | none => exact absurd hp (by decide)
    | some rep =>
      have hc := c6_tpl_case hp vars hv2
      exact ⟨rfl, hc.1, hc.2⟩
  · cases hp : parseSegsGo 4000 [] tplPythonPrompts with
    | none => exact absurd hp (by decide)
    | some rep =>
      have hc := c6_tpl_case hp vars hv2
      exact ⟨rfl, hc.1, hc.2⟩
  · cases hp : parseSegsGo 4000 [] tplPythonAdvanced with
    | none => exact absurd hp (by decide)
    | some rep =>
      have hc := c6_tpl_case hp vars hv2
      exact ⟨rfl, hc.1, hc.2⟩

/-- Witness for C6: the typescript-basic template rendered with only
SERVER_NAME provided contains no leftover marker. -/
theorem c6_witness :
    getTemplate ("typescript-basic".data) = some tplTypeScriptBasic ∧
    containsSub ("\x7b\x7b".data)
      (renderTemplate tplTypeScriptBasic
        [(("SERVER_NAME".data), ("demo".data))]) = false := by
  have h := c6_missing_variable_handling
    (("typescript-basic".data), tplTypeScriptBasic)
    (by rw [templateRegistry]; exact List.Mem.head _)
    [(("SERVER_NAME".data), ("demo".data))]
    (by decide)
  exact ⟨h.1, h.2.1⟩

end MCPB
